import Mathlib

/-! Verification of spl-scan: a shallow embedding of the orchestration core.

The JavaScript sources are embedded as pure Lean functions with explicit state
passing.  Mutable module singletons (the token state manager, the monitor) become
record values that are threaded through the calls; `Date.now()` becomes an
explicit clock argument; exceptions become `Except`; `async` functions are run to
completion in program order, and the places where another task may interleave
(an `await`) are made explicit by splitting the function at that point.
-/

namespace SplScan

/-! ## JavaScript `Map` with string keys (insertion ordered) -/

namespace JsMap

/-- The call `map.get(key)`; `none` stands for `undefined`. -/
def get {β : Type} : List (String × β) → String → Option β
  | [], _ => none
  | (k, v) :: rest, key => if k = key then some v else get rest key

/-- The call `map.has(key)`. -/
def has {β : Type} (m : List (String × β)) (key : String) : Bool :=
  (get m key).isSome

/-- The call `map.set(key, value)`: an existing key keeps its position, a new key goes last. -/
def set {β : Type} : List (String × β) → String → β → List (String × β)
  | [], key, v => [(key, v)]
  | (k, w) :: rest, key, v =>
    if k = key then (k, v) :: rest else (k, w) :: set rest key v

/-- The call `map.delete(key)`. -/
def delete {β : Type} : List (String × β) → String → List (String × β)
  | [], _ => []
  | (k, w) :: rest, key => if k = key then rest else (k, w) :: delete rest key

end JsMap

/-! ## `src/utils/TokenStateManager.js` -/

/-- One element of `token.processingHistory`. -/
structure HistoryEntry where
  stage : String
  startTime : Nat
  endTime : Option Nat
  duration : Option Int
deriving DecidableEq, Repr

/-- One element of `token.errors`. -/
structure TokenError where
  timestamp : Nat
  error : String
  context : String
  stage : Option String
deriving DecidableEq, Repr

/-- The per-mint state object built by `initializeToken` (its `emit` hook is
`TokenStateManager.tokenEmit`). -/
structure Token where
  mintAddress : String
  withdrawProcessing : Bool
  tradingStarted : Bool
  marketcapLogging : Bool
  lastProcessedTime : Option Nat
  currentStage : Option String
  errors : List TokenError
  retryAttempts : Nat
  processingHistory : List HistoryEntry
deriving DecidableEq, Repr

/-- Events published on the `TokenStateManager` emitter, with their payloads. -/
inductive Event where
  | tokenInitialized (mintAddress : String) (timestamp : Nat)
  | tokenCleanup (mintAddress : String) (timestamp : Nat) (lastProcessedTime : Nat)
  | withdrawStart (mintAddress : String) (timestamp : Option Nat) (currentStage : Option String)
  | withdrawComplete (mintAddress : String) (timestamp : Option Nat)
      (currentStage : Option String) (processingDuration : Option Int)
  | tradingStart (mintAddress : String) (timestamp : Option Nat) (currentStage : Option String)
  | marketcapLoggingStart (mintAddress : String) (timestamp : Option Nat)
  | tokenError (mintAddress : String) (timestamp : Nat) (error : String) (context : String)
      (stage : Option String)
  | retryAttempt (mintAddress : String) (attempt : Nat) (maxAttempts : Nat)
  | retrySuccess (mintAddress : String) (attempts : Nat)
  | retryError (mintAddress : String) (attempt : Nat) (error : String)
deriving DecidableEq, Repr

/-- The singleton `tokenStateManager`: its `tokens` map and, as an observable, the
list of events it has emitted so far (oldest first). -/
structure TokenStateManager where
  tokens : List (String × Token)
  emitted : List Event
deriving DecidableEq, Repr

namespace TokenStateManager

/-- The state right after `new TokenStateManager()`. -/
def new : TokenStateManager := { tokens := [], emitted := [] }

/-- The call `this.emit(event, payload)`: no listener is registered, the event is only
recorded. -/
def emit (s : TokenStateManager) (e : Event) : TokenStateManager :=
  { s with emitted := s.emitted ++ [e] }

/-- Method `getTokenState(mintAddress)`. -/
def getTokenState (s : TokenStateManager) (mintAddress : String) : Option Token :=
  JsMap.get s.tokens mintAddress

/-- Method `initializeToken(mintAddress)`; `now` is the value of `Date.now()` read for the
`tokenInitialized` event. Returns the manager and the token object of the mint. -/
def initializeToken (s : TokenStateManager) (mintAddress : String) (now : Nat) :
    TokenStateManager × Token :=
  match JsMap.get s.tokens mintAddress with
  | some token => (s, token)
  | none =>
    let token : Token :=
      { mintAddress := mintAddress
        withdrawProcessing := false
        tradingStarted := false
        marketcapLogging := false
        lastProcessedTime := none
        currentStage := none
        errors := []
        retryAttempts := 0
        processingHistory := [] }
    (emit { s with tokens := JsMap.set s.tokens mintAddress token }
      (.tokenInitialized mintAddress now), token)

/-- Method `startWithdrawProcessing(mintAddress)`. `dateNow k` is the value of the `k`-th
`Date.now()` read of the call (0: in `initializeToken`, 1: `lastProcessedTime`,
2: the history entry). -/
def startWithdrawProcessing (s : TokenStateManager) (mintAddress : String)
    (dateNow : Nat → Nat) : TokenStateManager × Bool :=
  let (s1, token) := initializeToken s mintAddress (dateNow 0)
  if token.withdrawProcessing then (s1, false)
  else
    let token1 : Token :=
      { token with
        withdrawProcessing := true
        currentStage := some "withdraw"
        lastProcessedTime := some (dateNow 1)
        processingHistory := token.processingHistory ++
          [{ stage := "withdraw", startTime := dateNow 2, endTime := none, duration := none }] }
    (emit { s1 with tokens := JsMap.set s1.tokens mintAddress token1 }
      (.withdrawStart mintAddress token1.lastProcessedTime token1.currentStage), true)

/-- The `find(h => h.stage === 'withdraw' && !h.endTime)` of
`completeWithdrawProcessing`: closes the first open withdraw entry. `endTime` 0 is
falsy, so such an entry counts as open. Returns the new history and the entry. -/
def closeWithdrawEntry (endTime : Nat) :
    List HistoryEntry → List HistoryEntry × Option HistoryEntry
  | [] => ([], none)
  | h :: rest =>
    if h.stage = "withdraw" ∧ (h.endTime = none ∨ h.endTime = some 0) then
      let h1 : HistoryEntry :=
        { h with endTime := some endTime, duration := some ((endTime : Int) - (h.startTime : Int)) }
      (h1 :: rest, some h1)
    else
      let (rest1, found) := closeWithdrawEntry endTime rest
      (h :: rest1, found)

/-- Method `completeWithdrawProcessing(mintAddress)` (`dateNow 0`: `endTime`, `dateNow 1`:
`lastProcessedTime`). -/
def completeWithdrawProcessing (s : TokenStateManager) (mintAddress : String)
    (dateNow : Nat → Nat) : TokenStateManager :=
  match JsMap.get s.tokens mintAddress with
  | none => s
  | some token =>
    let (history, entry) := closeWithdrawEntry (dateNow 0) token.processingHistory
    let token1 : Token :=
      { token with
        processingHistory := history
        withdrawProcessing := false
        currentStage := some "post-withdraw"
        lastProcessedTime := some (dateNow 1) }
    emit { s with tokens := JsMap.set s.tokens mintAddress token1 }
      (.withdrawComplete mintAddress token1.lastProcessedTime token1.currentStage
        (entry.bind (fun h => h.duration)))

/-- Method `startTradingProcess(mintAddress)` (clock reads as in `startWithdrawProcessing`). -/
def startTradingProcess (s : TokenStateManager) (mintAddress : String)
    (dateNow : Nat → Nat) : TokenStateManager × Bool :=
  let (s1, token) := initializeToken s mintAddress (dateNow 0)
  if token.tradingStarted then (s1, false)
  else
    let token1 : Token :=
      { token with
        tradingStarted := true
        currentStage := some "trading"
        lastProcessedTime := some (dateNow 1)
        processingHistory := token.processingHistory ++
          [{ stage := "trading", startTime := dateNow 2, endTime := none, duration := none }] }
    (emit { s1 with tokens := JsMap.set s1.tokens mintAddress token1 }
      (.tradingStart mintAddress token1.lastProcessedTime token1.currentStage), true)

/-- Method `startMarketcapLogging(mintAddress)` (clock reads as in `startWithdrawProcessing`). -/
def startMarketcapLogging (s : TokenStateManager) (mintAddress : String)
    (dateNow : Nat → Nat) : TokenStateManager × Bool :=
  let (s1, token) := initializeToken s mintAddress (dateNow 0)
  if token.marketcapLogging then (s1, false)
  else
    let token1 : Token :=
      { token with
        marketcapLogging := true
        lastProcessedTime := some (dateNow 1)
        processingHistory := token.processingHistory ++
          [{ stage := "marketcap-logging", startTime := dateNow 2, endTime := none,
             duration := none }] }
    (emit { s1 with tokens := JsMap.set s1.tokens mintAddress token1 }
      (.marketcapLoggingStart mintAddress token1.lastProcessedTime), true)

/-- Method `isProcessingWithdraw(mintAddress)`. -/
def isProcessingWithdraw (s : TokenStateManager) (mintAddress : String) : Bool :=
  match JsMap.get s.tokens mintAddress with
  | some token => token.withdrawProcessing
  | none => false

/-- Method `hasTradingStarted(mintAddress)`. -/
def hasTradingStarted (s : TokenStateManager) (mintAddress : String) : Bool :=
  match JsMap.get s.tokens mintAddress with
  | some token => token.tradingStarted
  | none => false

/-- Method `isLoggingMarketcap(mintAddress)`. -/
def isLoggingMarketcap (s : TokenStateManager) (mintAddress : String) : Bool :=
  match JsMap.get s.tokens mintAddress with
  | some token => token.marketcapLogging
  | none => false

end TokenStateManager

/-! ## `App.js`: the in-flight guard of `processWithdrawEvent` -/

/-- The object returned by `extractTokenAddresses`. `pumpfunBondingCurve` is the
`owner` field of a balance entry (`none`: the field is absent) or `'Not found'`. -/
structure TokenAddresses where
  mintAddress : String
  pumpfunBondingCurve : Option String
deriving DecidableEq, Repr

/-- Function `processWithdrawEvent`, lines 64-79: everything the function does before its
first `await` (get or create the token, the `withdrawProcessing` guard, marking
the token). The flag is `true` when the guard was passed and the processing steps
start, `false` when the call returned early. -/
def processWithdrawEventEnter (s : TokenStateManager) (tokenAddresses : TokenAddresses)
    (dateNow : Nat → Nat) : TokenStateManager × Bool :=
  let (s1, token) := TokenStateManager.initializeToken s tokenAddresses.mintAddress (dateNow 0)
  if token.withdrawProcessing then (s1, false)
  else
    let token1 : Token :=
      { token with withdrawProcessing := true, currentStage := some "withdraw" }
    ({ s1 with tokens := JsMap.set s1.tokens tokenAddresses.mintAddress token1 }, true)

/-- Runs a stage-entry operation once per element of `calls`, in order, with
nothing else in between; returns the final state and the results in call order. -/
def callSeq {ι : Type} (op : TokenStateManager → ι → TokenStateManager × Bool) :
    TokenStateManager → List ι → TokenStateManager × List Bool
  | s, [] => (s, [])
  | s, c :: cs =>
    let r := op s c
    let rest := callSeq op r.1 cs
    (rest.1, r.2 :: rest.2)

/-! ## Configuration and JavaScript values -/

/-- The message of a thrown JavaScript error. -/
abbrev JsError := String

/-- The entries of `config.js` read by the embedded code; their values are parameters.
`RETRY_DELAY_MS` and `RETRY_MAX_ATTEMPTS` stand for `RETRY_MECHANISM.DELAY_MS` and
`RETRY_MECHANISM.MAX_ATTEMPTS`. -/
structure Config where
  PUMPFUN_RAYDIUM_MIGRATION : String
  MAX_SIGNATURE_CACHE : Nat
  RETRY_DELAY_MS : Nat
  RETRY_MAX_ATTEMPTS : Nat

/-- The test `s.includes(sub)` on character lists. -/
def includesChars (sub : List Char) : List Char → Bool
  | [] => sub.isEmpty
  | c :: cs => sub.isPrefixOf (c :: cs) || includesChars sub cs

/-- The test `s.includes(sub)`. -/
def includes (s sub : String) : Bool := includesChars sub.toList s.toList

/-- An element of `preTokenBalances` / `postTokenBalances` (`owner` is optional). -/
structure TokenBalance where
  mint : String
  owner : Option String
deriving DecidableEq, Repr

/-- The `meta` object of a parsed transaction; `none` is a missing or null field. -/
structure TransactionMeta where
  logMessages : Option (List String)
  preTokenBalances : Option (List TokenBalance)
  postTokenBalances : Option (List TokenBalance)
deriving DecidableEq, Repr

/-- What `getParsedTransaction` resolves to when it is not `null`. -/
structure ParsedTransaction where
  meta : Option TransactionMeta
deriving DecidableEq, Repr

/-- The expression `transaction?.meta?.logMessages`. -/
def logMessagesOf (transaction : Option ParsedTransaction) : Option (List String) :=
  (transaction.bind (fun t => t.meta)).bind (fun m => m.logMessages)

/-- The expression `transaction?.meta?.postTokenBalances`. -/
def postTokenBalancesOf (transaction : Option ParsedTransaction) : Option (List TokenBalance) :=
  (transaction.bind (fun t => t.meta)).bind (fun m => m.postTokenBalances)

/-! ## `src/core/extractTokenAddresses.js` -/

/-- The body of the `try` block of `extractTokenAddresses`: `.error` is a `throw`. -/
def extractTokenAddressesTry (tokens : TokenStateManager) (now : Nat)
    (transaction : Option ParsedTransaction) (PUMPFUN_RAYDIUM_MIGRATION : String) :
    TokenStateManager × Except JsError (Option TokenAddresses) :=
  match postTokenBalancesOf transaction with
  | none => (tokens, .error "Invalid transaction data structure")
  | some postTokenBalances =>
    match postTokenBalances.find? (fun balance => balance.owner = some PUMPFUN_RAYDIUM_MIGRATION) with
    | none => (tokens, .ok none)
    | some pumpfunAccount =>
      let mintAddress := pumpfunAccount.mint
      let bondingCurveAccount := postTokenBalances.find? (fun balance =>
        balance.mint = mintAddress ∧ balance.owner ≠ some PUMPFUN_RAYDIUM_MIGRATION)
      let tokenAddresses : TokenAddresses :=
        { mintAddress := mintAddress
          pumpfunBondingCurve :=
            match bondingCurveAccount with
            | some account => account.owner
            | none => some "Not found" }
      ((tokens.initializeToken mintAddress now).1, .ok (some tokenAddresses))

/-- A call `errorHandler.handleError(error, null, context)` (global scope). -/
structure HandledError where
  error : JsError
  context : String
deriving DecidableEq, Repr

/-- Function `extractTokenAddresses(transaction, PUMPFUN_RAYDIUM_MIGRATION)`. Returns the token
state manager, the `handleError` call made by the `catch` block (if any) and the
returned value (`none` is `null`). -/
def extractTokenAddresses (tokens : TokenStateManager) (now : Nat)
    (transaction : Option ParsedTransaction) (PUMPFUN_RAYDIUM_MIGRATION : String) :
    TokenStateManager × Option HandledError × Option TokenAddresses :=
  match extractTokenAddressesTry tokens now transaction PUMPFUN_RAYDIUM_MIGRATION with
  | (tokens1, .ok result) => (tokens1, none, result)
  | (tokens1, .error error) =>
    (tokens1, some { error := error, context := "extractTokenAddresses" }, none)

/-! ## `src/core/monitorSmartContract.js` -/

/-- The argument of the trading-start callback. -/
structure TradingStartInfo where
  mintAddress : String
deriving DecidableEq, Repr

/-- A JavaScript string used as a condition: only the empty string is falsy. -/
def truthy (s : String) : Bool := s ≠ ""

/-- Method `checkForWithdrawInstruction(transaction)`; the result has the shape of
`extractTokenAddresses`. -/
def checkForWithdrawInstruction (cfg : Config) (tokens : TokenStateManager) (now : Nat)
    (transaction : Option ParsedTransaction) :
    TokenStateManager × Option HandledError × Option TokenAddresses :=
  match logMessagesOf transaction with
  | some logMessages =>
    if logMessages.any (fun log => includes log "Instruction: Withdraw") then
      extractTokenAddresses tokens now transaction cfg.PUMPFUN_RAYDIUM_MIGRATION
    else (tokens, none, none)
  | none => (tokens, none, none)

/-- Method `extractNewTokenMint(transaction)`. -/
def extractNewTokenMint (transaction : ParsedTransaction) : Option String :=
  match transaction.meta.bind (fun m => m.preTokenBalances) with
  | some preTokenBalances =>
    let solTokenMint := "So11111111111111111111111111111111111111112"
    match preTokenBalances.find? (fun balance => balance.mint ≠ solTokenMint) with
    | some newTokenBalance => some newTokenBalance.mint
    | none => none
  | none => none

/-- Method `checkForTradingStart(transaction)`. -/
def checkForTradingStart (transaction : Option ParsedTransaction) : Option TradingStartInfo :=
  match transaction, logMessagesOf transaction with
  | some tx, some logMessages =>
    match logMessages.find? (fun log => includes log "initialize2:") with
    | some initializeLog =>
      if truthy initializeLog then
        match extractNewTokenMint tx with
        | some newTokenMint =>
          if truthy newTokenMint then some { mintAddress := newTokenMint } else none
        | none => none
      else none
    | none => none
  | _, _ => none

/-- What the monitor does that is visible outside it, in program order: the
invocations of `processTransaction`, the dispatches of the two callbacks, the calls
of `errorHandler.handleError(error, null, context)` and of the notifier, and the
reset of the signature cache. The `signature` of a callback or `handleError` event
names the transaction during whose processing it happened (`none`: outside any). -/
inductive MonitorEvent where
  | processTransaction (signature : String)
  | withdrawCallback (signature : String) (withdrawEvent : TokenAddresses)
  | tradingStartCallback (signature : String) (tradingStartEvent : TradingStartInfo)
  | handleError (signature : Option String) (call : HandledError)
  | sendErrorNotification (error : JsError)
  | cacheCleared
deriving DecidableEq, Repr

/-- The mutable fields of `SmartContractMonitor`; `processedSignatures` is the `Set`
in insertion order. -/
structure SmartContractMonitor where
  lastCheckedSignature : Option String
  isChecking : Bool
  processedSignatures : List String
deriving DecidableEq, Repr

/-- The fields as the constructor sets them. -/
def SmartContractMonitor.new : SmartContractMonitor :=
  { lastCheckedSignature := none, isChecking := false, processedSignatures := [] }

/-- The call `set.add(x)`. -/
def setAdd (set : List String) (x : String) : List String :=
  if x ∈ set then set else set ++ [x]

/-- Everything a poll cycle reads or writes: the monitor, the token state manager,
the state `ext` of the collaborators outside these modules (transport, database,
notifier, clock), and the trace of the monitor's visible actions. -/
structure World (σ : Type) where
  monitor : SmartContractMonitor
  tokens : TokenStateManager
  ext : σ
  trace : List MonitorEvent

/-- The collaborators of the monitor: the (wrapped) transport call
`connection.getParsedTransaction`, the two callbacks registered by `start`, the
notifier and the clock. Each may read and change the outside state; the callbacks
(functions of `App.js`) may also change the token state manager, and each may
raise. -/
structure Collaborators (σ : Type) where
  getParsedTransaction : String → σ → σ × Except JsError (Option ParsedTransaction)
  withdrawCallback : TokenAddresses → TokenStateManager × σ →
    (TokenStateManager × σ) × Except JsError Unit
  tradingStartCallback : TradingStartInfo → TokenStateManager × σ →
    (TokenStateManager × σ) × Except JsError Unit
  sendErrorNotification : JsError → σ → σ
  dateNow : σ → Nat

/-- Appends to the trace. -/
def World.log {σ : Type} (w : World σ) (e : MonitorEvent) : World σ :=
  { w with trace := w.trace ++ [e] }

/-- Method `fetchParsedTransaction(signature)`: a failed fetch is reported and becomes `null`. -/
def fetchParsedTransaction {σ : Type} (env : Collaborators σ) (signature : String)
    (w : World σ) : World σ × Option ParsedTransaction :=
  match env.getParsedTransaction signature w.ext with
  | (ext1, .ok transaction) => ({ w with ext := ext1 }, transaction)
  | (ext1, .error error) =>
    (World.log { w with ext := ext1 }
      (.handleError (some signature)
        { error := error, context := "fetchParsedTransaction:" ++ signature }), none)

/-- The `try` block of `processTransaction`; `.error` is an exception leaving it. -/
def processTransactionTry {σ : Type} (cfg : Config) (env : Collaborators σ)
    (signature : String) (w : World σ) : World σ × Except JsError Unit :=
  match fetchParsedTransaction env signature w with
  | (w1, none) => (w1, .ok ())
  | (w1, some transaction) =>
    -- const withdrawEvent = await this.checkForWithdrawInstruction(transaction)
    let (tokens2, handled, withdrawEvent) :=
      checkForWithdrawInstruction cfg w1.tokens (env.dateNow w1.ext) (some transaction)
    let w2 : World σ :=
      { w1 with
        tokens := tokens2
        trace := w1.trace ++ (handled.toList.map (fun h => MonitorEvent.handleError (some signature) h)) }
    -- if (withdrawEvent) await this.withdrawCallback(withdrawEvent)
    let (w3, raised) : World σ × Option JsError :=
      match withdrawEvent with
      | some ev =>
        match env.withdrawCallback ev (w2.tokens, w2.ext) with
        | ((tokens3, ext3), .ok _) =>
          (World.log { w2 with tokens := tokens3, ext := ext3 } (.withdrawCallback signature ev), none)
        | ((tokens3, ext3), .error error) =>
          (World.log { w2 with tokens := tokens3, ext := ext3 } (.withdrawCallback signature ev),
            some error)
      | none => (w2, none)
    match raised with
    | some error => (w3, .error error)
    | none =>
      -- const tradingStartEvent = this.checkForTradingStart(transaction)
      match checkForTradingStart (some transaction) with
      | some ev =>
        match env.tradingStartCallback ev (w3.tokens, w3.ext) with
        | ((tokens4, ext4), result) =>
          (World.log { w3 with tokens := tokens4, ext := ext4 } (.tradingStartCallback signature ev),
            result)
      | none => (w3, .ok ())

/-- Method `processTransaction(signature)`: the `try` block with its `catch`, which reports
the error to the error handler (global scope) and swallows it. -/
def processTransaction {σ : Type} (cfg : Config) (env : Collaborators σ)
    (signature : String) (w : World σ) : World σ × Except JsError Unit :=
  match processTransactionTry cfg env signature (World.log w (.processTransaction signature)) with
  | (w1, .ok _) => (w1, .ok ())
  | (w1, .error error) =>
    (World.log w1 (.handleError (some signature)
      { error := error, context := "processTransaction:" ++ signature }), .ok ())

/-- The loop of `checkRecentTransactions` (lines 100-111) over the signatures in
iteration order, that is from index `signatures.length - 1` down to `0`. An
exception raised by `processTransaction` would leave the loop. -/
def processSignatures {σ : Type} (cfg : Config) (env : Collaborators σ) :
    List String → World σ → World σ × Except JsError Unit
  | [], w => (w, .ok ())
  | signature :: rest, w =>
    if signature ∈ w.monitor.processedSignatures then processSignatures cfg env rest w
    else
      match processTransaction cfg env signature w with
      | (w1, .error error) => (w1, .error error)
      | (w1, .ok _) =>
        processSignatures cfg env rest
          { w1 with monitor :=
            { w1.monitor with
              processedSignatures := setAdd w1.monitor.processedSignatures signature } }

/-- Lines 100-116 of `checkRecentTransactions` for a non-empty batch: the loop, then
the checkpoint moves to `signatures[0]`. -/
def processBatch {σ : Type} (cfg : Config) (env : Collaborators σ)
    (signatures : List String) (w : World σ) : World σ × Except JsError Unit :=
  match processSignatures cfg env signatures.reverse w with
  | (w1, .error error) => (w1, .error error)
  | (w1, .ok _) =>
    match signatures with
    | newest :: _ =>
      ({ w1 with monitor := { w1.monitor with lastCheckedSignature := some newest } }, .ok ())
    | [] => (w1, .ok ())

/-- Lines 118-120: the signature cache is emptied once it is larger than the ceiling. -/
def trimCache {σ : Type} (cfg : Config) (w : World σ) : World σ :=
  if w.monitor.processedSignatures.length > cfg.MAX_SIGNATURE_CACHE then
    World.log { w with monitor := { w.monitor with processedSignatures := [] } } .cacheCleared
  else w

/-- The `try` block of `checkRecentTransactions`; `fetched` is what the awaited
`connection.getSignaturesForAddress(..., { until: lastCheckedSignature })` gave:
the batch, newest first, or the error it raised. -/
def checkRecentTransactionsTry {σ : Type} (cfg : Config) (env : Collaborators σ)
    (fetched : Except JsError (List String)) (w : World σ) : World σ × Except JsError Unit :=
  match fetched with
  | .error error => (w, .error error)
  | .ok signatures =>
    if signatures.length = 0 then (w, .ok ())
    else
      match processBatch cfg env signatures w with
      | (w1, .error error) => (w1, .error error)
      | (w1, .ok _) => (trimCache cfg w1, .ok ())

/-- Method `checkRecentTransactions()`: one tick of the polling timer. -/
def checkRecentTransactions {σ : Type} (cfg : Config) (env : Collaborators σ)
    (fetched : Except JsError (List String)) (w : World σ) : World σ :=
  if w.monitor.isChecking then w
  else
    let w0 : World σ := { w with monitor := { w.monitor with isChecking := true } }
    let w2 : World σ :=
      match checkRecentTransactionsTry cfg env fetched w0 with
      | (w1, .ok _) => w1
      | (w1, .error error) =>
        let w1a := World.log w1
          (.handleError none { error := error, context := "checkRecentTransactions" })
        World.log { w1a with ext := env.sendErrorNotification error w1a.ext }
          (.sendErrorNotification error)
    { w2 with monitor := { w2.monitor with isChecking := false } }

/-- Method `start(withdrawCB, tradingStartCB)`, lines 47-70: `fetched` is the outcome of the
rate-limiter wait followed by `getSignaturesForAddress(..., { limit: 1 })`. The
flag tells whether `startMonitoringInterval()` was reached. -/
def start {σ : Type} (env : Collaborators σ) (fetched : Except JsError (List String))
    (w : World σ) : World σ × Bool :=
  match fetched with
  | .ok recentSignatures =>
    match recentSignatures with
    | newest :: _ =>
      ({ w with monitor := { w.monitor with lastCheckedSignature := some newest } }, true)
    | [] => (w, true)
  | .error error =>
    let w1 := World.log w (.handleError none { error := error, context := "SmartContractMonitor.start" })
    (World.log { w1 with ext := env.sendErrorNotification error w1.ext }
      (.sendErrorNotification error), false)

/-- Consecutive poll cycles, one per element of `fetches`. -/
def runCycles {σ : Type} (cfg : Config) (env : Collaborators σ) :
    World σ → List (Except JsError (List String)) → World σ
  | w, [] => w
  | w, fetched :: rest => runCycles cfg env (checkRecentTransactions cfg env fetched w) rest

/-! ## `src/utils/retryMechanism.js` -/

namespace TokenStateManager

/-- The `emit` hook of the token of `mintAddress`, as the callers use it:
`if (mintAddress) { const token = getTokenState(mintAddress); if (token) token.emit(...) }`.
The hook publishes the event on the manager; nothing is published when the mint is
not given (or empty) or has no token. -/
def tokenEmit (s : TokenStateManager) (mintAddress : Option String) (e : String → Event) :
    TokenStateManager :=
  match mintAddress with
  | some mint =>
    if truthy mint then
      match s.getTokenState mint with
      | some _ => s.emit (e mint)
      | none => s
    else s
  | none => s

end TokenStateManager

/-- An operation passed to `retry`: it may read and change the token state manager
and the outside state, and it returns a result or raises. -/
abbrev Operation (σ α : Type) :=
  TokenStateManager × σ → (TokenStateManager × σ) × Except JsError α

/-- What a call of `retry` leaves behind: the state, the outcome of every invocation
of the operation in order, the `setTimeout` delays it waited for in order, and its
own outcome (`.error lastError` is `throw lastError`; `none` is `undefined`). -/
structure RetryRun (σ α : Type) where
  state : TokenStateManager × σ
  outcomes : List (Except JsError α)
  delays : List Nat
  result : Except (Option JsError) α

/-- The `for` loop of `retry`, entered with loop variable `attempt` and with
`remaining = maxAttempts + 1 - attempt` iterations left. `sleep d` is what the rest
of the program does to the state while `retry` waits `d` milliseconds. -/
def retryLoop {σ α : Type} (cfg : Config) (sleep : Nat → TokenStateManager × σ → TokenStateManager × σ)
    (operation : Operation σ α) (mintAddress : Option String) (maxAttempts : Nat) :
    Nat → Nat → Option JsError → TokenStateManager × σ → List (Except JsError α) → List Nat →
      RetryRun σ α
  | 0, _, lastError, state, outcomes, delays =>
    { state := state, outcomes := outcomes, delays := delays, result := .error lastError }
  | remaining + 1, attempt, _, state, outcomes, delays =>
    let state1 : TokenStateManager × σ :=
      (state.1.tokenEmit mintAddress (fun m => .retryAttempt m attempt maxAttempts), state.2)
    match operation state1 with
    | (state2, .ok result) =>
      { state := (state2.1.tokenEmit mintAddress (fun m => .retrySuccess m attempt), state2.2)
        outcomes := outcomes ++ [.ok result]
        delays := delays
        result := .ok result }
    | (state2, .error error) =>
      let state3 : TokenStateManager × σ :=
        (state2.1.tokenEmit mintAddress (fun m => .retryError m attempt error), state2.2)
      if attempt < maxAttempts then
        let delay := cfg.RETRY_DELAY_MS * 2 ^ (attempt - 1)
        retryLoop cfg sleep operation mintAddress maxAttempts remaining (attempt + 1) (some error)
          (sleep delay state3) (outcomes ++ [.error error]) (delays ++ [delay])
      else
        retryLoop cfg sleep operation mintAddress maxAttempts remaining (attempt + 1) (some error)
          state3 (outcomes ++ [.error error]) delays

/-- Function `retry(operation, mintAddress, maxAttempts)`, entered with `attempt = 1`. -/
def retry {σ α : Type} (cfg : Config) (sleep : Nat → TokenStateManager × σ → TokenStateManager × σ)
    (operation : Operation σ α) (mintAddress : Option String) (maxAttempts : Nat)
    (state : TokenStateManager × σ) : RetryRun σ α :=
  retryLoop cfg sleep operation mintAddress maxAttempts maxAttempts 1 none state [] []

/-! ## Sample data -/

/-- A configuration used for the concrete instances below. -/
def sampleConfig : Config :=
  { PUMPFUN_RAYDIUM_MIGRATION := "Migration"
    MAX_SIGNATURE_CACHE := 1000
    RETRY_DELAY_MS := 1000
    RETRY_MAX_ATTEMPTS := 3 }

/-- A withdrawal of mint `M1` from the bonding curve. -/
def sampleWithdrawTx : ParsedTransaction :=
  { meta := some {
      logMessages := some ["Program log: Instruction: Withdraw"],
      preTokenBalances := some [],
      postTokenBalances := some
        [{ mint := "M1", owner := some "Migration" }, { mint := "M1", owner := some "Curve" }] } }

/-- A transaction whose log has the withdrawal marker but whose post balances hold no
entry owned by the monitored program. -/
def sampleMarkerOnlyTx : ParsedTransaction :=
  { meta := some {
      logMessages := some ["Program log: Instruction: Withdraw"],
      preTokenBalances := some [],
      postTokenBalances := some [{ mint := "M1", owner := some "Someone" }] } }

/-- A transaction whose log has the initialization marker but whose pre balances hold
only the wrapped native asset. -/
def sampleInitOnlyTx : ParsedTransaction :=
  { meta := some {
      logMessages := some ["Program log: initialize2: InitializeInstruction2"],
      preTokenBalances := some
        [{ mint := "So11111111111111111111111111111111111111112", owner := some "Pool" }],
      postTokenBalances := some [] } }

/-- A trading start of mint `M2`. -/
def sampleTradingTx : ParsedTransaction :=
  { meta := some {
      logMessages := some ["Program log: initialize2: InitializeInstruction2"],
      preTokenBalances := some
        [{ mint := "So11111111111111111111111111111111111111112", owner := some "Pool" },
         { mint := "M2", owner := some "Pool" }],
      postTokenBalances := some [] } }

/-- Collaborators over a trivial outside state: the fetch of `bad` raises, the fetch of
`gone` gives `null`, `w1` is a withdrawal, `t1` a trading start, anything else a
transaction without logs; the withdraw callback returns and the trading-start
callback raises. -/
def sampleEnv : Collaborators Unit :=
  { getParsedTransaction := fun signature u =>
      if signature = "bad" then (u, .error "fetch failed")
      else if signature = "gone" then (u, .ok none)
      else if signature = "w1" then (u, .ok (some sampleWithdrawTx))
      else if signature = "t1" then (u, .ok (some sampleTradingTx))
      else (u, .ok (some { meta := none }))
    withdrawCallback := fun _ s => (s, .ok ())
    tradingStartCallback := fun _ s => (s, .error "callback failed")
    sendErrorNotification := fun _ u => u
    dateNow := fun _ => 7 }

/-- The world right after the constructors ran. -/
def sampleWorld : World Unit :=
  { monitor := SmartContractMonitor.new, tokens := TokenStateManager.new, ext := (), trace := [] }

/-- An operation that fails twice and then succeeds; the outside state counts its
invocations. -/
def sampleOperation : Operation Nat String := fun state =>
  ((state.1, state.2 + 1), if state.2 < 2 then .error "not yet" else .ok "done")

/-- An operation that always fails, with the invocation number in the error. -/
def sampleFailingOperation : Operation Nat String := fun state =>
  ((state.1, state.2 + 1), .error (if state.2 = 0 then "first" else if state.2 = 1 then "second" else "third"))

/-! ## Reading the trace -/

/-- The transaction an event of the trace belongs to, if any. -/
def sigOf : MonitorEvent → Option String
  | .processTransaction s => some s
  | .withdrawCallback s _ => some s
  | .tradingStartCallback s _ => some s
  | .handleError s _ => s
  | .sendErrorNotification _ => none
  | .cacheCleared => none

/-- The signature of a `processTransaction` invocation. -/
def procId : MonitorEvent → Option String
  | .processTransaction s => some s
  | _ => none

/-- The signature whose withdraw callback was dispatched. -/
def withdrawId : MonitorEvent → Option String
  | .withdrawCallback s _ => some s
  | _ => none

/-- The signature whose trading-start callback was dispatched. -/
def tradingId : MonitorEvent → Option String
  | .tradingStartCallback s _ => some s
  | _ => none

/-- The signatures `processTransaction` was invoked on, in invocation order. -/
def processedIds (trace : List MonitorEvent) : List String := trace.filterMap procId

/-- The signatures whose withdraw callback was dispatched, in order. -/
def withdrawIds (trace : List MonitorEvent) : List String := trace.filterMap withdrawId

/-- The signatures whose trading-start callback was dispatched, in order. -/
def tradingIds (trace : List MonitorEvent) : List String := trace.filterMap tradingId

/-- Keeps the first occurrence of every element. -/
def firstOccurrences : List String → List String
  | [] => []
  | x :: rest => x :: (firstOccurrences rest).filter (fun y => y ≠ x)

/-- The specified processing order of a batch (newest first) met with the signature
set `processed`: the reverse of the batch, without the ids that are already
processed (before the batch, or earlier in it). -/
def oldestToNewest (processed : List String) (batch : List String) : List String :=
  firstOccurrences (batch.reverse.filter (fun s => s ∉ processed))

/-- The part of the trace that one transaction's processing owns: it starts with the
invocation of `processTransaction` on `sig` and holds only events of `sig`. -/
def TxBlock (sig : String) (blk : List MonitorEvent) : Prop :=
  blk.head? = some (.processTransaction sig) ∧ ∀ e ∈ blk, sigOf e = some sig

/-- The newest id of the most recent non-empty batch among `fetches` (oldest fetch
first), if there is one. -/
def newestOfLastNonEmptyBatch (fetches : List (Except JsError (List String))) : Option String :=
  fetches.reverse.findSome? (fun fetched =>
    match fetched with
    | .ok (newest :: _) => some newest
    | _ => none)

/-- The age order of a checkpoint under a ledger position `rank` of the ids: no
checkpoint is older than every id. -/
def checkpointRank (rank : String → Nat) : Option String → Nat
  | none => 0
  | some id => rank id + 1

/-- The contract of the transport for `getSignaturesForAddress(..., { until })` along a
run of poll cycles: every id of a returned batch is newer than the checkpoint the
batch was asked for. -/
def TransportReturnsNewer {σ : Type} (rank : String → Nat) (cfg : Config)
    (env : Collaborators σ) : World σ → List (Except JsError (List String)) → Prop
  | _, [] => True
  | w, fetched :: rest =>
    (match fetched, w.monitor.lastCheckedSignature with
      | .ok batch, some checkpoint => ∀ id ∈ batch, rank checkpoint < rank id
      | _, _ => True) ∧
    TransportReturnsNewer rank cfg env (checkRecentTransactions cfg env fetched w) rest

/-! ## Reading a retry run -/

/-- Whether an invocation of the operation raised. -/
def failed {α : Type} : Except JsError α → Bool
  | .error _ => true
  | .ok _ => false

/-- The delay `retry` asks `setTimeout` for after failed attempt number `i + 1`:
`DELAY_MS * Math.pow(2, attempt - 1)`. -/
def backoffDelay (cfg : Config) (i : Nat) : Nat := cfg.RETRY_DELAY_MS * 2 ^ i

/-! ## `src/core/monitorSmartContract.js`: the connection wrapped by the constructor -/

/-- A method call on a connection, `connection[prop](...args)`. -/
structure TransportCall where
  prop : String
  args : List String
deriving DecidableEq, Repr

/-- The endpoints a connection object can talk to: the one of the connection the
monitor is built with, or an endpoint of the pool of `rpcManager`. -/
inductive Endpoint where
  | original
  | pool (index : Nat)
deriving DecidableEq, Repr

/-- Modelled from the spec: the endpoint pool of `rpcManager`
(`src/services/connectRPC`), an ordered endpoint list with a current index. -/
structure EndpointPool where
  size : Nat
  currentIndex : Nat
deriving DecidableEq, Repr

/-- Modelled from the spec: `rpcManager.switchToNextRPC()`, whose code is missing.
Rotation is sequential with wraparound; the call returns a plain connection to
the endpoint that is now current. -/
def EndpointPool.switchToNextRPC (pool : EndpointPool) : EndpointPool × Endpoint :=
  let next := (pool.currentIndex + 1) % pool.size
  ({ pool with currentIndex := next }, .pool next)

/-- The value of the monitor's field `this.connection`: the `Proxy` around the
connection it was built with, or a plain connection to an endpoint. -/
inductive ConnectionRef where
  | proxied (target : Endpoint)
  | direct (endpoint : Endpoint)
deriving DecidableEq, Repr

/-- What the wrapper does that is visible outside it: a method call issued on the
connection of an endpoint, and a call of `rpcManager.switchToNextRPC()`. -/
inductive RpcEvent where
  | issued (endpoint : Endpoint) (call : TransportCall)
  | switchToNextRPC
deriving DecidableEq, Repr

/-- The state a transport call runs in: `this.connection`, the endpoint pool, the
state of the network, and the log of the wrapper's visible actions. -/
structure RpcWorld (σ : Type) where
  connection : ConnectionRef
  pool : EndpointPool
  ext : σ
  log : List RpcEvent

/-- The transport: what a method call on the plain connection of an endpoint does to
the network state and what it resolves to or raises (`error.toString()`). -/
abbrev Transport (σ ρ : Type) := Endpoint → TransportCall → σ → σ × Except JsError ρ

/-- A method call on the plain connection of `endpoint`. -/
def callDirect {σ ρ : Type} (send : Transport σ ρ) (endpoint : Endpoint) (call : TransportCall)
    (w : RpcWorld σ) : RpcWorld σ × Except JsError ρ :=
  match send endpoint call w.ext with
  | (ext1, result) =>
    ({ w with ext := ext1, log := w.log ++ [.issued endpoint call] }, result)

/-- The error class of the `catch` block: the text of the error contains
`fetch failed` or `Connect Timeout Error`. -/
def isTransientNetworkError (error : JsError) : Bool :=
  includes error "fetch failed" || includes error "Connect Timeout Error"

/-- The `async (...args) => ...` function the `Proxy` returns for a method of its
target (constructor, lines 28-40). After a rotation `this.connection` is the plain
connection `switchToNextRPC` returned, so `this.connection[prop](...args)` is a
call on that connection. -/
def proxyCall {σ ρ : Type} (send : Transport σ ρ) (target : Endpoint) (call : TransportCall)
    (w : RpcWorld σ) : RpcWorld σ × Except JsError ρ :=
  match callDirect send target call w with
  | (w1, .ok result) => (w1, .ok result)
  | (w1, .error error) =>
    if isTransientNetworkError error then
      let (pool1, connection1) := w1.pool.switchToNextRPC
      let w2 : RpcWorld σ :=
        { w1 with
          pool := pool1
          connection := .direct connection1
          log := w1.log ++ [.switchToNextRPC] }
      callDirect send connection1 call w2
    else (w1, .error error)

/-- A method call through the monitor's field: `this.connection[prop](...args)`. -/
def monitorCall {σ ρ : Type} (send : Transport σ ρ) (call : TransportCall) (w : RpcWorld σ) :
    RpcWorld σ × Except JsError ρ :=
  match w.connection with
  | .proxied target => proxyCall send target call w
  | .direct endpoint => callDirect send endpoint call w

/-- The world right after the monitor's constructor: `this.connection` is the proxy. -/
def RpcWorld.new {σ : Type} (pool : EndpointPool) (ext : σ) : RpcWorld σ :=
  { connection := .proxied .original, pool := pool, ext := ext, log := [] }

/-- A network in which the original endpoint times out and the pool answers. -/
def sampleTransport : Transport Unit String := fun endpoint call u =>
  match endpoint with
  | .original => (u, .error "TypeError: fetch failed")
  | .pool index => (u, .ok (call.prop ++ " answered by endpoint " ++ toString index))

/-- A network in which every call is refused with an application error. -/
def sampleRefusingTransport : Transport Unit String := fun _ _ u =>
  (u, .error "Error: Invalid param: WrongSize")

/-- The call `getSignaturesForAddress(program)`. -/
def sampleCall : TransportCall := { prop := "getSignaturesForAddress", args := ["Migration"] }

/-! ## `src/observers/logMarketcap.js`: the slow loop -/

/-- The elements of `new Set(array)` in iteration order: the first occurrences. -/
def setOfList (array : List Nat) : List Nat :=
  array.foldl (fun set x => if x ∈ set then set else set ++ [x]) []

/-- The `for (const interval of intervals)` loop of the slow tick (lines 64-77), with
its `break`: the value of `currentInterval` after it, `none` for `null`. -/
def selectInterval : List Nat → Nat → List Nat → Option Nat
  | [], _, _ => none
  | interval :: rest, elapsedSeconds, loggedIntervals =>
    if elapsedSeconds ≥ interval ∧ interval ∉ loggedIntervals then
      if interval ≤ 180 ∨ (interval ≤ 1200 ∧ elapsedSeconds - interval < 30) then
        some interval
      else selectInterval rest elapsedSeconds loggedIntervals
    else selectInterval rest elapsedSeconds loggedIntervals

/-- How the `try` block of a slow tick ends: every step succeeded and the offset was
logged, or a step raised; in that case the flag tells whether the `catch` block
itself raised, so that the rest of the tick is skipped. -/
inductive SampleOutcome where
  | logged
  | failed (catchRaised : Bool)
deriving DecidableEq, Repr

/-- The variables of one `logMarketcap` run that the slow loop uses: the set
`loggedIntervals` in insertion order, the flag `isLogging`, and the reasons of the
`cleanup` calls made so far (after the first one the loop's timer is cleared). -/
structure SlowLoop where
  loggedIntervals : List Nat
  isLogging : Bool
  cleanups : List String
deriving DecidableEq, Repr

/-- The variables when the timers are set up. -/
def SlowLoop.new : SlowLoop := { loggedIntervals := [], isLogging := false, cleanups := [] }

/-- One run of the slow loop's callback (lines 59-139) at `elapsedSeconds`, the sample
it may take being run to its end. -/
def slowTick (intervals : List Nat) (elapsedSeconds : Nat) (outcome : SampleOutcome)
    (s : SlowLoop) : SlowLoop :=
  if s.isLogging then s
  else
    let (s1, raised) : SlowLoop × Bool :=
      match selectInterval intervals elapsedSeconds s.loggedIntervals with
      | some currentInterval =>
        match outcome with
        | .logged =>
          ({ s with loggedIntervals :=
              if currentInterval ∈ s.loggedIntervals then s.loggedIntervals
              else s.loggedIntervals ++ [currentInterval] }, false)
        | .failed catchRaised => (s, catchRaised)
      | none => (s, false)
    if raised then s1
    else if elapsedSeconds ≥ 1200 ∨ s1.loggedIntervals.length = intervals.length then
      { s1 with cleanups := s1.cleanups ++ ["COMPLETE"] }
    else s1

/-- The slow loop over a list of ticks, each with the elapsed seconds it reads and the
outcome of the sample it would take; the timer stops with the first `cleanup`. -/
def runTicks (intervals : List Nat) : SlowLoop → List (Nat × SampleOutcome) → SlowLoop
  | s, [] => s
  | s, (elapsedSeconds, outcome) :: rest =>
    if s.cleanups ≠ [] then s
    else runTicks intervals (slowTick intervals elapsedSeconds outcome s) rest

/-- The first `n` ticks of a loop that ticks every `period` seconds, at elapsed
`period`, `2 * period`, ..., all samples succeeding. -/
def regularTicks (period n : Nat) : List (Nat × SampleOutcome) :=
  (List.range n).map (fun k => ((k + 1) * period, SampleOutcome.logged))

/-- The target offsets of the sampling scenario. -/
def scenarioOffsets : List Nat := [0, 30, 60, 90, 120, 180, 300, 600, 900, 1200]

/-- The logged offsets, in logging order, after the first `n` ticks of the scenario: the
target offsets `scenarioOffsets`, a tick every `period` seconds, samples that all
succeed. -/
def loggedAfter (period n : Nat) : List Nat :=
  (runTicks (setOfList scenarioOffsets) SlowLoop.new (regularTicks period n)).loggedIntervals

/-- The element that follows the first occurrence of `x` in a list. -/
def nextAfter (x : Nat) : List Nat → Option Nat
  | [] => none
  | y :: rest => if y = x then rest.head? else nextAfter x rest

/-- The due rule in the words of the specification: an offset up to the dense
threshold of 180 s is due once the elapsed time has reached it; a later offset, up
to 1200 s, only during the 30 s that follow it. -/
def DueRule (elapsed offset : Nat) : Prop :=
  (offset ≤ 180 ∧ elapsed ≥ offset) ∨
  (180 < offset ∧ offset ≤ 1200 ∧ offset ≤ elapsed ∧ elapsed < offset + 30)

instance DueRule.decidable (elapsed offset : Nat) : Decidable (DueRule elapsed offset) := by
  unfold DueRule
  infer_instance

/-- The whole state of the slow loop after the first `n` ticks of the scenario. -/
def stateAfter (period n : Nat) : SlowLoop :=
  runTicks (setOfList scenarioOffsets) SlowLoop.new (regularTicks period n)

/-- The state of the scenario once the dense offsets are logged: 180 is the last. -/
def denseLogged : SlowLoop :=
  { loggedIntervals := [0, 30, 60, 90, 120, 180], isLogging := false, cleanups := [] }

/-! ## `src/strategies/ActiveStrategy.js`

JavaScript numbers are taken as exact rationals; the statements below keep to inputs
on which no division by zero occurs (a positive entry valuation). -/

/-- The object `this.params` of the strategy. -/
structure StrategyParams where
  minInitialMarketcap : ℚ
  maxInitialMarketcap : ℚ
  takeProfit : ℚ
  exitInterval : ℚ
  trailingActivationPoint : ℚ
  trailingStop : ℚ
  stopLoss : ℚ

/-- The fields of an `ActiveStrategy` instance: the parameters and the two maps keyed
by mint. -/
structure ActiveStrategy where
  params : StrategyParams
  highestPrices : List (String × ℚ)
  trailingActivated : List (String × Bool)

/-- The instance the constructor builds. -/
def ActiveStrategy.new : ActiveStrategy :=
  { params :=
      { minInitialMarketcap := 60000
        maxInitialMarketcap := 74000
        takeProfit := 1000000
        exitInterval := 1200
        trailingActivationPoint := 1000000
        trailingStop := 100
        stopLoss := 10 }
    highestPrices := []
    trailingActivated := [] }

/-- The argument of `checkEntry`; `none` is a missing `initial_marketcap`. -/
structure Metrics where
  initial_marketcap : Option ℚ

/-- Method `checkEntry(metrics)`: a missing or zero `initial_marketcap` is falsy. -/
def ActiveStrategy.checkEntry (s : ActiveStrategy) (metrics : Metrics) : Bool :=
  match metrics.initial_marketcap with
  | none => false
  | some initial_marketcap =>
    if initial_marketcap = 0 then false
    else
      decide (initial_marketcap ≥ s.params.minInitialMarketcap ∧
        initial_marketcap ≤ s.params.maxInitialMarketcap)

/-- The `reason` strings of `checkExit`, by their fixed prefix: `Trailing stop
triggered`, `Stop loss triggered`, `Take profit target reached`, `Time-based exit`,
with the numbers they print. -/
inductive ExitReason where
  | trailingStop (dropFromHigh : ℚ) (currentHighest : ℚ)
  | stopLoss (percentageGain : ℚ)
  | takeProfit (percentageGain : ℚ)
  | timeBased (interval : ℚ)
deriving DecidableEq

/-- The object `checkExit` returns; `none` is the `null` reason. -/
structure ExitDecision where
  shouldExit : Bool
  reason : Option ExitReason
deriving DecidableEq

/-- The local `percentageGain` of `checkExit`. -/
def percentageGain (currentPrice entryPrice : ℚ) : ℚ :=
  ((currentPrice - entryPrice) / entryPrice) * 100

/-- The local `currentHighest` of `checkExit`:
`this.highestPrices.get(mintAddress) || currentPrice`. -/
def currentHighestOf (highestPrices : List (String × ℚ)) (mintAddress : String)
    (currentPrice : ℚ) : ℚ :=
  match JsMap.get highestPrices mintAddress with
  | some highest => if highest = 0 then currentPrice else highest
  | none => currentPrice

/-- The local `dropFromHigh` of `checkExit`. -/
def dropFromHigh (currentHighest currentPrice : ℚ) : ℚ :=
  ((currentHighest - currentPrice) / currentHighest) * 100

/-- Lines 70-89 of `checkExit`: take profit, then the time-based exit, else no exit. -/
def checkExitAlways (params : StrategyParams) (gain interval : ℚ) : ExitDecision :=
  if gain ≥ params.takeProfit then
    { shouldExit := true, reason := some (.takeProfit gain) }
  else if interval ≥ params.exitInterval then
    { shouldExit := true, reason := some (.timeBased interval) }
  else { shouldExit := false, reason := none }

/-- Method `checkExit(mintAddress, currentPrice, entryPrice, interval)`. -/
def ActiveStrategy.checkExit (s : ActiveStrategy) (mintAddress : String)
    (currentPrice entryPrice interval : ℚ) : ActiveStrategy × ExitDecision :=
  let gain := percentageGain currentPrice entryPrice
  if gain ≥ s.params.trailingActivationPoint then
    let s1 : ActiveStrategy :=
      match JsMap.get s.trailingActivated mintAddress with
      | some true => s
      | _ => { s with trailingActivated := JsMap.set s.trailingActivated mintAddress true }
    let currentHighest := currentHighestOf s1.highestPrices mintAddress currentPrice
    let s2 : ActiveStrategy :=
      if currentPrice > currentHighest then
        { s1 with highestPrices := JsMap.set s1.highestPrices mintAddress currentPrice }
      else s1
    if dropFromHigh currentHighest currentPrice ≥ s.params.trailingStop then
      (s2, { shouldExit := true,
             reason := some (.trailingStop (dropFromHigh currentHighest currentPrice)
               currentHighest) })
    else (s2, checkExitAlways s.params gain interval)
  else
    if gain ≤ -s.params.stopLoss then
      (s, { shouldExit := true, reason := some (.stopLoss gain) })
    else (s, checkExitAlways s.params gain interval)

/-- Whether `trailingActivated.get(mintAddress)` is `true`. -/
def ActiveStrategy.isTrailingActivated (s : ActiveStrategy) (mintAddress : String) : Bool :=
  match JsMap.get s.trailingActivated mintAddress with
  | some true => true
  | _ => false

/-- Whether a reason is a `Stop loss triggered` one. -/
def ExitReason.isStopLoss : Option ExitReason → Bool
  | some (.stopLoss _) => true
  | _ => false

/-- Whether a reason is a `Trailing stop triggered` one. -/
def ExitReason.isTrailingStop : Option ExitReason → Bool
  | some (.trailingStop _ _) => true
  | _ => false

/-- Whether a reason is a `Take profit target reached` one. -/
def ExitReason.isTakeProfit : Option ExitReason → Bool
  | some (.takeProfit _) => true
  | _ => false

/-- The strategy after two `checkExit` calls for `M1` with entry 100, at the
valuations 2000000 and 3000000. -/
def sampleRisen : ActiveStrategy :=
  ((ActiveStrategy.new.checkExit "M1" 2000000 100 10).1.checkExit "M1" 3000000 100 11).1

/-! ## Payload fields of the emitted events -/

/-- The `mintAddress` field of an event payload. -/
def Event.payloadMint : Event → String
  | .tokenInitialized m _ => m
  | .tokenCleanup m _ _ => m
  | .withdrawStart m _ _ => m
  | .withdrawComplete m _ _ _ => m
  | .tradingStart m _ _ => m
  | .marketcapLoggingStart m _ => m
  | .tokenError m _ _ _ _ => m
  | .retryAttempt m _ _ => m
  | .retrySuccess m _ => m
  | .retryError m _ _ => m

/-- The `timestamp` field of an event payload: `none` when the payload has no such
field, `some none` when it holds `null`. -/
def Event.payloadTimestamp : Event → Option (Option Nat)
  | .tokenInitialized _ t => some (some t)
  | .tokenCleanup _ t _ => some (some t)
  | .withdrawStart _ t _ => some t
  | .withdrawComplete _ t _ _ => some t
  | .tradingStart _ t _ => some t
  | .marketcapLoggingStart _ t => some t
  | .tokenError _ t _ _ _ => some (some t)
  | .retryAttempt _ _ _ => none
  | .retrySuccess _ _ => none
  | .retryError _ _ _ => none

/-- The `currentStage` field of an event payload: `none` when the payload has no such
field, `some none` when it holds `null`. -/
def Event.payloadCurrentStage : Event → Option (Option String)
  | .withdrawStart _ _ st => some st
  | .withdrawComplete _ _ st _ => some st
  | .tradingStart _ _ st => some st
  | _ => none

/-- The events a call emitted: those of `after` beyond the ones already in `before`. -/
def emittedBy (before after : TokenStateManager) : List Event :=
  after.emitted.drop before.emitted.length

/-- The `tokenInitialized` event a stage-entry call emits first when the mint is not
tracked yet (its `initializeToken` creates the token). -/
def initEvents (s : TokenStateManager) (mintAddress : String) (now : Nat) : List Event :=
  match JsMap.get s.tokens mintAddress with
  | some _ => []
  | none => [.tokenInitialized mintAddress now]

/-! ## `src/utils/errorHandler.js` -/

/-- The object `config.ERROR_REPORTING` (`config.js` is not among the sources; its
three entries are taken as given). -/
structure ErrorReporting where
  ERROR_INTERVAL : Nat
  MAX_ERRORS_PER_INTERVAL : Nat
  COOLDOWN_PERIOD : Nat
deriving DecidableEq, Repr

/-- The three maps of the singleton `errorHandler`, keyed by scope, and the timers it
has set with `setTimeout` and that have not fired yet (scope and delay). -/
structure ErrorHandler where
  errorCounts : List (String × Nat)
  lastErrorTimes : List (String × Nat)
  cooldowns : List (String × Bool)
  timers : List (String × Nat)
deriving DecidableEq, Repr

/-- The state right after `new ErrorHandler()`. -/
def ErrorHandler.new : ErrorHandler :=
  { errorCounts := [], lastErrorTimes := [], cooldowns := [], timers := [] }

/-- The local `errorKey` of `handleError`: `mintAddress || 'global'`. -/
def errorKeyOf (mintAddress : Option String) : String :=
  match mintAddress with
  | some mint => if truthy mint then mint else "global"
  | none => "global"

/-- Whether `handleError` reaches `token.emit('error', ...)` (lines 41-44): a mint is
given and the state manager has a token for it. -/
def publishesError (tokens : TokenStateManager) (mintAddress : Option String) : Bool :=
  match mintAddress with
  | some mint => truthy mint && (tokens.getTokenState mint).isSome
  | none => false

/-- What `emitter.emit('error', payload)` raises on an emitter of Node's `events`
module that has no listener for `error`; the text names the `context` and `error`
fields of the payload. The token's hook forwards to the `TokenStateManager`
emitter, and the sources register no listener on it. -/
def unhandledErrorEvent (error : JsError) (context : String) : JsError :=
  "Error [ERR_UNHANDLED_ERROR]: Unhandled error. (" ++ context ++ ": " ++ error ++ ")"

/-- Method `handleError(error, mintAddress, context)`; `now` is the value of
`Date.now()` it reads. The result is the boolean it returns, or the error it
raises: the call `token.emit('error', ...)` of line 44 raises, because the
emitter has no listener for `error`. -/
def ErrorHandler.handleError (cfg : ErrorReporting) (now : Nat) (error : JsError)
    (mintAddress : Option String) (context : String) (tokens : TokenStateManager)
    (h : ErrorHandler) : ErrorHandler × Except JsError Bool :=
  let errorKey := errorKeyOf mintAddress
  -- Initialize tracking for this error key if needed
  let h1 : ErrorHandler :=
    if JsMap.has h.errorCounts errorKey then h
    else
      { h with
        errorCounts := JsMap.set h.errorCounts errorKey 0
        lastErrorTimes := JsMap.set h.lastErrorTimes errorKey now }
  -- Check if in cooldown
  if JsMap.get h1.cooldowns errorKey = some true then (h1, .ok false)
  else
    -- Reset error count if interval has passed
    let expired : Bool :=
      match JsMap.get h1.lastErrorTimes errorKey with
      | some last => decide ((now : Int) - (last : Int) > (cfg.ERROR_INTERVAL : Int))
      | none => false
    let h2 : ErrorHandler :=
      if expired then
        { h1 with
          errorCounts := JsMap.set h1.errorCounts errorKey 0
          lastErrorTimes := JsMap.set h1.lastErrorTimes errorKey now }
      else h1
    -- Increment error count
    let newCount := (JsMap.get h2.errorCounts errorKey).getD 0 + 1
    let h3 : ErrorHandler := { h2 with errorCounts := JsMap.set h2.errorCounts errorKey newCount }
    -- Emit error event if token exists
    if publishesError tokens mintAddress then (h3, .error (unhandledErrorEvent error context))
    else
      -- Check if we need to enter cooldown
      if newCount ≥ cfg.MAX_ERRORS_PER_INTERVAL then
        ({ h3 with
            cooldowns := JsMap.set h3.cooldowns errorKey true
            timers := h3.timers ++ [(errorKey, cfg.COOLDOWN_PERIOD)] }, .ok false)
      else (h3, .ok true)

/-- The callback `handleError` hands to `setTimeout` when a scope enters cooldown
(lines 57-60), run when the timer of `errorKey` fires. -/
def ErrorHandler.cooldownEnd (errorKey : String) (h : ErrorHandler) : ErrorHandler :=
  { h with
    cooldowns := JsMap.set h.cooldowns errorKey false
    errorCounts := JsMap.set h.errorCounts errorKey 0
    timers := h.timers.erase
      ((h.timers.find? (fun t => t.1 = errorKey)).getD (errorKey, 0)) }

/-- Whether a scope is inside its cooldown window: `this.cooldowns.get(errorKey)`. -/
def ErrorHandler.inCooldown (h : ErrorHandler) (errorKey : String) : Bool :=
  JsMap.get h.cooldowns errorKey = some true

/-- The error count of a scope, 0 when the scope is not tracked. -/
def ErrorHandler.countOf (h : ErrorHandler) (errorKey : String) : Nat :=
  (JsMap.get h.errorCounts errorKey).getD 0

/-- The number of errors of a scope counted in the interval that is running at `now`:
0 for a scope that is not tracked yet or whose interval has passed. -/
def ErrorHandler.countInInterval (cfg : ErrorReporting) (now : Nat) (h : ErrorHandler)
    (errorKey : String) : Nat :=
  match JsMap.get h.errorCounts errorKey with
  | none => 0
  | some count =>
    match JsMap.get h.lastErrorTimes errorKey with
    | some last =>
      if (now : Int) - (last : Int) > (cfg.ERROR_INTERVAL : Int) then 0 else count
    | none => count

/-- Values of `config.ERROR_REPORTING` used for the concrete instances: at most 3
errors per minute, a cooldown of five minutes. -/
def sampleErrorReporting : ErrorReporting :=
  { ERROR_INTERVAL := 60000, MAX_ERRORS_PER_INTERVAL := 3, COOLDOWN_PERIOD := 300000 }

/-! ## `src/utils/TokenStateManager.js`: reclaiming inactive tokens -/

/-- The body of the loop of `cleanupInactiveTokens` for one entry of the map. A
`lastProcessedTime` of `null` or 0 is falsy. -/
def TokenStateManager.cleanupStep (maxInactiveTime : Nat) (now : Nat) (s : TokenStateManager)
    (entry : String × Token) : TokenStateManager :=
  match entry.2.lastProcessedTime with
  | some lastProcessedTime =>
    if lastProcessedTime ≠ 0 ∧
        (now : Int) - (lastProcessedTime : Int) > (maxInactiveTime : Int) then
      TokenStateManager.emit { s with tokens := JsMap.delete s.tokens entry.1 }
        (.tokenCleanup entry.1 now lastProcessedTime)
    else s
  | none => s

/-- Method `cleanupInactiveTokens()`, run by the timer of `setupCleanupInterval`;
`maxInactiveTime` is `config.TOKEN_STATE.MAX_INACTIVE_TIME` and `now` the value of
`Date.now()` the pass reads. -/
def TokenStateManager.cleanupInactiveTokens (maxInactiveTime : Nat) (now : Nat)
    (s : TokenStateManager) : TokenStateManager :=
  s.tokens.foldl (TokenStateManager.cleanupStep maxInactiveTime now) s

/-! ## `App.js`: `processWithdrawEvent` -/

/-- The awaited calls of `processWithdrawEvent`, and the two calls of its `catch`
block. -/
inductive AppStep where
  | insertOrUpdateToken
  | getHodlerAccountData
  | calculateMetrics
  | insertMetrics
  | msgCalculatedMetrics
  | sendMessage
  | handleError
  | sendErrorNotification
deriving DecidableEq, Repr

/-- How the collaborators of one `processWithdrawEvent` call answer: each awaited
call resolves or raises; `getHodlerAccountData` and `calculateMetrics` resolve to a
value that is truthy (`true`) or to `null` (`false`);
`ENABLE_TELEGRAM_NOTIFICATIONS` is the entry of `config`. -/
structure WithdrawOutcomes where
  insertOrUpdateToken : Except JsError Unit
  getHodlerAccountData : Except JsError Bool
  calculateMetrics : Except JsError Bool
  insertMetrics : Except JsError Unit
  ENABLE_TELEGRAM_NOTIFICATIONS : Bool
  msgCalculatedMetrics : Except JsError Unit
  sendMessage : Except JsError Unit
  sendErrorNotification : Except JsError Unit

/-- The singletons `processWithdrawEvent` works on, and the list of the calls it has
made to its collaborators, in program order. -/
structure AppState where
  tokens : TokenStateManager
  errorHandler : ErrorHandler
  calls : List AppStep
deriving DecidableEq, Repr

/-- The state when the modules are loaded. -/
def AppState.new : AppState :=
  { tokens := TokenStateManager.new, errorHandler := ErrorHandler.new, calls := [] }

/-- Lines 81-99 of `processWithdrawEvent`, the processing steps of the `try` block:
the calls made and how the block ends. -/
def processWithdrawEventTry (o : WithdrawOutcomes) : List AppStep × Except JsError Unit :=
  match o.insertOrUpdateToken with
  | .error error => ([.insertOrUpdateToken], .error error)
  | .ok _ =>
    match o.getHodlerAccountData with
    | .error error => ([.insertOrUpdateToken, .getHodlerAccountData], .error error)
    | .ok false =>
      ([.insertOrUpdateToken, .getHodlerAccountData],
        .error "Failed to fetch hodler account data")
    | .ok true =>
      match o.calculateMetrics with
      | .error error =>
        ([.insertOrUpdateToken, .getHodlerAccountData, .calculateMetrics], .error error)
      | .ok false =>
        ([.insertOrUpdateToken, .getHodlerAccountData, .calculateMetrics],
          .error "Failed to calculate metrics")
      | .ok true =>
        match o.insertMetrics with
        | .error error =>
          ([.insertOrUpdateToken, .getHodlerAccountData, .calculateMetrics, .insertMetrics],
            .error error)
        | .ok _ =>
          if o.ENABLE_TELEGRAM_NOTIFICATIONS then
            match o.msgCalculatedMetrics with
            | .error error =>
              ([.insertOrUpdateToken, .getHodlerAccountData, .calculateMetrics, .insertMetrics,
                .msgCalculatedMetrics], .error error)
            | .ok _ =>
              ([.insertOrUpdateToken, .getHodlerAccountData, .calculateMetrics, .insertMetrics,
                .msgCalculatedMetrics, .sendMessage], o.sendMessage)
          else
            ([.insertOrUpdateToken, .getHodlerAccountData, .calculateMetrics, .insertMetrics],
              .ok ())

/-- The `catch` block of `processWithdrawEvent` (lines 101-103) for the error the
`try` block raised: `none` when the block completes, else what it raises. -/
def processWithdrawEventCatch (cfg : ErrorReporting) (o : WithdrawOutcomes) (now : Nat)
    (mintAddress : String) (error : JsError) (app : AppState) : AppState × Option JsError :=
  match ErrorHandler.handleError cfg now error (some mintAddress) "processWithdrawEvent"
      app.tokens app.errorHandler with
  | (errorHandler1, .error raised) =>
    ({ app with errorHandler := errorHandler1, calls := app.calls ++ [.handleError] },
      some raised)
  | (errorHandler1, .ok _) =>
    ({ app with
        errorHandler := errorHandler1
        calls := app.calls ++ [.handleError, .sendErrorNotification] },
      match o.sendErrorNotification with
      | .ok _ => none
      | .error raised => some raised)

/-- The `finally` block of `processWithdrawEvent` (lines 104-108), on the token
object of the mint. -/
def processWithdrawEventFinally (mintAddress : String) (s : TokenStateManager) :
    TokenStateManager :=
  match JsMap.get s.tokens mintAddress with
  | some token =>
    let token1 : Token :=
      { token with withdrawProcessing := false, currentStage := some "post-withdraw" }
    { s with tokens := JsMap.set s.tokens mintAddress token1 }
  | none => s

/-- Function `processWithdrawEvent(tokenAddresses)` of `App.js`, run to its end.
`dateNow 0` is the clock read of `initializeToken`, `dateNow 1` the one of
`handleError`. The result is `.error` when the promise is rejected. -/
def processWithdrawEvent (cfg : ErrorReporting) (o : WithdrawOutcomes)
    (tokenAddresses : TokenAddresses) (dateNow : Nat → Nat) (app : AppState) :
    AppState × Except JsError Unit :=
  match processWithdrawEventEnter app.tokens tokenAddresses dateNow with
  | (tokens1, false) => ({ app with tokens := tokens1 }, .ok ())
  | (tokens1, true) =>
    let ran := processWithdrawEventTry o
    let app1 : AppState := { app with tokens := tokens1, calls := app.calls ++ ran.1 }
    let caught : AppState × Option JsError :=
      match ran.2 with
      | .ok _ => (app1, none)
      | .error error =>
        processWithdrawEventCatch cfg o (dateNow 1) tokenAddresses.mintAddress error app1
    ({ caught.1 with
        tokens := processWithdrawEventFinally tokenAddresses.mintAddress caught.1.tokens },
      match caught.2 with
      | none => .ok ()
      | some raised => .error raised)

/-- Collaborators that all succeed, with notifications enabled. -/
def sampleOutcomes : WithdrawOutcomes :=
  { insertOrUpdateToken := .ok ()
    getHodlerAccountData := .ok true
    calculateMetrics := .ok true
    insertMetrics := .ok ()
    ENABLE_TELEGRAM_NOTIFICATIONS := true
    msgCalculatedMetrics := .ok ()
    sendMessage := .ok ()
    sendErrorNotification := .ok () }

/-- The withdrawal event of mint `M1`. -/
def sampleWithdrawEvent : TokenAddresses :=
  { mintAddress := "M1", pumpfunBondingCurve := some "Curve" }

/-- The application state after one `processWithdrawEvent` for `M1` whose steps all
succeed, on freshly loaded modules; the clock reads are 1000, 1001, ... -/
def sampleProcessed : AppState :=
  (processWithdrawEvent sampleErrorReporting sampleOutcomes sampleWithdrawEvent
    (fun k => 1000 + k) AppState.new).1

/-- The handler after two errors of the global scope, at times 0 and 1, with
`sampleErrorReporting`. -/
def sampleTwoErrors : ErrorHandler :=
  (ErrorHandler.handleError sampleErrorReporting 1 "second" none "poll" TokenStateManager.new
    (ErrorHandler.handleError sampleErrorReporting 0 "first" none "poll" TokenStateManager.new
      ErrorHandler.new).1).1

/-! ## `src/core/monitorSmartContract.js`: the polling timer -/

/-- The callback of the polling timer (`startMonitoringInterval`): one call of
`checkRecentTransactions()` together with the transport call it awaits.
`getSignaturesForAddress lastCheckedSignature` is the call of lines 88-91 on the
outside state; it is issued after the `isChecking` guard. -/
def monitoringTick {σ : Type} (cfg : Config) (env : Collaborators σ)
    (getSignaturesForAddress : Option String → σ → σ × Except JsError (List String))
    (w : World σ) : World σ :=
  if w.monitor.isChecking then w
  else
    match getSignaturesForAddress w.monitor.lastCheckedSignature w.ext with
    | (ext1, fetched) => checkRecentTransactions cfg env fetched { w with ext := ext1 }

/-- Collaborators over an outside state that counts the calls of
`getSignaturesForAddress`; the transactions are those of `sampleEnv`. -/
def sampleCountingEnv : Collaborators Nat :=
  { getParsedTransaction := fun signature n =>
      (n, (sampleEnv.getParsedTransaction signature ()).2)
    withdrawCallback := fun _ s => (s, .ok ())
    tradingStartCallback := fun _ s => (s, .ok ())
    sendErrorNotification := fun _ n => n
    dateNow := fun _ => 7 }

/-- A transport that counts its calls and answers each with the batch `w1`, `t1`. -/
def sampleGetSignatures : Option String → Nat → Nat × Except JsError (List String) :=
  fun _ n => (n + 1, .ok ["t1", "w1"])

/-- A world in which a poll cycle is in progress. -/
def sampleCheckingWorld : World Nat :=
  { monitor := { SmartContractMonitor.new with isChecking := true }
    tokens := TokenStateManager.new, ext := 0, trace := [] }

/-- The world right after the constructors ran, over the call counter. -/
def sampleIdleWorld : World Nat :=
  { monitor := SmartContractMonitor.new, tokens := TokenStateManager.new, ext := 0, trace := [] }

/-- A configuration with a signature cache of at most 2 ids. -/
def smallCacheConfig : Config := { sampleConfig with MAX_SIGNATURE_CACHE := 2 }

/-! ## `src/core/monitorSmartContract.js`: a sequence of calls through `this.connection` -/

/-- Consecutive method calls through the monitor's field `this.connection`, each run
to its end before the next; the results are in call order. -/
def monitorCalls {σ ρ : Type} (send : Transport σ ρ) :
    List TransportCall → RpcWorld σ → RpcWorld σ × List (Except JsError ρ)
  | [], w => (w, [])
  | call :: rest, w =>
    let first := monitorCall send call w
    let others := monitorCalls send rest first.1
    (others.1, first.2 :: others.2)

/-- A network whose state counts the calls issued: the original endpoint is down,
endpoint 1 of the pool answers the first two calls issued and is down afterwards,
every other pool endpoint answers. -/
def sampleFlakyTransport : Transport Nat String := fun endpoint call n =>
  (n + 1,
    match endpoint with
    | .original => .error "TypeError: fetch failed"
    | .pool index =>
      if index = 1 ∧ 2 ≤ n then .error "TypeError: fetch failed"
      else .ok (call.prop ++ " answered by endpoint " ++ toString index))

/-! ## `src/observers/getMarketcap.js`: `fetchTokenSolPrice` -/

/-- A run of `fetchTokenSolPrice`: the providers tried, in order (`true`: Jupiter,
`false`: Raydium), and how the call ends; `none` when it has not ended within the
recursion depth looked at. -/
structure PriceFetch (ρ : Type) where
  attempts : List Bool
  result : Option (Except JsError ρ)

/-- Function `fetchTokenSolPrice(mintAddress, tokenDecimals, useJupiter)`, followed
to a recursion depth of `fuel` calls. `attempt k useJupiter` is the outcome of the
`try` block of the call number `k` (the rate limiter wait and the provider
request): the price, or the error raised. The `catch` block calls the function
again with the other provider. -/
def fetchTokenSolPrice {ρ : Type} (tokens : TokenStateManager)
    (attempt : Nat → Bool → Except JsError ρ) (mintAddress : String) :
    Nat → Nat → Bool → PriceFetch ρ
  | 0, _, _ => { attempts := [], result := none }
  | fuel + 1, k, useJupiter =>
    match tokens.getTokenState mintAddress with
    | none =>
      { attempts := []
        result := some (.error ("Token " ++ mintAddress ++ " not ready for price fetch")) }
    | some token =>
      if token.tradingStarted then
        match attempt k useJupiter with
        | .ok price => { attempts := [useJupiter], result := some (.ok price) }
        | .error _ =>
          let next := fetchTokenSolPrice tokens attempt mintAddress fuel (k + 1) (!useJupiter)
          { attempts := useJupiter :: next.attempts, result := next.result }
      else
        { attempts := []
          result := some (.error ("Token " ++ mintAddress ++ " not ready for price fetch")) }

/-- The manager after `startTradingProcess` for `M1`. -/
def sampleTradingManager : TokenStateManager :=
  (TokenStateManager.startTradingProcess TokenStateManager.new "M1" (fun k => 1000 + k)).1

/-! ## `src/observers/logMarketcap.js`: teardown -/

/-- The callback of the safety timer (lines 142-144), `cleanup(TIMEOUT)`. The timer
is set when the two loops are set up and no code clears it; `cleanup` has no
guard against a second call. -/
def safetyTimeout (s : SlowLoop) : SlowLoop :=
  { s with cleanups := s.cleanups ++ ["TIMEOUT"] }

/-- A run of `logMarketcap` whose set-up succeeds: the ticks of the slow loop, which
stop with the first `cleanup`, and then the safety timer firing. -/
def runLogMarketcap (intervals : List Nat) (ticks : List (Nat × SampleOutcome)) : SlowLoop :=
  safetyTimeout (runTicks intervals SlowLoop.new ticks)

/-- The reasons of the `marketcapLoggingComplete` events of a run: `cleanup` emits
one at each call (line 165). -/
def marketcapLoggingComplete (s : SlowLoop) : List String := s.cleanups

/-! ## Invariants and auxiliary predicates used by the proofs -/

/-- A stage-entry operation guarded by the flag `busy`: a call on a busy state
changes nothing and returns `false`; a call on an idle state returns `true` and
leaves the state busy. -/
structure GuardedEntry {ι : Type} (op : TokenStateManager → ι → TokenStateManager × Bool)
    (busy : TokenStateManager → Bool) : Prop where
  skip : ∀ s c, busy s = true → op s c = (s, false)
  enter : ∀ s c, busy s = false → (op s c).2 = true ∧ busy (op s c).1 = true

/-- Events that belong to `sig` and are no invocation, dispatch or cache reset. -/
structure Quiet (sig : String) (blk : List MonitorEvent) : Prop where
  about : ∀ e ∈ blk, sigOf e = some sig
  proc : processedIds blk = []
  withdraw : withdrawIds blk = []
  trading : tradingIds blk = []
  noClear : MonitorEvent.cacheCleared ∉ blk

/-- What a transaction's processing adds to the trace after the invocation event. -/
structure TxTail (sig : String) (blk : List MonitorEvent) : Prop where
  about : ∀ e ∈ blk, sigOf e = some sig
  proc : processedIds blk = []
  withdraw : (withdrawIds blk).Sublist [sig]
  trading : (tradingIds blk).Sublist [sig]
  noClear : MonitorEvent.cacheCleared ∉ blk

/-- One block of the trace per processed transaction, in processing order. -/
def Blocks (ids : List String) (blocks : List (List MonitorEvent)) : Prop :=
  List.Forall₂ (fun sig blk => ∃ tail, blk = MonitorEvent.processTransaction sig :: tail ∧
    TxTail sig tail) ids blocks

/-- The signature set after the loop over a batch. -/
def cacheAfter (processed : List String) (batch : List String) : List String :=
  batch.reverse.foldl setAdd processed

/-- The dedup invariant of a run in which the cache is never reset. -/
structure DedupInv {σ : Type} (w : World σ) : Prop where
  nodup : (processedIds w.trace).Nodup
  recorded : ∀ s ∈ processedIds w.trace, s ∈ w.monitor.processedSignatures
  withdraw : (withdrawIds w.trace).Sublist (processedIds w.trace)
  trading : (tradingIds w.trace).Sublist (processedIds w.trace)

/-- The newest id of a fetched batch, when the fetch gave a non-empty batch. -/
def newestOf : Except JsError (List String) → Option String
  | .ok (newest :: _) => some newest
  | _ => none

/-- The manager after one successful `startWithdrawProcessing` for `M1`. -/
def sampleBusyManager : TokenStateManager :=
  (TokenStateManager.startWithdrawProcessing TokenStateManager.new "M1" (fun _ => 1)).1

/-- Three poll cycles: a batch with a failing fetch, a failed poll, a batch that
repeats ids. -/
def sampleFetches : List (Except JsError (List String)) :=
  [.ok ["t1", "bad", "w1"], .error "poll failed", .ok ["gone", "t1", "w1", "gone"]]

/-! ## Lemmas on the map and on stage entry -/

theorem JsMap.get_set_self {β : Type} (m : List (String × β)) (key : String) (v : β) :
    JsMap.get (JsMap.set m key v) key = some v := by
  induction m with
  | nil => simp [JsMap.set, JsMap.get]
  | cons p rest ih =>
    obtain ⟨k, w⟩ := p
    by_cases h : k = key
    · simp [JsMap.set, JsMap.get, h]
    · simp [JsMap.set, JsMap.get, h, ih]

theorem callSeq_busy {ι : Type} {op : TokenStateManager → ι → TokenStateManager × Bool}
    {busy : TokenStateManager → Bool} (g : GuardedEntry op busy) (s : TokenStateManager)
    (cs : List ι) (hb : busy s = true) :
    callSeq op s cs = (s, List.replicate cs.length false) := by
  induction cs with
  | nil => rfl
  | cons c cs ih => simp [callSeq, g.skip s c hb, ih, List.replicate_succ]

theorem callSeq_idle {ι : Type} {op : TokenStateManager → ι → TokenStateManager × Bool}
    {busy : TokenStateManager → Bool} (g : GuardedEntry op busy) (s : TokenStateManager)
    (c : ι) (cs : List ι) (hb : busy s = false) :
    (callSeq op s (c :: cs)).2 = true :: List.replicate cs.length false := by
  have h := g.enter s c hb
  simp [callSeq, h.1, callSeq_busy g (op s c).1 cs h.2]

theorem guarded_startWithdrawProcessing (mint : String) :
    GuardedEntry (fun s d => TokenStateManager.startWithdrawProcessing s mint d)
      (fun s => TokenStateManager.isProcessingWithdraw s mint) := by
  constructor
  · intro s c hb
    simp only [TokenStateManager.isProcessingWithdraw] at hb
    cases hg : JsMap.get s.tokens mint with
    | none => simp [hg] at hb
    | some token =>
      simp only [hg] at hb
      simp [TokenStateManager.startWithdrawProcessing, TokenStateManager.initializeToken, hg, hb]
  · intro s c hb
    simp only [TokenStateManager.isProcessingWithdraw] at hb
    cases hg : JsMap.get s.tokens mint with
    | none =>
      simp [TokenStateManager.startWithdrawProcessing, TokenStateManager.initializeToken, hg,
        TokenStateManager.isProcessingWithdraw, TokenStateManager.emit, JsMap.get_set_self]
    | some token =>
      simp only [hg] at hb
      simp [TokenStateManager.startWithdrawProcessing, TokenStateManager.initializeToken, hg, hb,
        TokenStateManager.isProcessingWithdraw, TokenStateManager.emit, JsMap.get_set_self]

theorem guarded_startTradingProcess (mint : String) :
    GuardedEntry (fun s d => TokenStateManager.startTradingProcess s mint d)
      (fun s => TokenStateManager.hasTradingStarted s mint) := by
  constructor
  · intro s c hb
    simp only [TokenStateManager.hasTradingStarted] at hb
    cases hg : JsMap.get s.tokens mint with
    | none => simp [hg] at hb
    | some token =>
      simp only [hg] at hb
      simp [TokenStateManager.startTradingProcess, TokenStateManager.initializeToken, hg, hb]
  · intro s c hb
    simp only [TokenStateManager.hasTradingStarted] at hb
    cases hg : JsMap.get s.tokens mint with
    | none =>
      simp [TokenStateManager.startTradingProcess, TokenStateManager.initializeToken, hg,
        TokenStateManager.hasTradingStarted, TokenStateManager.emit, JsMap.get_set_self]
    | some token =>
      simp only [hg] at hb
      simp [TokenStateManager.startTradingProcess, TokenStateManager.initializeToken, hg, hb,
        TokenStateManager.hasTradingStarted, TokenStateManager.emit, JsMap.get_set_self]

theorem guarded_startMarketcapLogging (mint : String) :
    GuardedEntry (fun s d => TokenStateManager.startMarketcapLogging s mint d)
      (fun s => TokenStateManager.isLoggingMarketcap s mint) := by
  constructor
  · intro s c hb
    simp only [TokenStateManager.isLoggingMarketcap] at hb
    cases hg : JsMap.get s.tokens mint with
    | none => simp [hg] at hb
    | some token =>
      simp only [hg] at hb
      simp [TokenStateManager.startMarketcapLogging, TokenStateManager.initializeToken, hg, hb]
  · intro s c hb
    simp only [TokenStateManager.isLoggingMarketcap] at hb
    cases hg : JsMap.get s.tokens mint with
    | none =>
      simp [TokenStateManager.startMarketcapLogging, TokenStateManager.initializeToken, hg,
        TokenStateManager.isLoggingMarketcap, TokenStateManager.emit, JsMap.get_set_self]
    | some token =>
      simp only [hg] at hb
      simp [TokenStateManager.startMarketcapLogging, TokenStateManager.initializeToken, hg, hb,
        TokenStateManager.isLoggingMarketcap, TokenStateManager.emit, JsMap.get_set_self]

theorem guarded_processWithdrawEventEnter (mint : String) :
    GuardedEntry
      (fun s (c : Option String × (Nat → Nat)) =>
        processWithdrawEventEnter s { mintAddress := mint, pumpfunBondingCurve := c.1 } c.2)
      (fun s => TokenStateManager.isProcessingWithdraw s mint) := by
  constructor
  · intro s c hb
    simp only [TokenStateManager.isProcessingWithdraw] at hb
    cases hg : JsMap.get s.tokens mint with
    | none => simp [hg] at hb
    | some token =>
      simp only [hg] at hb
      simp [processWithdrawEventEnter, TokenStateManager.initializeToken, hg, hb]
  · intro s c hb
    simp only [TokenStateManager.isProcessingWithdraw] at hb
    cases hg : JsMap.get s.tokens mint with
    | none =>
      simp [processWithdrawEventEnter, TokenStateManager.initializeToken, hg,
        TokenStateManager.isProcessingWithdraw, TokenStateManager.emit, JsMap.get_set_self]
    | some token =>
      simp only [hg] at hb
      simp [processWithdrawEventEnter, TokenStateManager.initializeToken, hg, hb,
        TokenStateManager.isProcessingWithdraw, TokenStateManager.emit, JsMap.get_set_self]

/-! ## Lemmas on the monitor -/

theorem Quiet.nil (sig : String) : Quiet sig [] :=
  ⟨by simp, rfl, rfl, rfl, by simp⟩

theorem Quiet.handled (sig : String) (handled : Option HandledError) :
    Quiet sig (handled.toList.map (fun h => MonitorEvent.handleError (some sig) h)) := by
  cases handled with
  | none => exact Quiet.nil sig
  | some h =>
    exact ⟨by simp [sigOf], by simp [processedIds, procId], by simp [withdrawIds, withdrawId],
      by simp [tradingIds, tradingId], by simp⟩

theorem Quiet.append {sig : String} {a b : List MonitorEvent} (ha : Quiet sig a)
    (hb : Quiet sig b) : Quiet sig (a ++ b) := by
  refine ⟨?_, ?_, ?_, ?_, ?_⟩
  · intro e he
    rcases List.mem_append.1 he with h | h
    · exact ha.about e h
    · exact hb.about e h
  · simp only [processedIds, List.filterMap_append]
    rw [show List.filterMap procId a = [] from ha.proc, show List.filterMap procId b = [] from hb.proc]
    rfl
  · simp only [withdrawIds, List.filterMap_append]
    rw [show List.filterMap withdrawId a = [] from ha.withdraw,
      show List.filterMap withdrawId b = [] from hb.withdraw]
    rfl
  · simp only [tradingIds, List.filterMap_append]
    rw [show List.filterMap tradingId a = [] from ha.trading,
      show List.filterMap tradingId b = [] from hb.trading]
    rfl
  · intro he
    rcases List.mem_append.1 he with h | h
    · exact ha.noClear h
    · exact hb.noClear h

theorem Quiet.tail {sig : String} {a : List MonitorEvent} (ha : Quiet sig a) : TxTail sig a :=
  ⟨ha.about, ha.proc, by rw [ha.withdraw]; simp, by rw [ha.trading]; simp, ha.noClear⟩

theorem Quiet.tail_withdraw {sig : String} {a : List MonitorEvent} (ha : Quiet sig a)
    (ev : TokenAddresses) : TxTail sig (a ++ [.withdrawCallback sig ev]) := by
  refine ⟨?_, ?_, ?_, ?_, ?_⟩
  · intro e he
    rcases List.mem_append.1 he with h | h
    · exact ha.about e h
    · simp at h; subst h; rfl
  · simp only [processedIds, List.filterMap_append]
    rw [show List.filterMap procId a = [] from ha.proc]; rfl
  · simp only [withdrawIds, List.filterMap_append]
    rw [show List.filterMap withdrawId a = [] from ha.withdraw]
    simp [withdrawId]
  · simp only [tradingIds, List.filterMap_append]
    rw [show List.filterMap tradingId a = [] from ha.trading]
    simp [tradingId]
  · intro he
    rcases List.mem_append.1 he with h | h
    · exact ha.noClear h
    · simp at h

theorem TxTail.trading_last {sig : String} {a : List MonitorEvent} (ha : TxTail sig a)
    (htr : tradingIds a = []) (ev : TradingStartInfo) :
    TxTail sig (a ++ [.tradingStartCallback sig ev]) := by
  refine ⟨?_, ?_, ?_, ?_, ?_⟩
  · intro e he
    rcases List.mem_append.1 he with h | h
    · exact ha.about e h
    · simp at h; subst h; rfl
  · simp only [processedIds, List.filterMap_append]
    rw [show List.filterMap procId a = [] from ha.proc]; rfl
  · have := ha.withdraw
    simp only [withdrawIds, List.filterMap_append] at this ⊢
    simpa [withdrawId] using this
  · simp only [tradingIds, List.filterMap_append]
    rw [show List.filterMap tradingId a = [] from htr]
    simp [tradingId]
  · intro he
    rcases List.mem_append.1 he with h | h
    · exact ha.noClear h
    · simp at h

theorem TxTail.handled_last {sig : String} {a : List MonitorEvent} (ha : TxTail sig a)
    (h : HandledError) : TxTail sig (a ++ [.handleError (some sig) h]) := by
  refine ⟨?_, ?_, ?_, ?_, ?_⟩
  · intro e he
    rcases List.mem_append.1 he with h | h
    · exact ha.about e h
    · simp at h; subst h; rfl
  · simp only [processedIds, List.filterMap_append]
    rw [show List.filterMap procId a = [] from ha.proc]; rfl
  · have := ha.withdraw
    simp only [withdrawIds, List.filterMap_append] at this ⊢
    simpa [withdrawId] using this
  · have := ha.trading
    simp only [tradingIds, List.filterMap_append] at this ⊢
    simpa [tradingId] using this
  · intro he
    rcases List.mem_append.1 he with h | h
    · exact ha.noClear h
    · simp at h

theorem fetchParsedTransaction_spec {σ : Type} (env : Collaborators σ) (sig : String)
    (w : World σ) :
    (fetchParsedTransaction env sig w).1.monitor = w.monitor ∧
    ∃ blk, (fetchParsedTransaction env sig w).1.trace = w.trace ++ blk ∧ Quiet sig blk := by
  unfold fetchParsedTransaction
  split
  · exact ⟨rfl, [], by simp, Quiet.nil sig⟩
  · exact ⟨rfl, _, rfl, Quiet.handled sig (some _)⟩

theorem processTransactionTry_spec {σ : Type} (cfg : Config) (env : Collaborators σ)
    (sig : String) (w : World σ) :
    (processTransactionTry cfg env sig w).1.monitor = w.monitor ∧
    ∃ blk, (processTransactionTry cfg env sig w).1.trace = w.trace ++ blk ∧ TxTail sig blk := by
  obtain ⟨hm, b0, hb0, q0⟩ := fetchParsedTransaction_spec env sig w
  unfold processTransactionTry
  split
  · rename_i w1 heq
    rw [heq] at hm hb0
    exact ⟨hm, b0, hb0, q0.tail⟩
  · rename_i w1 tx heq
    rw [heq] at hm hb0
    simp only at hm hb0
    rcases hc : checkForWithdrawInstruction cfg w1.tokens (env.dateNow w1.ext) (some tx) with
      ⟨tokens2, handled, withdrawEvent⟩
    simp only []
    have q1 := Quiet.append q0 (Quiet.handled sig handled)
    cases withdrawEvent with
    | none =>
      simp only []
      cases hts : checkForTradingStart (some tx) with
      | none => exact ⟨hm, _, by simp [hb0], q1.tail⟩
      | some ev =>
        simp only []
        rcases hcb : env.tradingStartCallback ev (tokens2, w1.ext) with ⟨⟨tokens4, ext4⟩, result⟩
        exact ⟨hm, _, by simp [hb0, World.log], q1.tail.trading_last q1.trading ev⟩
    | some wev =>
      simp only []
      rcases hcb : env.withdrawCallback wev (tokens2, w1.ext) with ⟨⟨tokens3, ext3⟩, result⟩
      have q2 := q1.tail_withdraw wev
      have q2t : tradingIds (b0 ++ handled.toList.map (fun h => MonitorEvent.handleError (some sig) h)
          ++ [.withdrawCallback sig wev]) = [] := by
        have := q1.trading
        simp only [tradingIds, List.filterMap_append] at this ⊢
        simpa [tradingId] using this
      cases result with
      | error err => exact ⟨hm, _, by simp [hb0, World.log], q2⟩
      | ok u =>
        simp only []
        cases hts : checkForTradingStart (some tx) with
        | none => exact ⟨hm, _, by simp [hb0, World.log], q2⟩
        | some ev =>
          simp only []
          rcases hcb2 : env.tradingStartCallback ev (tokens3, ext3) with
            ⟨⟨tokens4, ext4⟩, result2⟩
          exact ⟨hm, _, by simp [hb0, World.log], q2.trading_last q2t ev⟩

theorem processTransaction_spec {σ : Type} (cfg : Config) (env : Collaborators σ)
    (sig : String) (w : World σ) :
    (processTransaction cfg env sig w).2 = .ok () ∧
    (processTransaction cfg env sig w).1.monitor = w.monitor ∧
    ∃ blk, (processTransaction cfg env sig w).1.trace
        = w.trace ++ MonitorEvent.processTransaction sig :: blk ∧ TxTail sig blk := by
  obtain ⟨hm, blk, hb, ht⟩ :=
    processTransactionTry_spec cfg env sig (World.log w (.processTransaction sig))
  unfold processTransaction
  split
  · rename_i w1 u heq
    rw [heq] at hm hb
    exact ⟨rfl, hm, blk, by simpa [World.log] using hb, ht⟩
  · rename_i w1 err heq
    rw [heq] at hm hb
    refine ⟨rfl, hm,
      blk ++ [.handleError (some sig) { error := err, context := "processTransaction:" ++ sig }],
      ?_, ht.handled_last _⟩
    simp only [World.log] at hb ⊢
    rw [hb]
    simp

theorem firstOccurrences_filter (p : String → Bool) (l : List String) :
    (firstOccurrences l).filter p = firstOccurrences (l.filter p) := by
  induction l with
  | nil => rfl
  | cons x rest ih =>
    by_cases hp : p x = true
    · simp only [firstOccurrences, List.filter_cons, hp, if_true]
      rw [← ih, List.filter_filter, List.filter_filter]
      congr 1
      apply List.filter_congr
      intro y _
      exact Bool.and_comm _ _
    · simp only [firstOccurrences, List.filter_cons, hp, Bool.false_eq_true, if_false]
      rw [← ih, List.filter_filter]
      apply List.filter_congr
      intro y _
      by_cases hy : y = x
      · subst hy; simp [hp]
      · simp [hy]

theorem mem_firstOccurrences (l : List String) (x : String) :
    x ∈ firstOccurrences l ↔ x ∈ l := by
  induction l with
  | nil => simp [firstOccurrences]
  | cons y rest ih =>
    simp only [firstOccurrences, List.mem_cons, List.mem_filter, ih]
    by_cases h : x = y
    · simp [h]
    · simp [h]

theorem nodup_firstOccurrences (l : List String) : (firstOccurrences l).Nodup := by
  induction l with
  | nil => simp [firstOccurrences]
  | cons y rest ih =>
    simp only [firstOccurrences, List.nodup_cons, List.mem_filter]
    exact ⟨by simp, ih.filter _⟩

theorem firstOccurrences_of_nodup (l : List String) (h : l.Nodup) : firstOccurrences l = l := by
  induction l with
  | nil => rfl
  | cons y rest ih =>
    rw [List.nodup_cons] at h
    simp only [firstOccurrences, ih h.2]
    congr 1
    rw [List.filter_eq_self]
    intro a ha
    have : a ≠ y := fun e => h.1 (e ▸ ha)
    simp [this]

theorem Blocks.processedIds_eq {ids : List String} {blocks : List (List MonitorEvent)}
    (h : Blocks ids blocks) : processedIds blocks.flatten = ids := by
  induction h with
  | nil => rfl
  | cons hb _ ih =>
    obtain ⟨tail, rfl, ht⟩ := hb
    have h1 := ht.proc
    simp only [SplScan.processedIds, List.flatten_cons, List.filterMap_append,
      List.filterMap_cons, procId] at ih h1 ⊢
    rw [h1, ih]; rfl

theorem Blocks.withdrawIds_sublist {ids : List String} {blocks : List (List MonitorEvent)}
    (h : Blocks ids blocks) : (withdrawIds blocks.flatten).Sublist ids := by
  induction h with
  | nil => exact List.Sublist.refl _
  | cons hb _ ih =>
    obtain ⟨tail, rfl, ht⟩ := hb
    have h1 := ht.withdraw
    simp only [SplScan.withdrawIds, List.flatten_cons, List.filterMap_append,
      List.filterMap_cons, withdrawId] at ih h1 ⊢
    exact List.Sublist.append h1 ih

theorem Blocks.tradingIds_sublist {ids : List String} {blocks : List (List MonitorEvent)}
    (h : Blocks ids blocks) : (tradingIds blocks.flatten).Sublist ids := by
  induction h with
  | nil => exact List.Sublist.refl _
  | cons hb _ ih =>
    obtain ⟨tail, rfl, ht⟩ := hb
    have h1 := ht.trading
    simp only [SplScan.tradingIds, List.flatten_cons, List.filterMap_append,
      List.filterMap_cons, tradingId] at ih h1 ⊢
    exact List.Sublist.append h1 ih

theorem Blocks.flatten_noClear {ids : List String} {blocks : List (List MonitorEvent)}
    (h : Blocks ids blocks) : MonitorEvent.cacheCleared ∉ blocks.flatten := by
  induction h with
  | nil => simp
  | cons hb _ ih =>
    obtain ⟨tail, rfl, ht⟩ := hb
    simp only [List.flatten_cons, List.mem_append, List.mem_cons, not_or]
    exact ⟨⟨by simp, ht.noClear⟩, ih⟩

theorem Blocks.txBlock {ids : List String} {blocks : List (List MonitorEvent)}
    (h : Blocks ids blocks) : List.Forall₂ TxBlock ids blocks := by
  induction h with
  | nil => exact List.Forall₂.nil
  | cons hb _ ih =>
    refine List.Forall₂.cons ?_ ih
    obtain ⟨tail, rfl, ht⟩ := hb
    refine ⟨rfl, ?_⟩
    intro e he
    rcases List.mem_cons.1 he with h | h
    · subst h; rfl
    · exact ht.about e h

theorem foldl_setAdd_mem (l : List String) (set : List String) (x : String) :
    x ∈ l.foldl setAdd set ↔ x ∈ set ∨ x ∈ l := by
  induction l generalizing set with
  | nil => simp
  | cons y rest ih =>
    simp only [List.foldl_cons, ih, List.mem_cons]
    unfold setAdd
    split
    · rename_i hy
      constructor
      · rintro (h | h)
        · exact Or.inl h
        · exact Or.inr (Or.inr h)
      · rintro (h | h | h)
        · exact Or.inl h
        · exact Or.inl (h ▸ hy)
        · exact Or.inr h
    · simp only [List.mem_append, List.mem_singleton]
      tauto

theorem processSignatures_spec {σ : Type} (cfg : Config) (env : Collaborators σ)
    (l : List String) (w : World σ) :
    (processSignatures cfg env l w).2 = .ok () ∧
    (processSignatures cfg env l w).1.monitor =
      { w.monitor with processedSignatures := l.foldl setAdd w.monitor.processedSignatures } ∧
    ∃ blocks, (processSignatures cfg env l w).1.trace = w.trace ++ blocks.flatten ∧
      Blocks (firstOccurrences (l.filter (fun s => s ∉ w.monitor.processedSignatures))) blocks := by
  induction l generalizing w with
  | nil => exact ⟨rfl, rfl, [], by simp [processSignatures], List.Forall₂.nil⟩
  | cons x rest ih =>
    by_cases hx : x ∈ w.monitor.processedSignatures
    · obtain ⟨h1, h2, blocks, h3, h4⟩ := ih w
      simp only [processSignatures, hx, if_true]
      refine ⟨h1, ?_, blocks, h3, ?_⟩
      · rw [h2]; simp [setAdd, hx]
      · simpa [List.filter_cons, hx] using h4
    · obtain ⟨p1, p2, tail, p3, p4⟩ := processTransaction_spec cfg env x w
      simp only [processSignatures, hx, if_false]
      rcases hp : processTransaction cfg env x w with ⟨w1, r⟩
      rw [hp] at p1 p2 p3
      simp only at p1 p2 p3
      subst p1
      simp only []
      obtain ⟨h1, h2, blocks, h3, h4⟩ := ih
        { w1 with monitor :=
          { w1.monitor with
            processedSignatures := setAdd w1.monitor.processedSignatures x } }
      refine ⟨h1, ?_, (MonitorEvent.processTransaction x :: tail) :: blocks, ?_, ?_⟩
      · rw [h2]; simp [p2]
      · rw [h3]; simp [p3]
      · have hfo : firstOccurrences
            (List.filter (fun s => decide (s ∉ w.monitor.processedSignatures)) (x :: rest))
            = x :: firstOccurrences
              (List.filter (fun s => decide (s ∉ setAdd w.monitor.processedSignatures x)) rest) := by
          simp only [List.filter_cons, hx, not_false_eq_true, decide_True, if_true,
            firstOccurrences]
          congr 1
          rw [firstOccurrences_filter, List.filter_filter]
          congr 1
          apply List.filter_congr
          intro y _
          simp only [setAdd, hx, if_false, List.mem_append, List.mem_singleton, not_or,
            Bool.decide_and, decide_not]
          exact Bool.and_comm _ _
        rw [hfo]
        refine List.Forall₂.cons ⟨tail, rfl, p4⟩ ?_
        simpa [p2] using h4

theorem processBatch_spec {σ : Type} (cfg : Config) (env : Collaborators σ)
    (newest : String) (more : List String) (w : World σ) :
    (processBatch cfg env (newest :: more) w).2 = .ok () ∧
    (processBatch cfg env (newest :: more) w).1.monitor =
      { lastCheckedSignature := some newest
        isChecking := w.monitor.isChecking
        processedSignatures :=
          (newest :: more).reverse.foldl setAdd w.monitor.processedSignatures } ∧
    ∃ blocks, (processBatch cfg env (newest :: more) w).1.trace = w.trace ++ blocks.flatten ∧
      Blocks (oldestToNewest w.monitor.processedSignatures (newest :: more)) blocks := by
  obtain ⟨h1, h2, blocks, h3, h4⟩ := processSignatures_spec cfg env (newest :: more).reverse w
  unfold processBatch
  rcases hp : processSignatures cfg env (newest :: more).reverse w with ⟨w1, r⟩
  rw [hp] at h1 h2 h3
  simp only at h1 h2 h3
  subst h1
  exact ⟨rfl, by simp [h2], blocks, h3, h4⟩

theorem checkRecentTransactions_batch {σ : Type} (cfg : Config) (env : Collaborators σ)
    (newest : String) (more : List String) (w : World σ) (hc : w.monitor.isChecking = false) :
    (checkRecentTransactions cfg env (.ok (newest :: more)) w).monitor =
      { lastCheckedSignature := some newest
        isChecking := false
        processedSignatures :=
          if (cacheAfter w.monitor.processedSignatures (newest :: more)).length
              > cfg.MAX_SIGNATURE_CACHE then []
          else cacheAfter w.monitor.processedSignatures (newest :: more) } ∧
    ∃ blocks, Blocks (oldestToNewest w.monitor.processedSignatures (newest :: more)) blocks ∧
      (checkRecentTransactions cfg env (.ok (newest :: more)) w).trace =
        w.trace ++ blocks.flatten ++
          (if (cacheAfter w.monitor.processedSignatures (newest :: more)).length
              > cfg.MAX_SIGNATURE_CACHE then [MonitorEvent.cacheCleared] else []) := by
  obtain ⟨h1, h2, blocks, h3, h4⟩ := processBatch_spec cfg env newest more
    { w with monitor := { w.monitor with isChecking := true } }
  simp only [checkRecentTransactions, hc, Bool.false_eq_true, if_false,
    checkRecentTransactionsTry, List.length_cons, Nat.add_one_ne_zero]
  rcases hp : processBatch cfg env (newest :: more)
    { w with monitor := { w.monitor with isChecking := true } } with ⟨w1, r⟩
  rw [hp] at h1 h2 h3
  simp only at h1 h2 h3
  subst h1
  simp only [trimCache, h2, cacheAfter]
  refine ⟨?_, blocks, h4, ?_⟩
  · split <;> simp [World.log, h2]
  · split <;> simp [World.log, h3]

theorem checkRecentTransactions_empty {σ : Type} (cfg : Config) (env : Collaborators σ)
    (w : World σ) (hc : w.monitor.isChecking = false) :
    checkRecentTransactions cfg env (.ok []) w = w := by
  obtain ⟨⟨cp, chk, set⟩, tokens, ext, trace⟩ := w
  simp only at hc
  subst hc
  simp [checkRecentTransactions, checkRecentTransactionsTry]

theorem checkRecentTransactions_failed {σ : Type} (cfg : Config) (env : Collaborators σ)
    (error : JsError) (w : World σ) (hc : w.monitor.isChecking = false) :
    (checkRecentTransactions cfg env (.error error) w).monitor = w.monitor ∧
    (checkRecentTransactions cfg env (.error error) w).trace = w.trace ++
      [.handleError none { error := error, context := "checkRecentTransactions" },
       .sendErrorNotification error] := by
  obtain ⟨⟨cp, chk, set⟩, tokens, ext, trace⟩ := w
  simp only at hc
  subst hc
  simp [checkRecentTransactions, checkRecentTransactionsTry, World.log]

theorem checkRecentTransactions_busy {σ : Type} (cfg : Config) (env : Collaborators σ)
    (fetched : Except JsError (List String)) (w : World σ) (hc : w.monitor.isChecking = true) :
    checkRecentTransactions cfg env fetched w = w := by
  simp [checkRecentTransactions, hc]

theorem checkRecentTransactions_idle {σ : Type} (cfg : Config) (env : Collaborators σ)
    (fetched : Except JsError (List String)) (w : World σ) (hc : w.monitor.isChecking = false) :
    (checkRecentTransactions cfg env fetched w).monitor.isChecking = false := by
  simp [checkRecentTransactions, hc]

theorem mem_cacheAfter (processed batch : List String) (s : String) :
    s ∈ cacheAfter processed batch ↔ s ∈ processed ∨ s ∈ batch := by
  unfold cacheAfter
  rw [foldl_setAdd_mem]
  simp

theorem mem_oldestToNewest (processed batch : List String) (s : String) :
    s ∈ oldestToNewest processed batch ↔ s ∈ batch ∧ s ∉ processed := by
  simp [oldestToNewest, mem_firstOccurrences, List.mem_filter]

/-- What one poll cycle adds to the trace, and what it does to the signature set
when the cache is not reset. -/
theorem cycle_summary {σ : Type} (cfg : Config) (env : Collaborators σ)
    (fetched : Except JsError (List String)) (w : World σ) :
    ∃ ids new, (checkRecentTransactions cfg env fetched w).trace = w.trace ++ new ∧
      processedIds new = ids ∧ (withdrawIds new).Sublist ids ∧ (tradingIds new).Sublist ids ∧
      ids.Nodup ∧ (∀ s ∈ ids, s ∉ w.monitor.processedSignatures) ∧
      (MonitorEvent.cacheCleared ∉ new → ∀ s,
        s ∈ w.monitor.processedSignatures ∨ s ∈ ids →
          s ∈ (checkRecentTransactions cfg env fetched w).monitor.processedSignatures) := by
  cases hc : w.monitor.isChecking with
  | true =>
    rw [checkRecentTransactions_busy cfg env fetched w hc]
    exact ⟨[], [], by simp, rfl, List.Sublist.refl _, List.Sublist.refl _, List.nodup_nil,
      by simp, by simp⟩
  | false =>
    cases fetched with
    | error error =>
      obtain ⟨h1, h2⟩ := checkRecentTransactions_failed cfg env error w hc
      refine ⟨[], _, h2, by simp [processedIds, procId], by simp [withdrawIds, withdrawId],
        by simp [tradingIds, tradingId], List.nodup_nil, by simp, ?_⟩
      intro _ s hs
      rw [h1]
      simpa using hs
    | ok batch =>
      cases batch with
      | nil =>
        rw [checkRecentTransactions_empty cfg env w hc]
        exact ⟨[], [], by simp, rfl, List.Sublist.refl _, List.Sublist.refl _, List.nodup_nil,
          by simp, by simp⟩
      | cons newest more =>
        obtain ⟨h1, blocks, hb, h2⟩ := checkRecentTransactions_batch cfg env newest more w hc
        refine ⟨oldestToNewest w.monitor.processedSignatures (newest :: more), _,
          by rw [h2, List.append_assoc], ?_, ?_, ?_, nodup_firstOccurrences _, ?_, ?_⟩
        · simp only [processedIds, List.filterMap_append]
          rw [show List.filterMap procId blocks.flatten = _ from hb.processedIds_eq]
          split <;> simp [procId]
        · simp only [withdrawIds, List.filterMap_append]
          have := hb.withdrawIds_sublist
          split <;> simpa [withdrawIds, withdrawId] using this
        · simp only [tradingIds, List.filterMap_append]
          have := hb.tradingIds_sublist
          split <;> simpa [tradingIds, tradingId] using this
        · intro s hs
          exact ((mem_oldestToNewest _ _ s).1 hs).2
        · intro hnc s hs
          rw [h1]
          by_cases hlen : (cacheAfter w.monitor.processedSignatures (newest :: more)).length
              > cfg.MAX_SIGNATURE_CACHE
          · simp [hlen] at hnc
          · simp only [hlen, if_false, mem_cacheAfter]
            rcases hs with hs | hs
            · exact Or.inl hs
            · exact Or.inr ((mem_oldestToNewest _ _ s).1 hs).1

theorem trace_prefix_runCycles {σ : Type} (cfg : Config) (env : Collaborators σ)
    (fetches : List (Except JsError (List String))) (w : World σ) :
    ∃ new, (runCycles cfg env w fetches).trace = w.trace ++ new := by
  induction fetches generalizing w with
  | nil => exact ⟨[], by simp [runCycles]⟩
  | cons f rest ih =>
    obtain ⟨_, new1, h1, _⟩ := cycle_summary cfg env f w
    obtain ⟨new2, h2⟩ := ih (checkRecentTransactions cfg env f w)
    exact ⟨new1 ++ new2, by simp [runCycles, h2, h1]⟩

theorem DedupInv.preserved {σ : Type} (cfg : Config) (env : Collaborators σ)
    (fetches : List (Except JsError (List String))) (w : World σ) (hw : DedupInv w)
    (hclear : MonitorEvent.cacheCleared ∉
      ((SplScan.runCycles cfg env w fetches).trace.drop w.trace.length)) :
    DedupInv (SplScan.runCycles cfg env w fetches) := by
  induction fetches generalizing w with
  | nil => exact hw
  | cons f rest ih =>
    obtain ⟨ids, new1, h1, p1, p2, p3, p4, p5, p6⟩ := cycle_summary cfg env f w
    obtain ⟨new2, h2⟩ := trace_prefix_runCycles cfg env rest (checkRecentTransactions cfg env f w)
    simp only [SplScan.runCycles] at hclear ⊢
    have hdrop : (SplScan.runCycles cfg env (checkRecentTransactions cfg env f w) rest).trace.drop
        w.trace.length = new1 ++ new2 := by
      rw [h2, h1, List.append_assoc, List.drop_left]
    rw [hdrop] at hclear
    have hc1 : MonitorEvent.cacheCleared ∉ new1 := fun h => hclear (List.mem_append_left _ h)
    have hc2 : MonitorEvent.cacheCleared ∉ new2 := fun h => hclear (List.mem_append_right _ h)
    apply ih
    · refine ⟨?_, ?_, ?_, ?_⟩
      · rw [h1]
        simp only [processedIds, List.filterMap_append]
        rw [show List.filterMap procId new1 = ids from p1]
        refine List.nodup_append.2 ⟨hw.nodup, p4, ?_⟩
        intro s hs1 hs2
        exact p5 s hs2 (hw.recorded s hs1)
      · intro s hs
        rw [h1] at hs
        simp only [processedIds, List.filterMap_append, List.mem_append] at hs
        apply p6 hc1
        rcases hs with hs | hs
        · exact Or.inl (hw.recorded s hs)
        · exact Or.inr (p1 ▸ hs)
      · rw [h1]
        simp only [withdrawIds, processedIds, List.filterMap_append]
        exact List.Sublist.append hw.withdraw (by rw [← p1] at p2; exact p2)
      · rw [h1]
        simp only [tradingIds, processedIds, List.filterMap_append]
        exact List.Sublist.append hw.trading (by rw [← p1] at p3; exact p3)
    · rw [h2, List.drop_left]
      exact hc2

theorem sublist_firstOccurrences (l : List String) : (firstOccurrences l).Sublist l := by
  induction l with
  | nil => exact List.Sublist.refl _
  | cons x rest ih =>
    simp only [firstOccurrences]
    exact List.Sublist.cons₂ x ((List.filter_sublist _).trans ih)

theorem runCycles_append {σ : Type} (cfg : Config) (env : Collaborators σ)
    (pre post : List (Except JsError (List String))) (w : World σ) :
    runCycles cfg env w (pre ++ post) = runCycles cfg env (runCycles cfg env w pre) post := by
  induction pre generalizing w with
  | nil => rfl
  | cons f rest ih => exact ih (checkRecentTransactions cfg env f w)

theorem runCycles_idle {σ : Type} (cfg : Config) (env : Collaborators σ)
    (fetches : List (Except JsError (List String))) (w : World σ)
    (hc : w.monitor.isChecking = false) :
    (runCycles cfg env w fetches).monitor.isChecking = false := by
  induction fetches generalizing w with
  | nil => exact hc
  | cons f rest ih => exact ih _ (checkRecentTransactions_idle cfg env f w hc)

theorem cycle_checkpoint {σ : Type} (cfg : Config) (env : Collaborators σ)
    (fetched : Except JsError (List String)) (w : World σ) (hc : w.monitor.isChecking = false) :
    (checkRecentTransactions cfg env fetched w).monitor.lastCheckedSignature =
      (newestOf fetched).or w.monitor.lastCheckedSignature := by
  cases fetched with
  | error error => rw [(checkRecentTransactions_failed cfg env error w hc).1]; rfl
  | ok batch =>
    cases batch with
    | nil => rw [checkRecentTransactions_empty cfg env w hc]; rfl
    | cons newest more => rw [(checkRecentTransactions_batch cfg env newest more w hc).1]; rfl

theorem newestOfLastNonEmptyBatch_cons (f : Except JsError (List String))
    (rest : List (Except JsError (List String))) :
    newestOfLastNonEmptyBatch (f :: rest) = (newestOfLastNonEmptyBatch rest).or (newestOf f) := by
  unfold newestOfLastNonEmptyBatch
  rw [List.reverse_cons, List.findSome?_append]
  congr 1
  cases f with
  | error e => rfl
  | ok batch => cases batch <;> rfl

theorem runCycles_checkpoint {σ : Type} (cfg : Config) (env : Collaborators σ)
    (fetches : List (Except JsError (List String))) (w : World σ)
    (hc : w.monitor.isChecking = false) :
    (runCycles cfg env w fetches).monitor.lastCheckedSignature =
      (newestOfLastNonEmptyBatch fetches).or w.monitor.lastCheckedSignature := by
  induction fetches generalizing w with
  | nil => rfl
  | cons f rest ih =>
    simp only [runCycles]
    rw [ih _ (checkRecentTransactions_idle cfg env f w hc), cycle_checkpoint cfg env f w hc,
      newestOfLastNonEmptyBatch_cons]
    cases newestOfLastNonEmptyBatch rest <;> rfl

theorem cycle_rank {σ : Type} (rank : String → Nat) (cfg : Config) (env : Collaborators σ)
    (fetched : Except JsError (List String)) (w : World σ) (hc : w.monitor.isChecking = false)
    (ht : TransportReturnsNewer rank cfg env w [fetched]) :
    checkpointRank rank w.monitor.lastCheckedSignature ≤
      checkpointRank rank (checkRecentTransactions cfg env fetched w).monitor.lastCheckedSignature := by
  rw [cycle_checkpoint cfg env fetched w hc]
  have h := ht.1
  cases fetched with
  | error error => exact Nat.le_refl _
  | ok batch =>
    cases batch with
    | nil => exact Nat.le_refl _
    | cons newest more =>
      cases hcp : w.monitor.lastCheckedSignature with
      | none => exact Nat.zero_le _
      | some c =>
        rw [hcp] at h
        have := h newest (List.mem_cons_self _ _)
        simp only [newestOf, Option.or, checkpointRank]
        omega

theorem transportReturnsNewer_suffix {σ : Type} (rank : String → Nat) (cfg : Config)
    (env : Collaborators σ) (pre post : List (Except JsError (List String))) (w : World σ)
    (h : TransportReturnsNewer rank cfg env w (pre ++ post)) :
    TransportReturnsNewer rank cfg env (runCycles cfg env w pre) post := by
  induction pre generalizing w with
  | nil => exact h
  | cons f rest ih => exact ih _ h.2

theorem runCycles_rank {σ : Type} (rank : String → Nat) (cfg : Config) (env : Collaborators σ)
    (fetches : List (Except JsError (List String))) (w : World σ)
    (hc : w.monitor.isChecking = false) (ht : TransportReturnsNewer rank cfg env w fetches) :
    checkpointRank rank w.monitor.lastCheckedSignature ≤
      checkpointRank rank (runCycles cfg env w fetches).monitor.lastCheckedSignature := by
  induction fetches generalizing w with
  | nil => exact Nat.le_refl _
  | cons f rest ih =>
    exact Nat.le_trans (cycle_rank rank cfg env f w hc ⟨ht.1, trivial⟩)
      (ih _ (checkRecentTransactions_idle cfg env f w hc) ht.2)

/-! ## Lemmas on classification and retry -/

theorem extractTokenAddresses_result (tokens : TokenStateManager) (now : Nat)
    (transaction : Option ParsedTransaction) (pumpfun : String) :
    (extractTokenAddresses tokens now transaction pumpfun).2.2 =
      match postTokenBalancesOf transaction with
      | none => none
      | some balances =>
        match balances.find? (fun balance => balance.owner = some pumpfun) with
        | none => none
        | some first =>
          some
            { mintAddress := first.mint
              pumpfunBondingCurve :=
                match balances.find? (fun balance =>
                    balance.mint = first.mint ∧ balance.owner ≠ some pumpfun) with
                | some other => other.owner
                | none => some "Not found" } := by
  unfold extractTokenAddresses extractTokenAddressesTry
  cases postTokenBalancesOf transaction with
  | none => rfl
  | some balances =>
    simp only []
    cases List.find? (fun balance => decide (balance.owner = some pumpfun)) balances with
    | none => rfl
    | some first => rfl

theorem includes_ne_empty (log : String) (h : includes log "initialize2:" = true) :
    truthy log = true := by
  unfold truthy
  by_cases he : log = ""
  · subst he
    exact absurd h (by decide)
  · simp [he]

theorem checkForTradingStart_marker (tx : ParsedTransaction) (logs : List String)
    (hl : logMessagesOf (some tx) = some logs)
    (hex : ∃ log ∈ logs, includes log "initialize2:" = true) :
    checkForTradingStart (some tx) =
      match tx.meta.bind (fun m => m.preTokenBalances) with
      | none => none
      | some pre =>
        match pre.find? (fun balance =>
            balance.mint ≠ "So11111111111111111111111111111111111111112") with
        | none => none
        | some first =>
          if truthy first.mint then some { mintAddress := first.mint } else none := by
  unfold checkForTradingStart
  rw [hl]
  simp only []
  cases hf : logs.find? (fun log => includes log "initialize2:") with
  | none =>
    obtain ⟨log, hlog, hinc⟩ := hex
    exact absurd hinc (List.find?_eq_none.1 hf log hlog)
  | some initializeLog =>
    have hinc : includes initializeLog "initialize2:" = true :=
      @List.find?_some _ (fun log => includes log "initialize2:") _ _ hf
    simp only [includes_ne_empty initializeLog hinc, if_true, extractNewTokenMint]
    cases tx.meta.bind (fun m => m.preTokenBalances) with
    | none => rfl
    | some pre =>
      simp only []
      cases pre.find? (fun balance =>
          decide (balance.mint ≠ "So11111111111111111111111111111111111111112")) with
      | none => rfl
      | some first => rfl

theorem checkForTradingStart_no_marker (transaction : Option ParsedTransaction)
    (hm : ¬ ∃ logs, logMessagesOf transaction = some logs ∧
      ∃ log ∈ logs, includes log "initialize2:" = true) :
    checkForTradingStart transaction = none := by
  unfold checkForTradingStart
  cases transaction with
  | none => rfl
  | some tx =>
    cases hl : logMessagesOf (some tx) with
    | none => rfl
    | some logs =>
      simp only []
      cases hf : logs.find? (fun log => includes log "initialize2:") with
      | none => rfl
      | some initializeLog =>
        have hinc : includes initializeLog "initialize2:" = true :=
          @List.find?_some _ (fun log => includes log "initialize2:") _ _ hf
        exact absurd ⟨logs, hl, initializeLog, List.mem_of_find?_eq_some hf, hinc⟩ hm

theorem retryLoop_spec {σ α : Type} (cfg : Config)
    (sleep : Nat → TokenStateManager × σ → TokenStateManager × σ)
    (operation : Operation σ α) (mintAddress : Option String) (maxAttempts : Nat)
    (remaining : Nat) :
    ∀ (attempt : Nat) (lastError : Option JsError) (state : TokenStateManager × σ)
      (errs0 : List JsError) (delays : List Nat),
      attempt + remaining = maxAttempts + 1 → errs0.length + 1 = attempt →
      lastError = errs0.getLast? →
      (∃ (errs : List JsError) (v : α),
        (retryLoop cfg sleep operation mintAddress maxAttempts remaining attempt lastError state
          (errs0.map Except.error) delays).outcomes = errs.map Except.error ++ [Except.ok v] ∧
        errs.length < maxAttempts ∧
        (retryLoop cfg sleep operation mintAddress maxAttempts remaining attempt lastError state
          (errs0.map Except.error) delays).result = Except.ok v) ∨
      (∃ (errs : List JsError),
        (retryLoop cfg sleep operation mintAddress maxAttempts remaining attempt lastError state
          (errs0.map Except.error) delays).outcomes = errs.map Except.error ∧
        errs.length = maxAttempts ∧
        (retryLoop cfg sleep operation mintAddress maxAttempts remaining attempt lastError state
          (errs0.map Except.error) delays).result = Except.error errs.getLast?) := by
  induction remaining with
  | zero =>
    intro attempt lastError state errs0 delays h1 h2 h3
    right
    exact ⟨errs0, rfl, by omega, by simp [retryLoop, h3]⟩
  | succ n ih =>
    intro attempt lastError state errs0 delays h1 h2 h3
    simp only [retryLoop]
    rcases hop : operation
        (state.1.tokenEmit mintAddress (fun m => .retryAttempt m attempt maxAttempts), state.2)
      with ⟨state2, outcome⟩
    cases outcome with
    | ok v =>
      left
      exact ⟨errs0, v, rfl, by omega, rfl⟩
    | error e =>
      simp only []
      have hmap : List.map Except.error errs0 ++ [Except.error e]
          = List.map (Except.error : JsError → Except JsError α) (errs0 ++ [e]) := by simp
      rw [hmap]
      split
      · exact ih (attempt + 1) (some e) _ (errs0 ++ [e]) _ (by omega) (by simp; omega) (by simp)
      · exact ih (attempt + 1) (some e) _ (errs0 ++ [e]) _ (by omega) (by simp; omega) (by simp)

/-! ## Lemmas on the backoff schedule -/

theorem retryLoop_delays {σ α : Type} (cfg : Config)
    (sleep : Nat → TokenStateManager × σ → TokenStateManager × σ)
    (operation : Operation σ α) (mintAddress : Option String) (maxAttempts : Nat)
    (remaining : Nat) :
    ∀ (attempt : Nat) (lastError : Option JsError) (state : TokenStateManager × σ)
      (outcomes0 : List (Except JsError α)) (delays0 : List Nat),
      attempt + remaining = maxAttempts + 1 → 1 ≤ attempt →
      ∃ new : List (Except JsError α),
        (retryLoop cfg sleep operation mintAddress maxAttempts remaining attempt lastError state
          outcomes0 delays0).outcomes = outcomes0 ++ new ∧
        (∀ o ∈ new, ∃ st, (operation st).2 = o) ∧
        (retryLoop cfg sleep operation mintAddress maxAttempts remaining attempt lastError state
          outcomes0 delays0).delays =
          delays0 ++ (List.range' (attempt - 1)
            (min (new.countP failed) (maxAttempts - attempt))).map (backoffDelay cfg) := by
  induction remaining with
  | zero =>
    intro attempt lastError state outcomes0 delays0 h1 h2
    exact ⟨[], by simp [retryLoop], by simp, by simp [retryLoop]⟩
  | succ n ih =>
    intro attempt lastError state outcomes0 delays0 h1 h2
    simp only [retryLoop]
    rcases hop : operation
        (state.1.tokenEmit mintAddress (fun m => .retryAttempt m attempt maxAttempts), state.2)
      with ⟨state2, outcome⟩
    cases outcome with
    | ok v =>
      refine ⟨[.ok v], rfl, ?_, ?_⟩
      · intro o ho
        simp only [List.mem_singleton] at ho
        subst ho
        exact ⟨_, by rw [hop]⟩
      · simp [failed]
    | error e =>
      simp only []
      have hmem : ∃ st, (operation st).2 = (Except.error e : Except JsError α) :=
        ⟨_, by rw [hop]⟩
      split
      · rename_i hlt
        obtain ⟨new, h3, h4, h5⟩ := ih (attempt + 1) (some e)
          (sleep (cfg.RETRY_DELAY_MS * 2 ^ (attempt - 1))
            (state2.1.tokenEmit mintAddress (fun m => .retryError m attempt e), state2.2))
          (outcomes0 ++ [.error e]) (delays0 ++ [cfg.RETRY_DELAY_MS * 2 ^ (attempt - 1)])
          (by omega) (by omega)
        refine ⟨.error e :: new, by rw [h3]; simp, ?_, ?_⟩
        · intro o ho
          rcases List.mem_cons.1 ho with h | h
          · subst h; exact hmem
          · exact h4 o h
        · rw [h5]
          have hk : min (List.countP failed (Except.error e :: new)) (maxAttempts - attempt)
              = min (List.countP failed new) (maxAttempts - (attempt + 1)) + 1 := by
            simp only [List.countP_cons, failed, if_true]
            omega
          rw [hk, List.range'_succ, List.map_cons, List.append_assoc]
          have ha : attempt - 1 + 1 = attempt + 1 - 1 := by omega
          simp [backoffDelay, ha]
      · rename_i hge
        obtain ⟨new, h3, h4, h5⟩ := ih (attempt + 1) (some e)
          (state2.1.tokenEmit mintAddress (fun m => .retryError m attempt e), state2.2)
          (outcomes0 ++ [.error e]) delays0 (by omega) (by omega)
        refine ⟨.error e :: new, by rw [h3]; simp, ?_, ?_⟩
        · intro o ho
          rcases List.mem_cons.1 ho with h | h
          · subst h; exact hmem
          · exact h4 o h
        · rw [h5]
          have h0 : maxAttempts - attempt = 0 := by omega
          have h0' : maxAttempts - (attempt + 1) = 0 := by omega
          simp [h0, h0']

/-! ## Lemmas on the slow loop -/

theorem selectInterval_cons (interval : Nat) (rest : List Nat) (e : Nat) (logged : List Nat) :
    selectInterval (interval :: rest) e logged =
      if interval ∉ logged ∧ DueRule e interval then some interval
      else selectInterval rest e logged := by
  simp only [selectInterval, DueRule]
  by_cases h1 : e ≥ interval ∧ interval ∉ logged
  · rw [if_pos h1]
    by_cases h2 : interval ≤ 180 ∨ (interval ≤ 1200 ∧ e - interval < 30)
    · rw [if_pos h2, if_pos]
      refine ⟨h1.2, ?_⟩
      omega
    · rw [if_neg h2, if_neg]
      intro h
      apply h2
      omega
  · rw [if_neg h1, if_neg]
    intro h
    apply h1
    refine ⟨?_, h.1⟩
    have := h.2
    omega

theorem selectInterval_eq_some (intervals : List Nat) (e : Nat) (logged : List Nat) (o : Nat) :
    selectInterval intervals e logged = some o ↔
      ∃ pre post, intervals = pre ++ o :: post ∧
        (∀ x ∈ pre, ¬ (x ∉ logged ∧ DueRule e x)) ∧ o ∉ logged ∧ DueRule e o := by
  induction intervals with
  | nil => simp [selectInterval]
  | cons interval rest ih =>
    rw [selectInterval_cons]
    by_cases h : interval ∉ logged ∧ DueRule e interval
    · rw [if_pos h]
      constructor
      · intro ho
        cases ho
        exact ⟨[], rest, rfl, by simp, h.1, h.2⟩
      · rintro ⟨pre, post, hsplit, hpre, hl, hd⟩
        cases pre with
        | nil =>
          simp only [List.nil_append, List.cons.injEq] at hsplit
          rw [hsplit.1]
        | cons y pre2 =>
          simp only [List.cons_append, List.cons.injEq] at hsplit
          exact absurd (hsplit.1 ▸ h) (hpre y (List.mem_cons_self _ _))
    · rw [if_neg h, ih]
      constructor
      · rintro ⟨pre, post, hsplit, hpre, hl, hd⟩
        refine ⟨interval :: pre, post, by rw [hsplit]; rfl, ?_, hl, hd⟩
        intro x hx
        rcases List.mem_cons.1 hx with hx | hx
        · subst hx; exact h
        · exact hpre x hx
      · rintro ⟨pre, post, hsplit, hpre, hl, hd⟩
        cases pre with
        | nil =>
          simp only [List.nil_append, List.cons.injEq] at hsplit
          exact absurd (hsplit.1 ▸ ⟨hl, hd⟩) h
        | cons y pre2 =>
          simp only [List.cons_append, List.cons.injEq] at hsplit
          exact ⟨pre2, post, hsplit.2, fun x hx => hpre x (List.mem_cons_of_mem _ hx), hl, hd⟩

theorem selectInterval_eq_none (intervals : List Nat) (e : Nat) (logged : List Nat) :
    selectInterval intervals e logged = none ↔
      ∀ x ∈ intervals, ¬ (x ∉ logged ∧ DueRule e x) := by
  induction intervals with
  | nil => simp [selectInterval]
  | cons interval rest ih =>
    rw [selectInterval_cons]
    by_cases h : interval ∉ logged ∧ DueRule e interval
    · rw [if_pos h]
      constructor
      · intro ho; cases ho
      · intro hall
        exact absurd h (hall interval (List.mem_cons_self _ _))
    · rw [if_neg h, ih]
      constructor
      · intro hall x hx
        rcases List.mem_cons.1 hx with hx | hx
        · subst hx; exact h
        · exact hall x hx
      · intro hall x hx
        exact hall x (List.mem_cons_of_mem _ hx)

theorem slowTick_loggedIntervals (intervals : List Nat) (e : Nat) (outcome : SampleOutcome)
    (s : SlowLoop) :
    (slowTick intervals e outcome s).loggedIntervals =
      if s.isLogging then s.loggedIntervals
      else
        match selectInterval intervals e s.loggedIntervals, outcome with
        | some o, .logged =>
          if o ∈ s.loggedIntervals then s.loggedIntervals else s.loggedIntervals ++ [o]
        | _, _ => s.loggedIntervals := by
  unfold slowTick
  by_cases hl : s.isLogging = true
  · simp only [hl, if_true]
  · simp only [hl, Bool.false_eq_true, if_false]
    cases selectInterval intervals e s.loggedIntervals with
    | none =>
      simp only []
      repeat' split
      all_goals rfl
    | some o =>
      cases outcome with
      | logged =>
        simp only []
        repeat' split
        all_goals rfl
      | failed catchRaised =>
        simp only []
        repeat' split
        all_goals rfl

theorem slowTick_logged (intervals : List Nat) (e : Nat) (s : SlowLoop)
    (hidle : s.isLogging = false) :
    (slowTick intervals e .logged s).loggedIntervals =
      match selectInterval intervals e s.loggedIntervals with
      | some o => s.loggedIntervals ++ [o]
      | none => s.loggedIntervals := by
  rw [slowTick_loggedIntervals]
  simp only [hidle, Bool.false_eq_true, if_false]
  cases hsel : selectInterval intervals e s.loggedIntervals with
  | none => rfl
  | some o =>
    obtain ⟨_, _, _, _, ho, _⟩ := (selectInterval_eq_some intervals e s.loggedIntervals o).1 hsel
    simp only [ho, if_false]

theorem slowTick_mem (intervals : List Nat) (e : Nat) (outcome : SampleOutcome) (s : SlowLoop)
    (x : Nat) (hx : x ∈ (slowTick intervals e outcome s).loggedIntervals) :
    x ∈ s.loggedIntervals ∨ (x ∈ intervals ∧ DueRule e x) := by
  rw [slowTick_loggedIntervals] at hx
  by_cases hl : s.isLogging = true
  · simp only [hl, if_true] at hx
    exact Or.inl hx
  · simp only [hl, Bool.false_eq_true, if_false] at hx
    cases hsel : selectInterval intervals e s.loggedIntervals with
    | none =>
      rw [hsel] at hx
      exact Or.inl hx
    | some o =>
      obtain ⟨pre, post, hsplit, _, _, hdue⟩ :=
        (selectInterval_eq_some intervals e s.loggedIntervals o).1 hsel
      have hmem : o ∈ intervals := by rw [hsplit]; simp
      rw [hsel] at hx
      cases outcome with
      | logged =>
        simp only [] at hx
        split at hx
        · exact Or.inl hx
        · rcases List.mem_append.1 hx with h | h
          · exact Or.inl h
          · simp only [List.mem_singleton] at h
            subst h
            exact Or.inr ⟨hmem, hdue⟩
      | failed catchRaised => exact Or.inl hx

theorem runTicks_not_logged (intervals : List Nat) (o : Nat)
    (ticks : List (Nat × SampleOutcome)) (s : SlowLoop)
    (hnot : o ∉ s.loggedIntervals) (hlate : ∀ t ∈ ticks, ¬ DueRule t.1 o) :
    o ∉ (runTicks intervals s ticks).loggedIntervals := by
  induction ticks generalizing s with
  | nil => exact hnot
  | cons t rest ih =>
    obtain ⟨e, outcome⟩ := t
    simp only [runTicks]
    split
    · exact hnot
    · apply ih
      · intro hin
        rcases slowTick_mem intervals e outcome s o hin with h | h
        · exact hnot h
        · exact hlate (e, outcome) (List.mem_cons_self _ _) h.2
      · intro t ht
        exact hlate t (List.mem_cons_of_mem _ ht)

theorem runTicks_stopped (intervals : List Nat) (s : SlowLoop)
    (ticks : List (Nat × SampleOutcome)) (h : s.cleanups ≠ []) :
    runTicks intervals s ticks = s := by
  cases ticks with
  | nil => rfl
  | cons t rest =>
    obtain ⟨e, outcome⟩ := t
    simp [runTicks, h]

theorem runTicks_append (intervals : List Nat) (a b : List (Nat × SampleOutcome))
    (s : SlowLoop) :
    runTicks intervals s (a ++ b) = runTicks intervals (runTicks intervals s a) b := by
  induction a generalizing s with
  | nil => rfl
  | cons t rest ih =>
    obtain ⟨e, outcome⟩ := t
    simp only [List.cons_append, runTicks]
    split
    · rename_i h
      exact (runTicks_stopped intervals s b h).symm
    · exact ih _

theorem stateAfter_succ (period n : Nat) :
    stateAfter period (n + 1) =
      if (stateAfter period n).cleanups ≠ [] then stateAfter period n
      else slowTick (setOfList scenarioOffsets) ((n + 1) * period) .logged (stateAfter period n) := by
  unfold stateAfter regularTicks
  rw [List.range_succ, List.map_append, runTicks_append]
  simp only [List.map_cons, List.map_nil, runTicks]

theorem slowTick_denseLogged_quiet (e : Nat) (h : e < 300) :
    slowTick (setOfList scenarioOffsets) e .logged denseLogged = denseLogged := by
  have hs : setOfList scenarioOffsets = [0, 30, 60, 90, 120, 180, 300, 600, 900, 1200] := by
    decide
  have hsel : selectInterval [0, 30, 60, 90, 120, 180, 300, 600, 900, 1200] e
      [0, 30, 60, 90, 120, 180] = none := by
    rw [selectInterval_eq_none]
    intro x hx
    simp only [List.mem_cons, List.mem_singleton, List.not_mem_nil, or_false] at hx
    unfold DueRule
    rcases hx with h | h | h | h | h | h | h | h | h | h <;> subst h <;> simp <;> omega
  rw [hs]
  unfold slowTick denseLogged
  simp only [Bool.false_eq_true, if_false, hsel]
  have : ¬ (e ≥ 1200) := by omega
  simp [this]

theorem slowTick_denseLogged_300 (e : Nat) (h1 : 300 ≤ e) (h2 : e < 330) :
    slowTick (setOfList scenarioOffsets) e .logged denseLogged =
      { loggedIntervals := [0, 30, 60, 90, 120, 180, 300], isLogging := false, cleanups := [] } := by
  have hs : setOfList scenarioOffsets = [0, 30, 60, 90, 120, 180, 300, 600, 900, 1200] := by
    decide
  have hsel : selectInterval [0, 30, 60, 90, 120, 180, 300, 600, 900, 1200] e
      [0, 30, 60, 90, 120, 180] = some 300 := by
    rw [selectInterval_eq_some]
    refine ⟨[0, 30, 60, 90, 120, 180], [600, 900, 1200], rfl, ?_, by decide, ?_⟩
    · intro x hx h
      exact h.1 hx
    · unfold DueRule
      omega
  rw [hs]
  unfold slowTick denseLogged
  simp only [Bool.false_eq_true, if_false, hsel]
  have : ¬ (e ≥ 1200) := by omega
  simp [this]

set_option maxRecDepth 100000 in
theorem stateAfter_185 (p : Nat) (hp1 : 1 ≤ p) (hp10 : p ≤ 10) :
    stateAfter p (185 / p) = denseLogged := by
  interval_cases p <;> decide

theorem stateAfter_before_300 (p n : Nat) (hp1 : 1 ≤ p) (hp10 : p ≤ 10)
    (h1 : 185 / p ≤ n) (h2 : n * p < 300) : stateAfter p n = denseLogged := by
  induction n, h1 using Nat.le_induction with
  | base => exact stateAfter_185 p hp1 hp10
  | succ k hk ih =>
    have hk2 : k * p < 300 := by
      have : k * p ≤ (k + 1) * p := Nat.mul_le_mul_right p (Nat.le_succ k)
      omega
    rw [stateAfter_succ, ih hk2]
    simp only [denseLogged, ne_eq, not_true_eq_false, if_false]
    exact slowTick_denseLogged_quiet _ h2

/-! ## Lemmas on the strategy -/

theorem checkExitAlways_exit (params : StrategyParams) (gain interval : ℚ)
    (h : gain ≥ params.takeProfit ∨ interval ≥ params.exitInterval) :
    (checkExitAlways params gain interval).shouldExit = true := by
  unfold checkExitAlways
  by_cases h1 : gain ≥ params.takeProfit
  · rw [if_pos h1]
  · rw [if_neg h1]
    have h2 : interval ≥ params.exitInterval := h.resolve_left h1
    rw [if_pos h2]

theorem checkExitAlways_no_exit (params : StrategyParams) (gain interval : ℚ)
    (h : (checkExitAlways params gain interval).shouldExit = false) :
    checkExitAlways params gain interval = { shouldExit := false, reason := none } ∧
    ¬ gain ≥ params.takeProfit ∧ ¬ interval ≥ params.exitInterval := by
  unfold checkExitAlways at h ⊢
  by_cases h1 : gain ≥ params.takeProfit
  · rw [if_pos h1] at h
    cases h
  · by_cases h2 : interval ≥ params.exitInterval
    · rw [if_neg h1, if_pos h2] at h
      cases h
    · rw [if_neg h1, if_neg h2]
      exact ⟨rfl, h1, h2⟩

theorem checkExitAlways_reason (params : StrategyParams) (gain interval : ℚ) :
    ExitReason.isStopLoss (checkExitAlways params gain interval).reason = false ∧
    ExitReason.isTrailingStop (checkExitAlways params gain interval).reason = false := by
  unfold checkExitAlways
  split
  · exact ⟨rfl, rfl⟩
  · split
    · exact ⟨rfl, rfl⟩
    · exact ⟨rfl, rfl⟩

theorem checkExit_activated (s : ActiveStrategy) (mint : String)
    (currentPrice entryPrice interval : ℚ)
    (h : percentageGain currentPrice entryPrice ≥ s.params.trailingActivationPoint) :
    (s.checkExit mint currentPrice entryPrice interval).1.isTrailingActivated mint = true ∧
    ExitReason.isStopLoss (s.checkExit mint currentPrice entryPrice interval).2.reason = false ∧
    ((dropFromHigh (currentHighestOf s.highestPrices mint currentPrice) currentPrice
          ≥ s.params.trailingStop ∧
        (s.checkExit mint currentPrice entryPrice interval).2 =
          { shouldExit := true,
            reason := some (.trailingStop
              (dropFromHigh (currentHighestOf s.highestPrices mint currentPrice) currentPrice)
              (currentHighestOf s.highestPrices mint currentPrice)) }) ∨
      (¬ dropFromHigh (currentHighestOf s.highestPrices mint currentPrice) currentPrice
          ≥ s.params.trailingStop ∧
        (s.checkExit mint currentPrice entryPrice interval).2 =
          checkExitAlways s.params (percentageGain currentPrice entryPrice) interval)) := by
  have hact : ∀ s1 : ActiveStrategy,
      s1 = (match JsMap.get s.trailingActivated mint with
        | some true => s
        | _ => { s with trailingActivated := JsMap.set s.trailingActivated mint true }) →
      s1.isTrailingActivated mint = true ∧ s1.highestPrices = s.highestPrices := by
    intro s1 hs1
    subst hs1
    cases hg : JsMap.get s.trailingActivated mint with
    | none => simp [ActiveStrategy.isTrailingActivated, JsMap.get_set_self]
    | some b =>
      cases b with
      | true => simp [ActiveStrategy.isTrailingActivated, hg]
      | false => simp [ActiveStrategy.isTrailingActivated, JsMap.get_set_self]
  obtain ⟨ha, hh⟩ := hact _ rfl
  unfold ActiveStrategy.checkExit
  simp only [h, if_true]
  rw [hh]
  split
  · rename_i hd
    refine ⟨?_, rfl, Or.inl ⟨hd, rfl⟩⟩
    split
    · simpa [ActiveStrategy.isTrailingActivated] using ha
    · exact ha
  · rename_i hd
    refine ⟨?_, (checkExitAlways_reason _ _ _).1, Or.inr ⟨hd, rfl⟩⟩
    split
    · simpa [ActiveStrategy.isTrailingActivated] using ha
    · exact ha

theorem checkExit_not_activated (s : ActiveStrategy) (mint : String)
    (currentPrice entryPrice interval : ℚ)
    (h : ¬ percentageGain currentPrice entryPrice ≥ s.params.trailingActivationPoint) :
    (s.checkExit mint currentPrice entryPrice interval).1 = s ∧
    ExitReason.isTrailingStop (s.checkExit mint currentPrice entryPrice interval).2.reason
      = false ∧
    (s.checkExit mint currentPrice entryPrice interval).2 =
      if percentageGain currentPrice entryPrice ≤ -s.params.stopLoss then
        { shouldExit := true, reason := some (.stopLoss (percentageGain currentPrice entryPrice)) }
      else checkExitAlways s.params (percentageGain currentPrice entryPrice) interval := by
  unfold ActiveStrategy.checkExit
  simp only [h, if_false]
  split
  · exact ⟨rfl, rfl, rfl⟩
  · exact ⟨rfl, (checkExitAlways_reason _ _ _).2, rfl⟩

theorem percentageGain_entry_100 (currentPrice : ℚ) :
    percentageGain currentPrice 100 = currentPrice - 100 := by
  unfold percentageGain
  ring

theorem checkExit_params (s : ActiveStrategy) (mint : String)
    (currentPrice entryPrice interval : ℚ) :
    (s.checkExit mint currentPrice entryPrice interval).1.params = s.params := by
  unfold ActiveStrategy.checkExit
  simp only
  repeat' split
  all_goals rfl

theorem checkExit_highestPrices_empty (s : ActiveStrategy) (mint : String)
    (currentPrice entryPrice interval : ℚ) (h : s.highestPrices = []) :
    (s.checkExit mint currentPrice entryPrice interval).1.highestPrices = [] := by
  have hcur : currentHighestOf [] mint currentPrice = currentPrice := rfl
  unfold ActiveStrategy.checkExit
  simp only
  repeat' split
  all_goals simp_all

/-! ## Lemmas on the events of the stage transitions -/

theorem initializeToken_emitted (s : TokenStateManager) (mint : String) (now : Nat) :
    (s.initializeToken mint now).1.emitted = s.emitted ++ initEvents s mint now ∧
    (JsMap.get s.tokens mint = none → (s.initializeToken mint now).2.currentStage = none) ∧
    (∀ t, JsMap.get s.tokens mint = some t → (s.initializeToken mint now).2 = t) := by
  unfold TokenStateManager.initializeToken initEvents
  cases h : JsMap.get s.tokens mint with
  | none => simp [TokenStateManager.emit]
  | some t => simp

theorem emittedBy_append (s s1 : TokenStateManager) (es : List Event)
    (h : s1.emitted = s.emitted ++ es) : emittedBy s s1 = es := by
  unfold emittedBy
  rw [h]
  simp

/-! ## Lemmas on `processWithdrawEvent` and the error handler -/

theorem processWithdrawEventTry_calls (o : WithdrawOutcomes) :
    (processWithdrawEventTry o).1.Nodup ∧
    (processWithdrawEventTry o).1.head? = some AppStep.insertOrUpdateToken := by
  unfold processWithdrawEventTry
  repeat' split
  all_goals simp

theorem processWithdrawEventCatch_calls (cfg : ErrorReporting) (o : WithdrawOutcomes) (now : Nat)
    (mint : String) (error : JsError) (app : AppState) :
    (processWithdrawEventCatch cfg o now mint error app).1.tokens = app.tokens ∧
    ((processWithdrawEventCatch cfg o now mint error app).1.calls
        = app.calls ++ [AppStep.handleError] ∨
      (processWithdrawEventCatch cfg o now mint error app).1.calls
        = app.calls ++ [AppStep.handleError, AppStep.sendErrorNotification]) := by
  unfold processWithdrawEventCatch
  split
  · exact ⟨rfl, Or.inl rfl⟩
  · exact ⟨rfl, Or.inr rfl⟩

theorem processWithdrawEventFinally_token (mint : String) (s : TokenStateManager) (token : Token)
    (h : s.getTokenState mint = some token) :
    (processWithdrawEventFinally mint s).getTokenState mint =
      some { token with withdrawProcessing := false, currentStage := some "post-withdraw" } := by
  unfold TokenStateManager.getTokenState at h
  unfold processWithdrawEventFinally
  rw [h]
  exact JsMap.get_set_self _ _ _

theorem processWithdrawEvent_passed (cfg : ErrorReporting) (o : WithdrawOutcomes)
    (tokenAddresses : TokenAddresses) (dateNow : Nat → Nat) (app : AppState)
    (hguard : app.tokens.isProcessingWithdraw tokenAddresses.mintAddress = false) :
    (∃ token,
      (processWithdrawEvent cfg o tokenAddresses dateNow app).1.tokens.getTokenState
        tokenAddresses.mintAddress = some token ∧
      token.withdrawProcessing = false ∧ token.currentStage = some "post-withdraw") ∧
    ∃ steps, (processWithdrawEvent cfg o tokenAddresses dateNow app).1.calls = app.calls ++ steps ∧
      steps.Nodup ∧ steps.head? = some AppStep.insertOrUpdateToken := by
  obtain ⟨mint, curve⟩ := tokenAddresses
  obtain ⟨hent, hbusy⟩ :=
    (guarded_processWithdrawEventEnter mint).enter app.tokens (curve, dateNow) hguard
  simp only at hent hbusy hguard ⊢
  unfold processWithdrawEvent
  rcases hp : processWithdrawEventEnter app.tokens
    { mintAddress := mint, pumpfunBondingCurve := curve } dateNow with ⟨tokens1, entered⟩
  rw [hp] at hent hbusy
  simp only at hent hbusy
  subst hent
  simp only
  have htok : ∃ token, tokens1.getTokenState mint = some token := by
    unfold TokenStateManager.isProcessingWithdraw at hbusy
    unfold TokenStateManager.getTokenState
    cases hg : JsMap.get tokens1.tokens mint with
    | none => simp [hg] at hbusy
    | some token => exact ⟨token, rfl⟩
  obtain ⟨token, htok⟩ := htok
  obtain ⟨hnd, hhd⟩ := processWithdrawEventTry_calls o
  cases hr : (processWithdrawEventTry o).2 with
  | ok u =>
    simp only
    refine ⟨⟨_, processWithdrawEventFinally_token mint tokens1 token htok, rfl, rfl⟩,
      (processWithdrawEventTry o).1, rfl, hnd, hhd⟩
  | error error =>
    simp only
    obtain ⟨hct, hcc⟩ := processWithdrawEventCatch_calls cfg o (dateNow 1) mint error
      { app with tokens := tokens1, calls := app.calls ++ (processWithdrawEventTry o).1 }
    simp only at hct hcc
    refine ⟨⟨_, processWithdrawEventFinally_token mint _ token (by rw [hct]; exact htok),
      rfl, rfl⟩, ?_⟩
    have hne : (processWithdrawEventTry o).1 ≠ [] := by
      intro h0
      rw [h0] at hhd
      cases hhd
    have hmem : AppStep.handleError ∉ (processWithdrawEventTry o).1 ∧
        AppStep.sendErrorNotification ∉ (processWithdrawEventTry o).1 := by
      unfold processWithdrawEventTry
      repeat' split
      all_goals simp
    rcases hcc with hcc | hcc
    · refine ⟨(processWithdrawEventTry o).1 ++ [AppStep.handleError], ?_, ?_, ?_⟩
      · rw [hcc, List.append_assoc]
      · rw [List.nodup_append]
        refine ⟨hnd, by decide, ?_⟩
        intro a ha hb
        simp only [List.mem_singleton] at hb
        subst hb
        exact hmem.1 ha
      · rw [List.head?_append_of_ne_nil _ hne]
        exact hhd
    · refine ⟨(processWithdrawEventTry o).1 ++
          [AppStep.handleError, AppStep.sendErrorNotification], ?_, ?_, ?_⟩
      · rw [hcc, List.append_assoc]
      · rw [List.nodup_append]
        refine ⟨hnd, by decide, ?_⟩
        intro a ha hb
        simp only [List.mem_cons, List.mem_singleton, List.not_mem_nil, or_false] at hb
        rcases hb with hb | hb
        · subst hb
          exact hmem.1 ha
        · subst hb
          exact hmem.2 ha
      · rw [List.head?_append_of_ne_nil _ hne]
        exact hhd

theorem handleError_in_cooldown (cfg : ErrorReporting) (now : Nat) (error : JsError)
    (mintAddress : Option String) (context : String) (tokens : TokenStateManager)
    (h : ErrorHandler) (hc : h.inCooldown (errorKeyOf mintAddress) = true) :
    (ErrorHandler.handleError cfg now error mintAddress context tokens h).2 = .ok false ∧
    (ErrorHandler.handleError cfg now error mintAddress context tokens h).1.countOf
      (errorKeyOf mintAddress) = h.countOf (errorKeyOf mintAddress) ∧
    (ErrorHandler.handleError cfg now error mintAddress context tokens h).1.timers = h.timers ∧
    (ErrorHandler.handleError cfg now error mintAddress context tokens h).1.cooldowns
      = h.cooldowns := by
  unfold ErrorHandler.inCooldown at hc
  simp only [decide_eq_true_eq] at hc
  unfold ErrorHandler.handleError ErrorHandler.countOf
  cases hg : JsMap.get h.errorCounts (errorKeyOf mintAddress) with
  | none => simp [JsMap.has, hg, hc, JsMap.get_set_self]
  | some c => simp [JsMap.has, hg, hc]

theorem handleError_counted (cfg : ErrorReporting) (now : Nat) (error : JsError)
    (mintAddress : Option String) (context : String) (tokens : TokenStateManager)
    (h : ErrorHandler) (hc : h.inCooldown (errorKeyOf mintAddress) = false)
    (hquiet : publishesError tokens mintAddress = false) :
    ((ErrorHandler.handleError cfg now error mintAddress context tokens h).2 =
      .ok (decide (¬ h.countInInterval cfg now (errorKeyOf mintAddress) + 1
        ≥ cfg.MAX_ERRORS_PER_INTERVAL))) ∧
    (ErrorHandler.handleError cfg now error mintAddress context tokens h).1.countOf
      (errorKeyOf mintAddress) = h.countInInterval cfg now (errorKeyOf mintAddress) + 1 ∧
    (h.countInInterval cfg now (errorKeyOf mintAddress) + 1 ≥ cfg.MAX_ERRORS_PER_INTERVAL →
      (ErrorHandler.handleError cfg now error mintAddress context tokens h).1.inCooldown
        (errorKeyOf mintAddress) = true ∧
      (ErrorHandler.handleError cfg now error mintAddress context tokens h).1.timers
        = h.timers ++ [(errorKeyOf mintAddress, cfg.COOLDOWN_PERIOD)]) := by
  unfold ErrorHandler.inCooldown at hc
  simp only [decide_eq_false_iff_not] at hc
  unfold ErrorHandler.handleError ErrorHandler.countInInterval ErrorHandler.countOf
    ErrorHandler.inCooldown
  generalize errorKeyOf mintAddress = key at hc ⊢
  have hI : ¬ ((cfg.ERROR_INTERVAL : Int) < 0) := not_lt.2 (Int.natCast_nonneg _)
  cases hg : JsMap.get h.errorCounts key with
  | none =>
    by_cases hm : 1 ≥ cfg.MAX_ERRORS_PER_INTERVAL
    · simp [JsMap.has, hg, hc, hquiet, JsMap.get_set_self, hm, hI]
    · simp [JsMap.has, hg, hc, hquiet, JsMap.get_set_self, hm, hI]
  | some c =>
    cases hl : JsMap.get h.lastErrorTimes key with
    | none =>
      by_cases hm : c + 1 ≥ cfg.MAX_ERRORS_PER_INTERVAL
      · simp [JsMap.has, hg, hc, hquiet, JsMap.get_set_self, hm, hl]
      · simp [JsMap.has, hg, hc, hquiet, JsMap.get_set_self, hm, hl]
    | some last =>
      by_cases he : (now : Int) - (last : Int) > (cfg.ERROR_INTERVAL : Int)
      · by_cases hm : 1 ≥ cfg.MAX_ERRORS_PER_INTERVAL
        · simp [JsMap.has, hg, hc, hquiet, JsMap.get_set_self, hm, hl, he]
        · simp [JsMap.has, hg, hc, hquiet, JsMap.get_set_self, hm, hl, he]
      · by_cases hm : c + 1 ≥ cfg.MAX_ERRORS_PER_INTERVAL
        · simp [JsMap.has, hg, hc, hquiet, JsMap.get_set_self, hm, hl, he]
        · simp [JsMap.has, hg, hc, hquiet, JsMap.get_set_self, hm, hl, he]

/-! ## Lemmas on the size of the signature cache and on the price fallback -/

theorem checkRecentTransactions_cache (cfg : Config) {σ : Type} (env : Collaborators σ)
    (fetched : Except JsError (List String)) (w : World σ) :
    (checkRecentTransactions cfg env fetched w).monitor.processedSignatures
        = w.monitor.processedSignatures ∨
    (∃ newest more, fetched = .ok (newest :: more) ∧ w.monitor.isChecking = false ∧
      (checkRecentTransactions cfg env fetched w).monitor.processedSignatures =
        if (cacheAfter w.monitor.processedSignatures (newest :: more)).length
            > cfg.MAX_SIGNATURE_CACHE then []
        else cacheAfter w.monitor.processedSignatures (newest :: more)) := by
  cases hc : w.monitor.isChecking with
  | true =>
    left
    rw [checkRecentTransactions_busy cfg env fetched w hc]
  | false =>
    cases fetched with
    | error error =>
      left
      rw [(checkRecentTransactions_failed cfg env error w hc).1]
    | ok signatures =>
      cases signatures with
      | nil =>
        left
        rw [checkRecentTransactions_empty cfg env w hc]
      | cons newest more =>
        right
        refine ⟨newest, more, rfl, rfl, ?_⟩
        rw [(checkRecentTransactions_batch cfg env newest more w hc).1]

theorem checkRecentTransactions_bounded (cfg : Config) {σ : Type} (env : Collaborators σ)
    (fetched : Except JsError (List String)) (w : World σ)
    (hbound : w.monitor.processedSignatures.length ≤ cfg.MAX_SIGNATURE_CACHE) :
    (checkRecentTransactions cfg env fetched w).monitor.processedSignatures.length
      ≤ cfg.MAX_SIGNATURE_CACHE := by
  rcases checkRecentTransactions_cache cfg env fetched w with h | ⟨newest, more, _, _, h⟩
  · rw [h]
    exact hbound
  · rw [h]
    split
    · exact Nat.zero_le _
    · rename_i hle
      exact Nat.le_of_not_gt hle

theorem fetchTokenSolPrice_all_failing {ρ : Type} (tokens : TokenStateManager)
    (attempt : Nat → Bool → Except JsError ρ) (mint : String) (token : Token)
    (htoken : tokens.getTokenState mint = some token) (hstarted : token.tradingStarted = true)
    (hfail : ∀ k useJupiter, ∃ error, attempt k useJupiter = .error error)
    (fuel k : Nat) (useJupiter : Bool) :
    (fetchTokenSolPrice tokens attempt mint fuel k useJupiter).result = none ∧
    (fetchTokenSolPrice tokens attempt mint fuel k useJupiter).attempts.length = fuel := by
  induction fuel generalizing k useJupiter with
  | zero => exact ⟨rfl, rfl⟩
  | succ fuel ih =>
    obtain ⟨error, he⟩ := hfail k useJupiter
    obtain ⟨h1, h2⟩ := ih (k + 1) (!useJupiter)
    simp only [fetchTokenSolPrice, htoken, hstarted, if_true, he, List.length_cons]
    exact ⟨h1, by rw [h2]⟩

/-! ## Claims -/

/-- C1 (single-flight stage entry). For every mint that is not already in the
stage (in particular a mint without a token, or a mint whose withdraw processing
was just completed), and every sequence of `n ≥ 1` consecutive calls of a
stage-entry operation for that mint (no completion or any other operation in
between), the first call returns `true` and every later call returns `false`. This
holds for `startWithdrawProcessing`, `startTradingProcess`, `startMarketcapLogging`
and for the `withdrawProcessing` guard at the top of `App.processWithdrawEvent`. -/
theorem C1_single_flight_stage_entry (s : TokenStateManager) (mint : String) :
    (TokenStateManager.isProcessingWithdraw s mint = false →
      ∀ (c : Nat → Nat) (cs : List (Nat → Nat)),
        (callSeq (fun s d => TokenStateManager.startWithdrawProcessing s mint d) s (c :: cs)).2
          = true :: List.replicate cs.length false) ∧
    (TokenStateManager.hasTradingStarted s mint = false →
      ∀ (c : Nat → Nat) (cs : List (Nat → Nat)),
        (callSeq (fun s d => TokenStateManager.startTradingProcess s mint d) s (c :: cs)).2
          = true :: List.replicate cs.length false) ∧
    (TokenStateManager.isLoggingMarketcap s mint = false →
      ∀ (c : Nat → Nat) (cs : List (Nat → Nat)),
        (callSeq (fun s d => TokenStateManager.startMarketcapLogging s mint d) s (c :: cs)).2
          = true :: List.replicate cs.length false) ∧
    (TokenStateManager.isProcessingWithdraw s mint = false →
      ∀ (c : Option String × (Nat → Nat)) (cs : List (Option String × (Nat → Nat))),
        (callSeq (fun s (c : Option String × (Nat → Nat)) =>
            processWithdrawEventEnter s { mintAddress := mint, pumpfunBondingCurve := c.1 } c.2)
          s (c :: cs)).2
          = true :: List.replicate cs.length false) ∧
    (s.getTokenState mint = none →
      TokenStateManager.isProcessingWithdraw s mint = false ∧
      TokenStateManager.hasTradingStarted s mint = false ∧
      TokenStateManager.isLoggingMarketcap s mint = false) ∧
    (∀ d : Nat → Nat,
      TokenStateManager.isProcessingWithdraw
        (TokenStateManager.completeWithdrawProcessing s mint d) mint = false) := by
  refine ⟨fun h c cs => callSeq_idle (guarded_startWithdrawProcessing mint) s c cs h,
    fun h c cs => callSeq_idle (guarded_startTradingProcess mint) s c cs h,
    fun h c cs => callSeq_idle (guarded_startMarketcapLogging mint) s c cs h,
    fun h c cs => callSeq_idle (guarded_processWithdrawEventEnter mint) s c cs h, ?_, ?_⟩
  · intro h
    simp only [TokenStateManager.getTokenState] at h
    simp [TokenStateManager.isProcessingWithdraw, TokenStateManager.hasTradingStarted,
      TokenStateManager.isLoggingMarketcap, h]
  · intro d
    unfold TokenStateManager.completeWithdrawProcessing
    cases hg : JsMap.get s.tokens mint with
    | none => simp [TokenStateManager.isProcessingWithdraw, hg]
    | some token =>
      simp [TokenStateManager.isProcessingWithdraw, TokenStateManager.emit, JsMap.get_set_self]

/-- C2 (a failed stage entry performs no mutation). Whenever
`startWithdrawProcessing`, `startTradingProcess` or `startMarketcapLogging` returns
`false`, the manager after the call (its token map, hence every field of every
token, and the list of emitted events) is exactly the manager before the call. -/
theorem C2_failed_entry_no_mutation (s : TokenStateManager) (mint : String)
    (dateNow : Nat → Nat) :
    ((TokenStateManager.startWithdrawProcessing s mint dateNow).2 = false →
      (TokenStateManager.startWithdrawProcessing s mint dateNow).1 = s) ∧
    ((TokenStateManager.startTradingProcess s mint dateNow).2 = false →
      (TokenStateManager.startTradingProcess s mint dateNow).1 = s) ∧
    ((TokenStateManager.startMarketcapLogging s mint dateNow).2 = false →
      (TokenStateManager.startMarketcapLogging s mint dateNow).1 = s) := by
  refine ⟨fun h => ?_, fun h => ?_, fun h => ?_⟩
  · cases hb : TokenStateManager.isProcessingWithdraw s mint with
    | true => rw [(guarded_startWithdrawProcessing mint).skip s dateNow hb]
    | false =>
      have := ((guarded_startWithdrawProcessing mint).enter s dateNow hb).1
      simp_all
  · cases hb : TokenStateManager.hasTradingStarted s mint with
    | true => rw [(guarded_startTradingProcess mint).skip s dateNow hb]
    | false =>
      have := ((guarded_startTradingProcess mint).enter s dateNow hb).1
      simp_all
  · cases hb : TokenStateManager.isLoggingMarketcap s mint with
    | true => rw [(guarded_startMarketcapLogging mint).skip s dateNow hb]
    | false =>
      have := ((guarded_startMarketcapLogging mint).enter s dateNow hb).1
      simp_all

/-- C3 (dedup idempotence). Observe the monitor from any state on (empty trace).
For every sequence of poll cycles of `checkRecentTransactions` during which the
signature cache is never reset, and every transaction id (whatever the batches
hold: the same id in several batches, or several times in one batch),
`processTransaction` is invoked on that id at most once, and so the withdraw
callback and the trading-start callback are dispatched for it at most once. -/
theorem C3_dedup_idempotence {σ : Type} (cfg : Config) (env : Collaborators σ) (w : World σ)
    (fetches : List (Except JsError (List String))) (h0 : w.trace = [])
    (hclear : MonitorEvent.cacheCleared ∉ (runCycles cfg env w fetches).trace) (id : String) :
    (processedIds (runCycles cfg env w fetches).trace).count id ≤ 1 ∧
    (withdrawIds (runCycles cfg env w fetches).trace).count id ≤ 1 ∧
    (tradingIds (runCycles cfg env w fetches).trace).count id ≤ 1 := by
  have hinv : DedupInv w := by
    refine ⟨?_, ?_, ?_, ?_⟩ <;> simp [h0, processedIds, withdrawIds, tradingIds]
  have h := DedupInv.preserved cfg env fetches w hinv (by simpa [h0] using hclear)
  exact ⟨List.nodup_iff_count_le_one.1 h.nodup id,
    List.nodup_iff_count_le_one.1 (h.withdraw.nodup h.nodup) id,
    List.nodup_iff_count_le_one.1 (h.trading.nodup h.nodup) id⟩

/-- C4 (checkpoint monotonicity). `start` sets the checkpoint to the newest id it
fetched, if any. After every sequence of poll cycles (run one after the other from
an idle monitor) `lastCheckedSignature` is the newest id `signatures[0]` of the most
recent non-empty batch fetched so far, or its initial value when there was none; a
cycle with an empty batch or a failed fetch leaves it unchanged. When the transport
keeps its contract (every id it returns is newer, in ledger position `rank`, than
the checkpoint it was asked for), the checkpoint after a longer run is never older
than after a shorter one. -/
theorem C4_checkpoint_monotonicity {σ : Type} (cfg : Config) (env : Collaborators σ)
    (w : World σ) (fetches : List (Except JsError (List String)))
    (hc : w.monitor.isChecking = false) :
    (∀ (fetched : Except JsError (List String)),
      (start env fetched w).1.monitor.lastCheckedSignature =
        (newestOfLastNonEmptyBatch [fetched]).or w.monitor.lastCheckedSignature) ∧
    (runCycles cfg env w fetches).monitor.lastCheckedSignature =
      (newestOfLastNonEmptyBatch fetches).or w.monitor.lastCheckedSignature ∧
    (checkRecentTransactions cfg env (.ok []) w).monitor.lastCheckedSignature =
      w.monitor.lastCheckedSignature ∧
    (∀ error : JsError,
      (checkRecentTransactions cfg env (.error error) w).monitor.lastCheckedSignature =
        w.monitor.lastCheckedSignature) ∧
    (∀ rank : String → Nat, TransportReturnsNewer rank cfg env w fetches →
      ∀ pre post, fetches = pre ++ post →
        checkpointRank rank (runCycles cfg env w pre).monitor.lastCheckedSignature ≤
          checkpointRank rank (runCycles cfg env w fetches).monitor.lastCheckedSignature) := by
  refine ⟨?_, runCycles_checkpoint cfg env fetches w hc, ?_, ?_, ?_⟩
  · intro fetched
    cases fetched with
    | error error => rfl
    | ok batch => cases batch <;> rfl
  · rw [checkRecentTransactions_empty cfg env w hc]
  · intro error
    rw [(checkRecentTransactions_failed cfg env error w hc).1]
  · intro rank ht pre post hsplit
    subst hsplit
    rw [runCycles_append]
    exact runCycles_rank rank cfg env post _ (runCycles_idle cfg env pre w hc)
      (transportReturnsNewer_suffix rank cfg env pre post w ht)

/-- C5 (oldest-to-newest processing). In one poll cycle on a batch (newest first),
the ids `processTransaction` is invoked on are, in invocation order, the reverse of
the batch without the ids already processed (before the batch or earlier in it):
an order-preserving selection of the reversed batch, which is exactly the reversed
batch filtered by the signature set when the batch has no repeated id. The cycle's
part of the trace is one block per processed id, in that order, each block starting
with the invocation and holding only that transaction's events (its callbacks
included): no transaction starts before the previous one is finished. -/
theorem C5_oldest_to_newest {σ : Type} (cfg : Config) (env : Collaborators σ) (w : World σ)
    (batch : List String) (hc : w.monitor.isChecking = false) :
    processedIds ((checkRecentTransactions cfg env (.ok batch) w).trace.drop w.trace.length)
      = oldestToNewest w.monitor.processedSignatures batch ∧
    (oldestToNewest w.monitor.processedSignatures batch).Sublist batch.reverse ∧
    (batch.Nodup → oldestToNewest w.monitor.processedSignatures batch
      = batch.reverse.filter (fun s => s ∉ w.monitor.processedSignatures)) ∧
    ∃ blocks, List.Forall₂ TxBlock (oldestToNewest w.monitor.processedSignatures batch) blocks ∧
      ((checkRecentTransactions cfg env (.ok batch) w).trace = w.trace ++ blocks.flatten ∨
       (checkRecentTransactions cfg env (.ok batch) w).trace
          = w.trace ++ blocks.flatten ++ [MonitorEvent.cacheCleared]) := by
  refine ⟨?_, ?_, ?_, ?_⟩
  · cases batch with
    | nil =>
      rw [checkRecentTransactions_empty cfg env w hc]
      simp [processedIds, oldestToNewest, firstOccurrences]
    | cons newest more =>
      obtain ⟨_, blocks, hb, h2⟩ := checkRecentTransactions_batch cfg env newest more w hc
      rw [h2, List.append_assoc, List.drop_left]
      simp only [processedIds, List.filterMap_append]
      rw [show List.filterMap procId blocks.flatten = _ from hb.processedIds_eq]
      split <;> simp [procId]
  · exact (sublist_firstOccurrences _).trans (List.filter_sublist _)
  · intro hnd
    exact firstOccurrences_of_nodup _ ((List.nodup_reverse.2 hnd).filter _)
  · cases batch with
    | nil =>
      rw [checkRecentTransactions_empty cfg env w hc]
      exact ⟨[], by simp [oldestToNewest, firstOccurrences], Or.inl (by simp)⟩
    | cons newest more =>
      obtain ⟨_, blocks, hb, h2⟩ := checkRecentTransactions_batch cfg env newest more w hc
      refine ⟨blocks, hb.txBlock, ?_⟩
      rw [h2]
      split
      · exact Or.inr rfl
      · exact Or.inl (by simp)

/-- C6 (a per-transaction failure never aborts the batch). Whatever the transport and
the callbacks do on each transaction (return, return nothing, or raise),
`processTransaction` does not raise, so the loop over a non-empty batch runs to
its end from every state: every id of the batch that was not processed before is
processed in this cycle, the checkpoint advances to the batch's newest id, and
when the checkpoint is updated (line 116) every id of the batch is in
`processedSignatures`; they are still there at the end of the cycle unless the
cache outgrew its ceiling and was reset as a whole. -/
theorem C6_failure_does_not_abort_batch {σ : Type} (cfg : Config) (env : Collaborators σ)
    (w : World σ) (newest : String) (more : List String) (hc : w.monitor.isChecking = false) :
    (∀ (signature : String) (w0 : World σ),
      (processTransaction cfg env signature w0).2 = .ok ()) ∧
    (∀ w0 : World σ, (processBatch cfg env (newest :: more) w0).2 = .ok ()) ∧
    (∀ id ∈ newest :: more, id ∉ w.monitor.processedSignatures →
      id ∈ processedIds
        ((checkRecentTransactions cfg env (.ok (newest :: more)) w).trace.drop w.trace.length)) ∧
    (checkRecentTransactions cfg env (.ok (newest :: more)) w).monitor.lastCheckedSignature
      = some newest ∧
    (∀ (w0 : World σ), ∀ id ∈ newest :: more,
      id ∈ (processBatch cfg env (newest :: more) w0).1.monitor.processedSignatures) ∧
    ((cacheAfter w.monitor.processedSignatures (newest :: more)).length
        ≤ cfg.MAX_SIGNATURE_CACHE →
      ∀ id ∈ newest :: more,
        id ∈ (checkRecentTransactions cfg env (.ok (newest :: more)) w).monitor.processedSignatures) := by
  obtain ⟨h1, blocks, hb, h2⟩ := checkRecentTransactions_batch cfg env newest more w hc
  refine ⟨fun signature w0 => (processTransaction_spec cfg env signature w0).1,
    fun w0 => (processBatch_spec cfg env newest more w0).1, ?_, ?_, ?_, ?_⟩
  · intro id hid hnew
    rw [h2, List.append_assoc, List.drop_left]
    simp only [processedIds, List.filterMap_append, List.mem_append]
    left
    rw [show List.filterMap procId blocks.flatten = _ from hb.processedIds_eq]
    exact (mem_oldestToNewest _ _ id).2 ⟨hid, hnew⟩
  · rw [h1]
  · intro w0 id hid
    rw [(processBatch_spec cfg env newest more w0).2.1]
    exact (mem_cacheAfter _ _ id).2 (Or.inr hid)
  · intro hlen id hid
    rw [h1]
    simp only [Nat.not_lt.2 hlen, if_false]
    exact (mem_cacheAfter _ _ id).2 (Or.inr hid)

/-- C7 (withdrawal classification, amended). For every parsed transaction,
`checkForWithdrawInstruction` yields a withdrawal event (a non-null result, which
`processTransaction` passes to the withdraw callback) if and only if at least one
log message contains the marker `Instruction: Withdraw` and `postTokenBalances` is
present and has an entry owned by the monitored program. -/
theorem C7_withdrawal_classification (cfg : Config) (tokens : TokenStateManager) (now : Nat)
    (transaction : Option ParsedTransaction) :
    (checkForWithdrawInstruction cfg tokens now transaction).2.2.isSome = true ↔
      (∃ logs, logMessagesOf transaction = some logs ∧
        ∃ log ∈ logs, includes log "Instruction: Withdraw" = true) ∧
      (∃ balances, postTokenBalancesOf transaction = some balances ∧
        ∃ balance ∈ balances, balance.owner = some cfg.PUMPFUN_RAYDIUM_MIGRATION) := by
  unfold checkForWithdrawInstruction
  cases hl : logMessagesOf transaction with
  | none => simp
  | some logs =>
    simp only []
    by_cases hm : logs.any (fun log => includes log "Instruction: Withdraw") = true
    · rw [if_pos hm, extractTokenAddresses_result]
      have hm2 : ∃ log ∈ logs, includes log "Instruction: Withdraw" = true := by
        simpa [List.any_eq_true] using hm
      cases hp : postTokenBalancesOf transaction with
      | none => simp
      | some balances =>
        simp only []
        cases hf : balances.find?
            (fun balance => decide (balance.owner = some cfg.PUMPFUN_RAYDIUM_MIGRATION)) with
        | none =>
          have := List.find?_eq_none.1 hf
          constructor
          · intro h
            simp at h
          · rintro ⟨_, balances2, h2, b, hb, hbo⟩
            cases h2
            exact absurd (by simpa using hbo) (this b hb)
        | some first =>
          simp only [Option.isSome_some, true_iff]
          refine ⟨⟨logs, rfl, hm2⟩, balances, rfl, first, List.mem_of_find?_eq_some hf, ?_⟩
          simpa using List.find?_some hf
    · rw [if_neg hm]
      constructor
      · intro h
        simp at h
      · rintro ⟨⟨logs2, h2, hex⟩, _⟩
        cases h2
        exact absurd (List.any_eq_true.2 hex) hm

/-- C7, counterexample to the claim as stated: the log of `sampleMarkerOnlyTx`
contains `Instruction: Withdraw`, but no post balance is owned by the monitored
program, and `checkForWithdrawInstruction` yields no event. -/
theorem C7_counterexample :
    ¬ ((checkForWithdrawInstruction sampleConfig TokenStateManager.new 0
          (some sampleMarkerOnlyTx)).2.2.isSome = true ↔
        ∃ logs, logMessagesOf (some sampleMarkerOnlyTx) = some logs ∧
          ∃ log ∈ logs, includes log "Instruction: Withdraw" = true) := by
  intro h
  have hmarker : ∃ logs, logMessagesOf (some sampleMarkerOnlyTx) = some logs ∧
      ∃ log ∈ logs, includes log "Instruction: Withdraw" = true :=
    ⟨["Program log: Instruction: Withdraw"], rfl, "Program log: Instruction: Withdraw",
      List.mem_singleton_self _, by decide⟩
  exact absurd (h.2 hmarker) (by decide)

/-- C8 (withdrawal address extraction). `extractTokenAddresses` returns `null` when
`postTokenBalances` is missing and when no entry is owned by the monitored program
(it has no way to raise: its result is a value in every case); and when `first` is
the first entry owned by the monitored program it returns `mintAddress = first.mint`
and `pumpfunBondingCurve` = the owner of the first entry with that mint and an owner
other than the monitored program, or `'Not found'` when there is no such entry. -/
theorem C8_extractTokenAddresses (tokens : TokenStateManager) (now : Nat)
    (transaction : Option ParsedTransaction) (pumpfun : String) :
    (postTokenBalancesOf transaction = none →
      (extractTokenAddresses tokens now transaction pumpfun).2.2 = none) ∧
    (∀ balances, postTokenBalancesOf transaction = some balances →
      (∀ balance ∈ balances, balance.owner ≠ some pumpfun) →
      (extractTokenAddresses tokens now transaction pumpfun).2.2 = none) ∧
    (∀ balances first, postTokenBalancesOf transaction = some balances →
      balances.find? (fun balance => balance.owner = some pumpfun) = some first →
      (∀ other,
        balances.find? (fun balance => balance.mint = first.mint ∧ balance.owner ≠ some pumpfun)
          = some other →
        (extractTokenAddresses tokens now transaction pumpfun).2.2 =
          some { mintAddress := first.mint, pumpfunBondingCurve := other.owner }) ∧
      (balances.find? (fun balance => balance.mint = first.mint ∧ balance.owner ≠ some pumpfun)
          = none →
        (extractTokenAddresses tokens now transaction pumpfun).2.2 =
          some { mintAddress := first.mint, pumpfunBondingCurve := some "Not found" })) := by
  refine ⟨?_, ?_, ?_⟩
  · intro h
    rw [extractTokenAddresses_result, h]
  · intro balances h hall
    rw [extractTokenAddresses_result, h]
    have : balances.find? (fun balance => decide (balance.owner = some pumpfun)) = none := by
      rw [List.find?_eq_none]
      intro b hb
      simpa using hall b hb
    simp only [this]
  · intro balances first h hf
    refine ⟨?_, ?_⟩
    · intro other ho
      rw [extractTokenAddresses_result, h]
      simp only [hf, ho]
    · intro ho
      rw [extractTokenAddresses_result, h]
      simp only [hf, ho]

/-- C8, an instance: the withdrawal `sampleWithdrawTx` gives mint `M1` and the bonding
curve owner `Curve`. -/
theorem C8_witness :
    postTokenBalancesOf (some sampleWithdrawTx) = some
      [{ mint := "M1", owner := some "Migration" }, { mint := "M1", owner := some "Curve" }] ∧
    (extractTokenAddresses TokenStateManager.new 0 (some sampleWithdrawTx) "Migration").2.2 =
      some { mintAddress := "M1", pumpfunBondingCurve := some "Curve" } :=
  ⟨rfl,
   ((C8_extractTokenAddresses TokenStateManager.new 0 (some sampleWithdrawTx) "Migration").2.2
      [{ mint := "M1", owner := some "Migration" }, { mint := "M1", owner := some "Curve" }]
      { mint := "M1", owner := some "Migration" } rfl (by decide)).1
      { mint := "M1", owner := some "Curve" } (by decide)⟩

/-- C9 (trading-start classification, amended). For every parsed transaction,
`checkForTradingStart` returns the event `ev` if and only if at least one log message
contains the marker `initialize2:` and `preTokenBalances` is present and has an
entry whose mint differs from the wrapped native asset, the first such entry `first`
having a non-empty mint; `ev.mintAddress` is then the mint of `first`. -/
theorem C9_trading_start_classification (transaction : Option ParsedTransaction)
    (ev : TradingStartInfo) :
    checkForTradingStart transaction = some ev ↔
      (∃ logs, logMessagesOf transaction = some logs ∧
        ∃ log ∈ logs, includes log "initialize2:" = true) ∧
      (∃ tx pre first, transaction = some tx ∧
        tx.meta.bind (fun m => m.preTokenBalances) = some pre ∧
        pre.find? (fun balance => balance.mint ≠ "So11111111111111111111111111111111111111112")
          = some first ∧
        first.mint ≠ "" ∧ ev.mintAddress = first.mint) := by
  by_cases hm : ∃ logs, logMessagesOf transaction = some logs ∧
      ∃ log ∈ logs, includes log "initialize2:" = true
  · obtain ⟨logs, hl, hex⟩ := hm
    cases transaction with
    | none => simp [logMessagesOf] at hl
    | some tx =>
      rw [checkForTradingStart_marker tx logs hl hex]
      constructor
      · intro h
        refine ⟨⟨logs, hl, hex⟩, ?_⟩
        cases hpre : tx.meta.bind (fun m => m.preTokenBalances) with
        | none => rw [hpre] at h; simp at h
        | some pre =>
          rw [hpre] at h
          simp only [] at h
          cases hfind : pre.find? (fun balance =>
              decide (balance.mint ≠ "So11111111111111111111111111111111111111112")) with
          | none => rw [hfind] at h; simp at h
          | some first =>
            rw [hfind] at h
            simp only [] at h
            by_cases ht : truthy first.mint = true
            · rw [if_pos ht] at h
              refine ⟨tx, pre, first, rfl, hpre, hfind, ?_, ?_⟩
              · simpa [truthy] using ht
              · rw [← Option.some.inj h]
            · rw [if_neg ht] at h
              simp at h
      · rintro ⟨_, tx2, pre, first, h1, h2, h3, h4, h5⟩
        cases h1
        rw [h2]
        simp only []
        rw [h3]
        simp only []
        rw [if_pos (by simpa [truthy] using h4)]
        cases ev
        simp_all
  · rw [checkForTradingStart_no_marker transaction hm]
    constructor
    · intro h
      simp at h
    · rintro ⟨h, _⟩
      exact absurd h hm

/-- C9, counterexample to the claim as stated: the log of `sampleInitOnlyTx` contains
`initialize2:`, but every pre balance is the wrapped native asset, and
`checkForTradingStart` returns no event. -/
theorem C9_counterexample :
    ¬ ((checkForTradingStart (some sampleInitOnlyTx)).isSome = true ↔
        ∃ logs, logMessagesOf (some sampleInitOnlyTx) = some logs ∧
          ∃ log ∈ logs, includes log "initialize2:" = true) := by
  intro h
  have hmarker : ∃ logs, logMessagesOf (some sampleInitOnlyTx) = some logs ∧
      ∃ log ∈ logs, includes log "initialize2:" = true :=
    ⟨["Program log: initialize2: InitializeInstruction2"], rfl,
      "Program log: initialize2: InitializeInstruction2", List.mem_singleton_self _, by decide⟩
  exact absurd (h.2 hmarker) (by decide)

/-- C10 (bounded retry). For every operation and `maxAttempts ≥ 1`, `retry` invokes
the operation until its first success or `maxAttempts` invocations, whichever comes
first. Either the invocations were `k - 1 < maxAttempts` failures followed by a
success, and `retry` returns that success's result after these `k` invocations; or
there were exactly `maxAttempts` invocations, all failures, and `retry` raises the
error of the last one. -/
theorem C10_bounded_retry {σ α : Type} (cfg : Config)
    (sleep : Nat → TokenStateManager × σ → TokenStateManager × σ)
    (operation : Operation σ α) (mintAddress : Option String) (maxAttempts : Nat)
    (state : TokenStateManager × σ) (h : 1 ≤ maxAttempts) :
    (∃ (errs : List JsError) (v : α),
      (retry cfg sleep operation mintAddress maxAttempts state).outcomes
        = errs.map Except.error ++ [Except.ok v] ∧
      errs.length < maxAttempts ∧
      (retry cfg sleep operation mintAddress maxAttempts state).result = Except.ok v) ∨
    (∃ (errs : List JsError) (last : JsError),
      (retry cfg sleep operation mintAddress maxAttempts state).outcomes
        = (errs ++ [last]).map Except.error ∧
      (errs ++ [last]).length = maxAttempts ∧
      (retry cfg sleep operation mintAddress maxAttempts state).result
        = Except.error (some last)) := by
  have hs := retryLoop_spec cfg sleep operation mintAddress maxAttempts maxAttempts 1 none state
    [] [] (by omega) rfl rfl
  simp only [List.map_nil] at hs
  unfold retry
  rcases hs with ⟨errs, v, h1, h2, h3⟩ | ⟨errs, h1, h2, h3⟩
  · exact Or.inl ⟨errs, v, h1, h2, h3⟩
  · right
    rcases List.eq_nil_or_concat errs with hnil | ⟨init, last, hcat⟩
    · subst hnil
      simp at h2
      omega
    · rw [List.concat_eq_append] at hcat
      subst hcat
      refine ⟨init, last, h1, h2, ?_⟩
      rw [h3]
      simp

/-- C1 at a fresh manager: of three consecutive `startWithdrawProcessing` calls for `M1`
only the first returns `true`. -/
theorem C1_witness :
    TokenStateManager.isProcessingWithdraw TokenStateManager.new "M1" = false ∧
    (callSeq (fun s d => TokenStateManager.startWithdrawProcessing s "M1" d)
      TokenStateManager.new [fun _ => 1, fun _ => 2, fun _ => 3]).2 = [true, false, false] :=
  ⟨rfl, (C1_single_flight_stage_entry TokenStateManager.new "M1").1 rfl (fun _ => 1)
    [fun _ => 2, fun _ => 3]⟩

/-- C2 at `sampleBusyManager`: a second `startWithdrawProcessing` for `M1` returns `false`
and leaves the manager as it was. -/
theorem C2_witness :
    (TokenStateManager.startWithdrawProcessing sampleBusyManager "M1" (fun _ => 2)).2 = false ∧
    (TokenStateManager.startWithdrawProcessing sampleBusyManager "M1" (fun _ => 2)).1
      = sampleBusyManager :=
  ⟨by decide, (C2_failed_entry_no_mutation sampleBusyManager "M1" (fun _ => 2)).1 (by decide)⟩

/-- C3 on `sampleFetches`: `w1` occurs in two batches and is processed once. -/
theorem C3_witness :
    sampleWorld.trace = [] ∧
    MonitorEvent.cacheCleared ∉ (runCycles sampleConfig sampleEnv sampleWorld sampleFetches).trace ∧
    (processedIds (runCycles sampleConfig sampleEnv sampleWorld sampleFetches).trace).count "w1" ≤ 1 ∧
    (withdrawIds (runCycles sampleConfig sampleEnv sampleWorld sampleFetches).trace).count "w1" ≤ 1 ∧
    (tradingIds (runCycles sampleConfig sampleEnv sampleWorld sampleFetches).trace).count "w1" ≤ 1 :=
  ⟨rfl, by decide,
    C3_dedup_idempotence sampleConfig sampleEnv sampleWorld sampleFetches rfl (by decide) "w1"⟩

/-- C4 on four polls whose ids get longer as they get newer: the checkpoint after two
polls is not newer than after all four. -/
theorem C4_witness :
    sampleWorld.monitor.isChecking = false ∧
    TransportReturnsNewer String.length sampleConfig sampleEnv sampleWorld
      [.ok ["bb", "a"], .ok [], .error "poll failed", .ok ["dddd", "ccc"]] ∧
    checkpointRank String.length
        (runCycles sampleConfig sampleEnv sampleWorld [.ok ["bb", "a"], .ok []]).monitor.lastCheckedSignature
      ≤ checkpointRank String.length
        (runCycles sampleConfig sampleEnv sampleWorld
          [.ok ["bb", "a"], .ok [], .error "poll failed", .ok ["dddd", "ccc"]]).monitor.lastCheckedSignature :=
  have ht : TransportReturnsNewer String.length sampleConfig sampleEnv sampleWorld
      [.ok ["bb", "a"], .ok [], .error "poll failed", .ok ["dddd", "ccc"]] := by
    refine ⟨trivial, ?_, trivial, ?_, trivial⟩
    · show ∀ id ∈ ([] : List String), "bb".length < id.length
      decide
    · show ∀ id ∈ ["dddd", "ccc"], "bb".length < id.length
      decide
  ⟨rfl, ht,
    (C4_checkpoint_monotonicity sampleConfig sampleEnv sampleWorld
      [.ok ["bb", "a"], .ok [], .error "poll failed", .ok ["dddd", "ccc"]] rfl).2.2.2.2
      String.length ht [.ok ["bb", "a"], .ok []] [.error "poll failed", .ok ["dddd", "ccc"]] rfl⟩

/-- C5 on the batch `t1, bad, w1` (newest first): processed as `w1, bad, t1`. -/
theorem C5_witness :
    sampleWorld.monitor.isChecking = false ∧
    processedIds ((checkRecentTransactions sampleConfig sampleEnv (.ok ["t1", "bad", "w1"])
      sampleWorld).trace.drop sampleWorld.trace.length) = ["w1", "bad", "t1"] :=
  ⟨rfl, (C5_oldest_to_newest sampleConfig sampleEnv sampleWorld ["t1", "bad", "w1"] rfl).1⟩

/-- C6 on a batch in which one fetch and one callback raise: every id ends up in
`processedSignatures`. -/
theorem C6_witness :
    sampleWorld.monitor.isChecking = false ∧
    (cacheAfter sampleWorld.monitor.processedSignatures ["t1", "bad", "w1"]).length
      ≤ sampleConfig.MAX_SIGNATURE_CACHE ∧
    (∀ id ∈ ["t1", "bad", "w1"],
      id ∈ (checkRecentTransactions sampleConfig sampleEnv (.ok ["t1", "bad", "w1"])
        sampleWorld).monitor.processedSignatures) :=
  ⟨rfl, by decide,
    (C6_failure_does_not_abort_batch sampleConfig sampleEnv sampleWorld "t1" ["bad", "w1"]
      rfl).2.2.2.2.2 (by decide)⟩

/-- C10 with `maxAttempts = 4` on an operation that fails twice and then succeeds. -/
theorem C10_witness :
    1 ≤ 4 ∧
    ((∃ (errs : List JsError) (v : String),
        (retry sampleConfig (fun _ s => s) sampleOperation none 4 (TokenStateManager.new, 0)).outcomes
          = errs.map Except.error ++ [Except.ok v] ∧
        errs.length < 4 ∧
        (retry sampleConfig (fun _ s => s) sampleOperation none 4 (TokenStateManager.new, 0)).result
          = Except.ok v) ∨
      (∃ (errs : List JsError) (last : JsError),
        (retry sampleConfig (fun _ s => s) sampleOperation none 4 (TokenStateManager.new, 0)).outcomes
          = (errs ++ [last]).map Except.error ∧
        (errs ++ [last]).length = 4 ∧
        (retry sampleConfig (fun _ s => s) sampleOperation none 4 (TokenStateManager.new, 0)).result
          = Except.error (some last))) :=
  ⟨by decide,
    C10_bounded_retry sampleConfig (fun _ s => s) sampleOperation none 4 (TokenStateManager.new, 0)
      (by decide)⟩


/-- C11 (backoff schedule). The delays `retry` waits for are, in order,
`DELAY_MS * 2^0, DELAY_MS * 2^1, ...`: one after each failed attempt `k` with
`k < maxAttempts`, of length `DELAY_MS * 2^(k-1)`, and none after a failed attempt
number `maxAttempts` (their number is the number of failed attempts, capped at
`maxAttempts - 1`). So with `maxAttempts = 4` an operation that always fails is
retried after the delays `D, 2D, 4D`, where `D` is `DELAY_MS`. -/
theorem C11_backoff_schedule {σ α : Type} (cfg : Config)
    (sleep : Nat → TokenStateManager × σ → TokenStateManager × σ)
    (operation : Operation σ α) (mintAddress : Option String) (maxAttempts : Nat)
    (state : TokenStateManager × σ) :
    (retry cfg sleep operation mintAddress maxAttempts state).delays =
      (List.range (min
        ((retry cfg sleep operation mintAddress maxAttempts state).outcomes.countP failed)
        (maxAttempts - 1))).map (fun i => cfg.RETRY_DELAY_MS * 2 ^ i) ∧
    ((∀ st, failed (operation st).2 = true) → maxAttempts = 4 →
      (retry cfg sleep operation mintAddress maxAttempts state).delays =
        [cfg.RETRY_DELAY_MS, 2 * cfg.RETRY_DELAY_MS, 4 * cfg.RETRY_DELAY_MS]) := by
  obtain ⟨new, h1, h2, h3⟩ := retryLoop_delays cfg sleep operation mintAddress maxAttempts
    maxAttempts 1 none state [] [] (by omega) (Nat.le_refl 1)
  have hd : (retry cfg sleep operation mintAddress maxAttempts state).delays =
      (List.range (min
        ((retry cfg sleep operation mintAddress maxAttempts state).outcomes.countP failed)
        (maxAttempts - 1))).map (fun i => cfg.RETRY_DELAY_MS * 2 ^ i) := by
    unfold retry
    rw [h3, h1]
    simp only [List.nil_append, Nat.sub_self, List.range_eq_range']
    rfl
  refine ⟨hd, ?_⟩
  intro hfail h4
  subst h4
  have hall : ∀ o ∈ (retry cfg sleep operation mintAddress 4 state).outcomes,
      failed o = true := by
    intro o ho
    unfold retry at ho
    rw [h1] at ho
    obtain ⟨st, hst⟩ := h2 o (by simpa using ho)
    rw [← hst]
    exact hfail st
  have hlen : (retry cfg sleep operation mintAddress 4 state).outcomes.length = 4 := by
    have hs := retryLoop_spec cfg sleep operation mintAddress 4 4 1 none state [] []
      (by omega) rfl rfl
    simp only [List.map_nil] at hs
    rcases hs with ⟨errs, v, e1, _, _⟩ | ⟨errs, e1, e2, _⟩
    · have := hall (.ok v) (by unfold retry; rw [e1]; simp)
      simp [failed] at this
    · unfold retry
      rw [e1]
      simpa using e2
  have hcount : (retry cfg sleep operation mintAddress 4 state).outcomes.countP failed = 4 := by
    rw [List.countP_eq_length.2 hall, hlen]
  rw [hd, hcount]
  simp [List.range_succ]
  omega



/-- C11 on an operation that always fails, with `maxAttempts = 4` and a base delay of
1000 ms: the waits are 1000, 2000 and 4000 ms. -/
theorem C11_witness :
    (∀ st, failed (sampleFailingOperation st).2 = true) ∧
    (retry sampleConfig (fun _ s => s) sampleFailingOperation none 4
      (TokenStateManager.new, 0)).delays = [1000, 2000, 4000] :=
  ⟨fun _ => rfl,
    (C11_backoff_schedule sampleConfig (fun _ s => s) sampleFailingOperation none 4
      (TokenStateManager.new, 0)).2 (fun _ => rfl) rfl⟩

/-- C12 (endpoint failover). When a method call through the wrapped connection fails
with an error whose text contains `fetch failed` or `Connect Timeout Error`, the
wrapper calls `switchToNextRPC` once, stores the connection it returns in
`this.connection`, and issues the same method with the same arguments once on that
connection; nothing else is issued. The caller gets exactly what this second call
gives: its result if it succeeds, its error if it fails. -/
theorem C12_endpoint_failover {σ ρ : Type} (send : Transport σ ρ) (target : Endpoint)
    (call : TransportCall) (w : RpcWorld σ) (error : JsError)
    (hw : w.connection = .proxied target)
    (hfail : (send target call w.ext).2 = .error error)
    (htransient : includes error "fetch failed" = true ∨
      includes error "Connect Timeout Error" = true) :
    (monitorCall send call w).1.log =
      w.log ++ [.issued target call, .switchToNextRPC,
        .issued w.pool.switchToNextRPC.2 call] ∧
    (monitorCall send call w).2 =
      (send w.pool.switchToNextRPC.2 call (send target call w.ext).1).2 ∧
    (monitorCall send call w).1.ext =
      (send w.pool.switchToNextRPC.2 call (send target call w.ext).1).1 ∧
    (monitorCall send call w).1.connection = .direct w.pool.switchToNextRPC.2 ∧
    (monitorCall send call w).1.pool = w.pool.switchToNextRPC.1 := by
  have ht : isTransientNetworkError error = true := by
    unfold isTransientNetworkError
    rcases htransient with h | h <;> simp [h]
  unfold monitorCall
  rw [hw]
  simp only [proxyCall, callDirect]
  rcases hs : send target call w.ext with ⟨ext1, result⟩
  rw [hs] at hfail
  simp only at hfail
  subst hfail
  simp only [ht, if_true]
  rcases hs2 : send w.pool.switchToNextRPC.2 call ext1 with ⟨ext2, result2⟩
  simp

/-- C12 on a two-endpoint pool whose current endpoint is 0: the original endpoint times
out, the wrapper rotates to endpoint 1 and the caller gets the answer of endpoint 1. -/
theorem C12_witness :
    (RpcWorld.new { size := 2, currentIndex := 0 } ()).connection = .proxied .original ∧
    (sampleTransport .original sampleCall ()).2 = .error "TypeError: fetch failed" ∧
    (monitorCall sampleTransport sampleCall (RpcWorld.new { size := 2, currentIndex := 0 } ())).2
      = .ok "getSignaturesForAddress answered by endpoint 1" :=
  ⟨rfl, rfl,
    (C12_endpoint_failover sampleTransport .original sampleCall
      (RpcWorld.new { size := 2, currentIndex := 0 } ()) "TypeError: fetch failed" rfl rfl
      (Or.inl (by decide))).2.1⟩

/-- C13 (no failover on an application error). When a method call through the wrapped
connection fails with an error whose text contains neither `fetch failed` nor
`Connect Timeout Error`, the wrapper raises that same error, does not call
`switchToNextRPC` (the pool is unchanged), leaves `this.connection` as it was and
issues nothing besides the one call that failed. -/
theorem C13_no_failover_on_application_error {σ ρ : Type} (send : Transport σ ρ)
    (target : Endpoint) (call : TransportCall) (w : RpcWorld σ) (error : JsError)
    (hw : w.connection = .proxied target)
    (hfail : (send target call w.ext).2 = .error error)
    (h1 : includes error "fetch failed" = false)
    (h2 : includes error "Connect Timeout Error" = false) :
    (monitorCall send call w).2 = .error error ∧
    (monitorCall send call w).1.log = w.log ++ [.issued target call] ∧
    RpcEvent.switchToNextRPC ∉ ((monitorCall send call w).1.log.drop w.log.length) ∧
    (monitorCall send call w).1.connection = w.connection ∧
    (monitorCall send call w).1.pool = w.pool ∧
    (monitorCall send call w).1.ext = (send target call w.ext).1 := by
  have ht : isTransientNetworkError error = false := by
    unfold isTransientNetworkError
    simp [h1, h2]
  unfold monitorCall
  rw [hw]
  simp only [proxyCall, callDirect]
  rcases hs : send target call w.ext with ⟨ext1, result⟩
  rw [hs] at hfail
  simp only at hfail
  subst hfail
  simp [ht, hw]

/-- C13 on a network that refuses every call with an application error. -/
theorem C13_witness :
    (RpcWorld.new { size := 2, currentIndex := 0 } ()).connection = .proxied .original ∧
    (monitorCall sampleRefusingTransport sampleCall
      (RpcWorld.new { size := 2, currentIndex := 0 } ())).2
      = .error "Error: Invalid param: WrongSize" ∧
    (monitorCall sampleRefusingTransport sampleCall
      (RpcWorld.new { size := 2, currentIndex := 0 } ())).1.pool
      = { size := 2, currentIndex := 0 } :=
  have h := C13_no_failover_on_application_error sampleRefusingTransport .original sampleCall
    (RpcWorld.new { size := 2, currentIndex := 0 } ()) "Error: Invalid param: WrongSize" rfl rfl
    (by decide) (by decide)
  ⟨rfl, h.1, h.2.2.2.2.1⟩



/-- C14 (sampling collapse scenario, amended). With the target offsets
{0,30,60,90,120,180,300,600,900,1200}, a slow loop that ticks every `p` seconds
(1 ≤ p ≤ 10) and samples that all succeed: from the last tick at or before
elapsed = 185 s until elapsed reaches 300 s the logged offsets are 0, 30, 60, 90,
120, 180, with 180 the last one; the next offset logged is 300, at the first tick at
or after elapsed = 300 s, which comes before 330 s. -/
theorem C14_sampling_collapse (p n : Nat) (hp1 : 1 ≤ p) (hp10 : p ≤ 10) :
    (185 / p ≤ n → n * p < 300 → loggedAfter p n = [0, 30, 60, 90, 120, 180]) ∧
    (300 ≤ n * p → (n - 1) * p < 300 →
      loggedAfter p n = [0, 30, 60, 90, 120, 180, 300] ∧ n * p < 330) := by
  constructor
  · intro h1 h2
    show (stateAfter p n).loggedIntervals = _
    rw [stateAfter_before_300 p n hp1 hp10 h1 h2]
    rfl
  · intro h1 h2
    have hn : 1 ≤ n := by
      rcases Nat.eq_zero_or_pos n with h | h
      · subst h; simp at h1
      · exact h
    obtain ⟨k, rfl⟩ : ∃ k, n = k + 1 := ⟨n - 1, by omega⟩
    simp only [Nat.add_sub_cancel] at h2
    have hkp : (k + 1) * p = k * p + p := by rw [Nat.add_mul, Nat.one_mul]
    have hdiv : 185 / p ≤ k := by
      rw [Nat.div_le_iff_le_mul_add_pred (by omega)]
      have := Nat.mul_comm p k
      omega
    have hlt : (k + 1) * p < 330 := by omega
    refine ⟨?_, hlt⟩
    show (stateAfter p (k + 1)).loggedIntervals = _
    rw [stateAfter_succ, stateAfter_before_300 p k hp1 hp10 hdiv h2]
    simp only [denseLogged, ne_eq, not_true_eq_false, if_false]
    have := slowTick_denseLogged_300 ((k + 1) * p) h1 hlt
    simp only [denseLogged] at this
    rw [this]

/-- C14 with a tick every second: at the tick of elapsed = 185 s the last logged offset
is 180, and at the tick of elapsed = 300 s the offset 300 is logged next. -/
theorem C14_witness :
    (1 ≤ 1 ∧ 1 ≤ 10 ∧ 185 / 1 ≤ 185 ∧ 185 * 1 < 300 ∧ 300 ≤ 300 * 1 ∧ (300 - 1) * 1 < 300) ∧
    loggedAfter 1 185 = [0, 30, 60, 90, 120, 180] ∧
    loggedAfter 1 300 = [0, 30, 60, 90, 120, 180, 300] :=
  ⟨by decide,
    (C14_sampling_collapse 1 185 (by decide) (by decide)).1 (by decide) (by decide),
    ((C14_sampling_collapse 1 300 (by decide) (by decide)).2 (by decide) (by decide)).1⟩

set_option maxRecDepth 100000 in
/-- C14, counterexample to the claim as stated: with a tick every second and samples that
all succeed, the last logged offset at elapsed = 185 s is 180, nothing more is logged
up to elapsed = 240 s, and in the whole run the offset logged next after 180 is 300,
which does not lie in [210, 240]. -/
theorem C14_counterexample :
    (loggedAfter 1 185).getLast? = some 180 ∧
    loggedAfter 1 240 = loggedAfter 1 185 ∧
    nextAfter 180 (loggedAfter 1 1300) = some 300 ∧
    ¬ (∃ o, nextAfter 180 (loggedAfter 1 1300) = some o ∧ 210 ≤ o ∧ o ≤ 240) := by
  have h : nextAfter 180 (loggedAfter 1 1300) = some 300 := by decide
  refine ⟨by decide, by decide, h, ?_⟩
  rintro ⟨o, ho, h1, h2⟩
  rw [h] at ho
  cases ho
  omega

/-- C15 (due rule of the slow loop). With `DueRule e o` the rule "(o ≤ 180 and e ≥ o) or
(180 < o ≤ 1200 and o ≤ e < o + 30)": the selection loop returns the first
configured offset that is not yet logged and due, and nothing exactly when no
configured offset is not yet logged and due; a tick that is not skipped and whose
sample succeeds logs exactly the selected offset. Consequently a not yet logged
offset up to 180 is due at every elapsed time from the offset on, so that such a
tick selects something; and an offset beyond 180 that is not logged when its
30 s window has passed is never logged by later ticks. -/
theorem C15_due_rule (intervals : List Nat) (e : Nat) (logged : List Nat) :
    (∀ o, selectInterval intervals e logged = some o ↔
      ∃ pre post, intervals = pre ++ o :: post ∧
        (∀ x ∈ pre, ¬ (x ∉ logged ∧ DueRule e x)) ∧ o ∉ logged ∧ DueRule e o) ∧
    (selectInterval intervals e logged = none ↔
      ∀ x ∈ intervals, ¬ (x ∉ logged ∧ DueRule e x)) ∧
    (∀ s : SlowLoop, s.isLogging = false → s.loggedIntervals = logged →
      (slowTick intervals e .logged s).loggedIntervals =
        match selectInterval intervals e logged with
        | some o => logged ++ [o]
        | none => logged) ∧
    (∀ o ∈ intervals, o ≤ 180 → o ∉ logged → o ≤ e →
      DueRule e o ∧ selectInterval intervals e logged ≠ none) ∧
    (∀ (o : Nat) (s : SlowLoop) (ticks : List (Nat × SampleOutcome)),
      180 < o → o ∉ s.loggedIntervals → (∀ t ∈ ticks, o + 30 ≤ t.1) →
      o ∉ (runTicks intervals s ticks).loggedIntervals) := by
  refine ⟨fun o => selectInterval_eq_some intervals e logged o,
    selectInterval_eq_none intervals e logged, ?_, ?_, ?_⟩
  · intro s hidle hlog
    rw [slowTick_logged intervals e s hidle, hlog]
  · intro o ho h180 hnot hle
    have hdue : DueRule e o := Or.inl ⟨h180, hle⟩
    refine ⟨hdue, ?_⟩
    intro hnone
    exact (selectInterval_eq_none intervals e logged).1 hnone o ho ⟨hnot, hdue⟩
  · intro o s ticks h180 hnot hlate
    apply runTicks_not_logged intervals o ticks s hnot
    intro t ht hdue
    have := hlate t ht
    unfold DueRule at hdue
    omega

/-- C15 on the scenario offsets: the offset 300, not logged when the tick of elapsed
330 s comes, is not logged by the ticks at 330 s and 600 s, which log 600 instead. -/
theorem C15_witness :
    (180 < 300 ∧ 300 ∉ denseLogged.loggedIntervals ∧
      ∀ t ∈ [(330, SampleOutcome.logged), (600, SampleOutcome.logged)], 300 + 30 ≤ t.1) ∧
    300 ∉ (runTicks scenarioOffsets denseLogged
      [(330, SampleOutcome.logged), (600, SampleOutcome.logged)]).loggedIntervals :=
  ⟨by decide,
    (C15_due_rule scenarioOffsets 330 denseLogged.loggedIntervals).2.2.2.2 300 denseLogged
      [(330, SampleOutcome.logged), (600, SampleOutcome.logged)] (by decide) (by decide)
      (by decide)⟩



/-- C16, the code at the failing input: entry 100 and calls of `checkExit` for `M1` at
the valuations 2000000 and 3000000, both above the activation valuation, with
elapsed below the maximum holding duration. From the constructor's state no call
stores a high: after the two calls `M1` is trailing-activated and `highestPrices`
is still empty. A third call at 1500000, half the highest valuation seen, reads
its own valuation as the high, computes a drop of 0 % and returns a take-profit
reason; a call at 0, a drop of 100 % from every valuation seen, returns a `Stop
loss triggered` reason and not a `Trailing stop triggered` one. -/
theorem C16_running_high_is_never_tracked :
    (∀ (mint : String) (currentPrice entryPrice interval : ℚ),
      (ActiveStrategy.new.checkExit mint currentPrice entryPrice interval).1.highestPrices
        = []) ∧
    sampleRisen.isTrailingActivated "M1" = true ∧
    sampleRisen.highestPrices = [] ∧
    currentHighestOf sampleRisen.highestPrices "M1" 1500000 = 1500000 ∧
    dropFromHigh (currentHighestOf sampleRisen.highestPrices "M1" 1500000) 1500000 = 0 ∧
    (sampleRisen.checkExit "M1" 1500000 100 12).2
      = { shouldExit := true, reason := some (.takeProfit 1499900) } ∧
    (sampleRisen.checkExit "M1" 1500000 100 12).1.highestPrices = [] ∧
    (sampleRisen.checkExit "M1" 0 100 12).2
      = { shouldExit := true, reason := some (.stopLoss (-100)) } := by
  have hp1 : (ActiveStrategy.new.checkExit "M1" 2000000 100 10).1.params
      = ActiveStrategy.new.params := checkExit_params _ _ _ _ _
  have hp : sampleRisen.params = ActiveStrategy.new.params := by
    unfold sampleRisen
    rw [checkExit_params, hp1]
  have hh : sampleRisen.highestPrices = [] := by
    unfold sampleRisen
    exact checkExit_highestPrices_empty _ _ _ _ _
      (checkExit_highestPrices_empty _ _ _ _ _ rfl)
  have hact : sampleRisen.isTrailingActivated "M1" = true := by
    unfold sampleRisen
    refine (checkExit_activated _ "M1" 3000000 100 11 ?_).1
    rw [hp1, percentageGain_entry_100]
    norm_num [ActiveStrategy.new]
  have hcur : currentHighestOf sampleRisen.highestPrices "M1" 1500000 = 1500000 := by
    rw [hh]
    rfl
  have hdrop :
      dropFromHigh (currentHighestOf sampleRisen.highestPrices "M1" 1500000) 1500000 = 0 := by
    rw [hcur]
    norm_num [dropFromHigh]
  refine ⟨fun mint currentPrice entryPrice interval =>
    checkExit_highestPrices_empty _ _ _ _ _ rfl, hact, hh, hcur, hdrop, ?_,
    checkExit_highestPrices_empty _ _ _ _ _ hh, ?_⟩
  · have hg : percentageGain 1500000 100 ≥ sampleRisen.params.trailingActivationPoint := by
      rw [hp, percentageGain_entry_100]
      norm_num [ActiveStrategy.new]
    obtain ⟨_, _, h3⟩ := checkExit_activated sampleRisen "M1" 1500000 100 12 hg
    rcases h3 with ⟨hd, _⟩ | ⟨_, h3⟩
    · rw [hdrop, hp] at hd
      norm_num [ActiveStrategy.new] at hd
    · rw [h3, hp, percentageGain_entry_100]
      norm_num [ActiveStrategy.new, checkExitAlways]
  · have hg : ¬ percentageGain 0 100 ≥ sampleRisen.params.trailingActivationPoint := by
      rw [hp, percentageGain_entry_100]
      norm_num [ActiveStrategy.new]
    obtain ⟨_, _, h4⟩ := checkExit_not_activated sampleRisen "M1" 0 100 12 hg
    rw [h4, hp, percentageGain_entry_100]
    norm_num [ActiveStrategy.new]

/-- C17, the code at the failing input: a first call at a valuation of 1000100 (gain
1000000 %) marks `M1` as trailing-activated; a later call at a valuation of 50
(gain -50 %) returns a `Stop loss triggered` reason. -/
theorem C17_stop_loss_after_activation :
    (ActiveStrategy.new.checkExit "M1" 1000100 100 10).1.isTrailingActivated "M1" = true ∧
    ((ActiveStrategy.new.checkExit "M1" 1000100 100 10).1.checkExit "M1" 50 100 20).2
      = { shouldExit := true, reason := some (.stopLoss (-50)) } := by
  have hg : percentageGain 1000100 100 ≥ ActiveStrategy.new.params.trailingActivationPoint := by
    rw [percentageGain_entry_100]
    norm_num [ActiveStrategy.new]
  obtain ⟨h1, _, _⟩ := checkExit_activated ActiveStrategy.new "M1" 1000100 100 10 hg
  refine ⟨h1, ?_⟩
  have hp : (ActiveStrategy.new.checkExit "M1" 1000100 100 10).1.params
      = ActiveStrategy.new.params := by
    unfold ActiveStrategy.checkExit
    simp only [hg, if_true]
    repeat' split
    all_goals rfl
  have hg2 : ¬ percentageGain 50 100 ≥
      (ActiveStrategy.new.checkExit "M1" 1000100 100 10).1.params.trailingActivationPoint := by
    rw [hp, percentageGain_entry_100]
    norm_num [ActiveStrategy.new]
  obtain ⟨_, _, h4⟩ := checkExit_not_activated _ "M1" 50 100 20 hg2
  rw [h4, hp, percentageGain_entry_100]
  norm_num [ActiveStrategy.new]


/-- C18 (unconditional exits). For every mint, positive entry valuation, current
valuation and elapsed seconds: if the percent gain is at least `takeProfit` or the
elapsed time is at least `exitInterval`, `checkExit` returns `shouldExit = true`; and
when it returns `shouldExit = false`, the reason is `null` and none of the take-profit,
time, stop-loss and trailing-stop conditions evaluated by the method holds. With the
constructor's parameters the stop-loss and trailing-stop conditions then fail
outright: the gain is above -10 % and the drawdown from any positive high is below
100 %. -/
theorem C18_unconditional_exits (s : ActiveStrategy) (mint : String)
    (currentPrice entryPrice interval : ℚ) (hentry : 0 < entryPrice) :
    ((percentageGain currentPrice entryPrice ≥ s.params.takeProfit ∨
        interval ≥ s.params.exitInterval) →
      (s.checkExit mint currentPrice entryPrice interval).2.shouldExit = true) ∧
    ((s.checkExit mint currentPrice entryPrice interval).2.shouldExit = false →
      (s.checkExit mint currentPrice entryPrice interval).2.reason = none ∧
      ¬ percentageGain currentPrice entryPrice ≥ s.params.takeProfit ∧
      ¬ interval ≥ s.params.exitInterval ∧
      ¬ (¬ percentageGain currentPrice entryPrice ≥ s.params.trailingActivationPoint ∧
          percentageGain currentPrice entryPrice ≤ -s.params.stopLoss) ∧
      ¬ (percentageGain currentPrice entryPrice ≥ s.params.trailingActivationPoint ∧
          dropFromHigh (currentHighestOf s.highestPrices mint currentPrice) currentPrice
            ≥ s.params.trailingStop) ∧
      (s.params = ActiveStrategy.new.params →
        ¬ percentageGain currentPrice entryPrice ≤ -10 ∧
        ∀ high : ℚ, 0 < high → ¬ dropFromHigh high currentPrice ≥ 100)) := by
  have hgen : (s.checkExit mint currentPrice entryPrice interval).2.shouldExit = false →
      (s.checkExit mint currentPrice entryPrice interval).2.reason = none ∧
      ¬ percentageGain currentPrice entryPrice ≥ s.params.takeProfit ∧
      ¬ interval ≥ s.params.exitInterval ∧
      ¬ (¬ percentageGain currentPrice entryPrice ≥ s.params.trailingActivationPoint ∧
          percentageGain currentPrice entryPrice ≤ -s.params.stopLoss) ∧
      ¬ (percentageGain currentPrice entryPrice ≥ s.params.trailingActivationPoint ∧
          dropFromHigh (currentHighestOf s.highestPrices mint currentPrice) currentPrice
            ≥ s.params.trailingStop) := by
    intro hno
    by_cases hg : percentageGain currentPrice entryPrice ≥ s.params.trailingActivationPoint
    · obtain ⟨_, _, h3⟩ := checkExit_activated s mint currentPrice entryPrice interval hg
      rcases h3 with ⟨_, h3⟩ | ⟨hd, h3⟩
      · rw [h3] at hno
        cases hno
      · rw [h3] at hno ⊢
        obtain ⟨e, h1, h2⟩ := checkExitAlways_no_exit _ _ _ hno
        exact ⟨by rw [e], h1, h2, fun h => h.1 hg, fun h => hd h.2⟩
    · obtain ⟨_, _, h3⟩ := checkExit_not_activated s mint currentPrice entryPrice interval hg
      by_cases hsl : percentageGain currentPrice entryPrice ≤ -s.params.stopLoss
      · rw [h3, if_pos hsl] at hno
        cases hno
      · rw [h3, if_neg hsl] at hno ⊢
        obtain ⟨e, h1, h2⟩ := checkExitAlways_no_exit _ _ _ hno
        exact ⟨by rw [e], h1, h2, fun h => hsl h.2, fun h => hg h.1⟩
  refine ⟨?_, ?_⟩
  · intro h
    by_cases hg : percentageGain currentPrice entryPrice ≥ s.params.trailingActivationPoint
    · obtain ⟨_, _, h3⟩ := checkExit_activated s mint currentPrice entryPrice interval hg
      rcases h3 with ⟨_, h3⟩ | ⟨_, h3⟩
      · rw [h3]
      · rw [h3]
        exact checkExitAlways_exit _ _ _ h
    · obtain ⟨_, _, h3⟩ := checkExit_not_activated s mint currentPrice entryPrice interval hg
      rw [h3]
      split
      · rfl
      · exact checkExitAlways_exit _ _ _ h
  · intro hno
    obtain ⟨h1, h2, h3, h4, h5⟩ := hgen hno
    refine ⟨h1, h2, h3, h4, h5, ?_⟩
    intro hparams
    have hact : s.params.trailingActivationPoint = 1000000 := by rw [hparams]; rfl
    have hsl : s.params.stopLoss = 10 := by rw [hparams]; rfl
    have hnsl : ¬ percentageGain currentPrice entryPrice ≤ -10 := by
      intro hle
      apply h4
      rw [hact, hsl]
      exact ⟨by intro hge; linarith, hle⟩
    refine ⟨hnsl, ?_⟩
    intro high hhigh hd
    have hpos : 0 < currentPrice := by
      by_contra hc
      apply hnsl
      have hc1 : currentPrice ≤ 0 := not_lt.1 hc
      unfold percentageGain
      have : (currentPrice - entryPrice) / entryPrice ≤ -1 := by
        rw [div_le_iff₀ hentry]
        linarith
      linarith
    unfold dropFromHigh at hd
    have : (high - currentPrice) / high < 1 := by
      rw [div_lt_one hhigh]
      linarith
    linarith

/-- C18 at the constructor's instance: entry 100, valuation 150, elapsed 1200 s. -/
theorem C18_witness :
    (0 : ℚ) < 100 ∧ (1200 : ℚ) ≥ ActiveStrategy.new.params.exitInterval ∧
    (ActiveStrategy.new.checkExit "M1" 150 100 1200).2.shouldExit = true :=
  ⟨by norm_num, by norm_num [ActiveStrategy.new],
    (C18_unconditional_exits ActiveStrategy.new "M1" 150 100 1200 (by norm_num)).1
      (Or.inr (by norm_num [ActiveStrategy.new]))⟩

/-- C19 (entry rule). With a positive lower bound, as the constructor sets it,
`checkEntry(metrics)` returns `true` exactly when `metrics.initial_marketcap` is
present and lies in the closed range `[minInitialMarketcap, maxInitialMarketcap]`; it
returns `false` when the field is missing or zero. The method is total: it returns
a boolean on every input. -/
theorem C19_checkEntry (s : ActiveStrategy) (metrics : Metrics)
    (hmin : 0 < s.params.minInitialMarketcap) :
    (s.checkEntry metrics = true ↔
      ∃ v : ℚ, metrics.initial_marketcap = some v ∧
        s.params.minInitialMarketcap ≤ v ∧ v ≤ s.params.maxInitialMarketcap) ∧
    (metrics.initial_marketcap = none ∨ metrics.initial_marketcap = some 0 →
      s.checkEntry metrics = false) := by
  unfold ActiveStrategy.checkEntry
  cases hm : metrics.initial_marketcap with
  | none => simp
  | some v =>
    by_cases hv : v = 0
    · subst hv
      simp
      intro h
      linarith
    · simp [hv]

/-- C19 at the constructor's instance: both bounds are included, and a missing or
zero valuation is refused. -/
theorem C19_witness :
    (0 : ℚ) < ActiveStrategy.new.params.minInitialMarketcap ∧
    ActiveStrategy.new.checkEntry { initial_marketcap := some 60000 } = true ∧
    ActiveStrategy.new.checkEntry { initial_marketcap := some 74000 } = true ∧
    ActiveStrategy.new.checkEntry { initial_marketcap := none } = false ∧
    ActiveStrategy.new.checkEntry { initial_marketcap := some 0 } = false :=
  have h : (0 : ℚ) < ActiveStrategy.new.params.minInitialMarketcap := by
    norm_num [ActiveStrategy.new]
  ⟨h,
    (C19_checkEntry ActiveStrategy.new { initial_marketcap := some 60000 } h).1.2
      ⟨60000, rfl, by norm_num [ActiveStrategy.new], by norm_num [ActiveStrategy.new]⟩,
    (C19_checkEntry ActiveStrategy.new { initial_marketcap := some 74000 } h).1.2
      ⟨74000, rfl, by norm_num [ActiveStrategy.new], by norm_num [ActiveStrategy.new]⟩,
    (C19_checkEntry ActiveStrategy.new { initial_marketcap := none } h).2 (Or.inl rfl),
    (C19_checkEntry ActiveStrategy.new { initial_marketcap := some 0 } h).2 (Or.inr rfl)⟩



/-- C20 (transition events, amended). Each successful call of `startWithdrawProcessing`,
`completeWithdrawProcessing` and `startTradingProcess` emits, after the
`tokenInitialized` event of a mint seen for the first time, exactly one event, whose
payload holds the mint address, a timestamp equal to the token's `lastProcessedTime`
and the token's current stage (`withdraw`, `post-withdraw`, `trading`). A successful
`startMarketcapLogging` emits in the same way exactly one `marketcapLoggingStart`
event with the mint address and a timestamp equal to `lastProcessedTime`, but its
payload has no stage field. -/
theorem C20_transition_events (s : TokenStateManager) (mint : String) (dateNow : Nat → Nat) :
    ((s.startWithdrawProcessing mint dateNow).2 = true →
      ∃ tok e, (s.startWithdrawProcessing mint dateNow).1.getTokenState mint = some tok ∧
        emittedBy s (s.startWithdrawProcessing mint dateNow).1
          = initEvents s mint (dateNow 0) ++ [e] ∧
        e = .withdrawStart mint (some (dateNow 1)) (some "withdraw") ∧
        e.payloadMint = mint ∧ e.payloadTimestamp = some tok.lastProcessedTime ∧
        e.payloadCurrentStage = some tok.currentStage) ∧
    (s.getTokenState mint ≠ none →
      ∃ tok e, (s.completeWithdrawProcessing mint dateNow).getTokenState mint = some tok ∧
        emittedBy s (s.completeWithdrawProcessing mint dateNow) = [e] ∧
        (∃ d, e = .withdrawComplete mint (some (dateNow 1)) (some "post-withdraw") d) ∧
        e.payloadMint = mint ∧ e.payloadTimestamp = some tok.lastProcessedTime ∧
        e.payloadCurrentStage = some tok.currentStage) ∧
    ((s.startTradingProcess mint dateNow).2 = true →
      ∃ tok e, (s.startTradingProcess mint dateNow).1.getTokenState mint = some tok ∧
        emittedBy s (s.startTradingProcess mint dateNow).1
          = initEvents s mint (dateNow 0) ++ [e] ∧
        e = .tradingStart mint (some (dateNow 1)) (some "trading") ∧
        e.payloadMint = mint ∧ e.payloadTimestamp = some tok.lastProcessedTime ∧
        e.payloadCurrentStage = some tok.currentStage) ∧
    ((s.startMarketcapLogging mint dateNow).2 = true →
      ∃ tok e, (s.startMarketcapLogging mint dateNow).1.getTokenState mint = some tok ∧
        emittedBy s (s.startMarketcapLogging mint dateNow).1
          = initEvents s mint (dateNow 0) ++ [e] ∧
        e = .marketcapLoggingStart mint (some (dateNow 1)) ∧
        e.payloadMint = mint ∧ e.payloadTimestamp = some tok.lastProcessedTime ∧
        e.payloadCurrentStage = none) := by
  obtain ⟨hem, _, _⟩ := initializeToken_emitted s mint (dateNow 0)
  refine ⟨?_, ?_, ?_, ?_⟩
  · intro h
    unfold TokenStateManager.startWithdrawProcessing at h ⊢
    simp only at h ⊢
    split at h
    · cases h
    · rename_i hw
      simp only [hw]
      refine ⟨_, _, JsMap.get_set_self _ _ _, ?_, rfl, rfl, rfl, rfl⟩
      apply emittedBy_append
      simp [TokenStateManager.emit, hem]
  · intro h
    unfold TokenStateManager.getTokenState at h
    unfold TokenStateManager.completeWithdrawProcessing
    cases hg : JsMap.get s.tokens mint with
    | none => exact absurd hg h
    | some token =>
      simp only
      refine ⟨_, .withdrawComplete mint (some (dateNow 1)) (some "post-withdraw")
        ((TokenStateManager.closeWithdrawEntry (dateNow 0) token.processingHistory).2.bind
          (fun h => h.duration)), JsMap.get_set_self _ _ _, ?_, ⟨_, rfl⟩, rfl, rfl, rfl⟩
      apply emittedBy_append
      simp [TokenStateManager.emit]
  · intro h
    unfold TokenStateManager.startTradingProcess at h ⊢
    simp only at h ⊢
    split at h
    · cases h
    · rename_i hw
      simp only [hw]
      refine ⟨_, _, JsMap.get_set_self _ _ _, ?_, rfl, rfl, rfl, rfl⟩
      apply emittedBy_append
      simp [TokenStateManager.emit, hem]
  · intro h
    unfold TokenStateManager.startMarketcapLogging at h ⊢
    simp only at h ⊢
    split at h
    · cases h
    · rename_i hw
      simp only [hw]
      refine ⟨_, _, JsMap.get_set_self _ _ _, ?_, rfl, rfl, rfl, rfl⟩
      apply emittedBy_append
      simp [TokenStateManager.emit, hem]

/-- C20 on a fresh manager: `startTradingProcess` for `M1` succeeds and emits
`tokenInitialized` and then one `tradingStart` event carrying the stage. -/
theorem C20_witness :
    (TokenStateManager.new.startTradingProcess "M1" (fun k => 100 + k)).2 = true ∧
    ∃ tok e,
      (TokenStateManager.new.startTradingProcess "M1" (fun k => 100 + k)).1.getTokenState "M1"
        = some tok ∧
      emittedBy TokenStateManager.new
          (TokenStateManager.new.startTradingProcess "M1" (fun k => 100 + k)).1
        = initEvents TokenStateManager.new "M1" 100 ++ [e] ∧
      e = .tradingStart "M1" (some 101) (some "trading") ∧
      e.payloadMint = "M1" ∧ e.payloadTimestamp = some tok.lastProcessedTime ∧
      e.payloadCurrentStage = some tok.currentStage :=
  ⟨by decide,
    (C20_transition_events TokenStateManager.new "M1" (fun k => 100 + k)).2.2.1 (by decide)⟩

/-- C20, counterexample to the claim as stated: on a fresh manager a successful
`startMarketcapLogging` for `M1` emits `tokenInitialized` and `marketcapLoggingStart`;
no emitted payload has a stage field, and the token's current stage stays `null`. -/
theorem C20_counterexample :
    (TokenStateManager.new.startMarketcapLogging "M1" (fun k => 100 + k)).2 = true ∧
    (TokenStateManager.new.startMarketcapLogging "M1" (fun k => 100 + k)).1.emitted
      = [.tokenInitialized "M1" 100, .marketcapLoggingStart "M1" (some 101)] ∧
    (∀ e ∈ (TokenStateManager.new.startMarketcapLogging "M1" (fun k => 100 + k)).1.emitted,
      e.payloadCurrentStage = none) ∧
    ((TokenStateManager.new.startMarketcapLogging "M1" (fun k => 100 + k)).1.getTokenState
      "M1").map (fun t => t.currentStage) = some none := by
  decide



/-- C21, the code at the failing input: a withdrawal event for `M1` on freshly loaded
modules, every processing step succeeding. `App.processWithdrawEvent` runs all its
steps and leaves the token at stage `post-withdraw` with an empty
`processingHistory` and no `lastProcessedTime`: no entry was appended on entry and
none was closed on completion. The state manager's own operations
`startWithdrawProcessing` and `completeWithdrawProcessing`, on the same mint, leave
one withdraw entry with its start time, end time and duration. -/
theorem C21_processWithdrawEvent_keeps_no_history :
    sampleProcessed.calls =
      [.insertOrUpdateToken, .getHodlerAccountData, .calculateMetrics, .insertMetrics,
        .msgCalculatedMetrics, .sendMessage] ∧
    sampleProcessed.tokens.getTokenState "M1" = some
      { mintAddress := "M1", withdrawProcessing := false, tradingStarted := false,
        marketcapLogging := false, lastProcessedTime := none,
        currentStage := some "post-withdraw", errors := [], retryAttempts := 0,
        processingHistory := [] } ∧
    ((TokenStateManager.completeWithdrawProcessing
        (TokenStateManager.startWithdrawProcessing TokenStateManager.new "M1"
          (fun k => 1000 + k)).1 "M1" (fun k => 2000 + k)).getTokenState "M1").map
      (fun token => token.processingHistory) = some
      [{ stage := "withdraw", startTime := 1002, endTime := some 2000,
         duration := some 998 }] := by
  decide

/-- C23, the code at the failing input: the token of `M1`, created by
`initializeToken` and processed only by `App.processWithdrawEvent`, has no
`lastProcessedTime`, and no pass of `cleanupInactiveTokens` removes it or emits a
`tokenCleanup` event for it, however long the inactivity window and however late
the pass. A token stamped by `startTradingProcess` at time 1001 is removed, with
one `tokenCleanup` event, by the first pass more than `MAX_INACTIVE_TIME` later. -/
theorem C23_withdraw_only_token_is_never_reclaimed :
    (sampleProcessed.tokens.getTokenState "M1").map (fun token => token.lastProcessedTime)
      = some none ∧
    (∀ maxInactiveTime now : Nat,
      TokenStateManager.cleanupInactiveTokens maxInactiveTime now sampleProcessed.tokens
        = sampleProcessed.tokens) ∧
    (TokenStateManager.cleanupInactiveTokens 3600000 3601002
        (TokenStateManager.startTradingProcess TokenStateManager.new "M1"
          (fun k => 1000 + k)).1).tokens = [] ∧
    emittedBy (TokenStateManager.startTradingProcess TokenStateManager.new "M1"
        (fun k => 1000 + k)).1
      (TokenStateManager.cleanupInactiveTokens 3600000 3601002
        (TokenStateManager.startTradingProcess TokenStateManager.new "M1"
          (fun k => 1000 + k)).1) = [.tokenCleanup "M1" 3601002 1001] :=
  ⟨by decide, fun _ _ => rfl, by decide, by decide⟩

/-- C26 (unconditional withdraw cleanup). For every call of `App.processWithdrawEvent`
that passes the in-flight guard, whatever the outcome of each processing step and
of the calls of the `catch` block, at the end of the call the token of the mint has
`withdrawProcessing = false` and `currentStage = 'post-withdraw'`. The call makes
each of its collaborator calls at most once, starting with `insertOrUpdateToken`
(nothing is retried), and a later call for the same mint passes the guard again and
starts again with `insertOrUpdateToken`. -/
theorem C26_unconditional_withdraw_cleanup (cfg : ErrorReporting) (o : WithdrawOutcomes)
    (tokenAddresses : TokenAddresses) (dateNow : Nat → Nat) (app : AppState)
    (hguard : app.tokens.isProcessingWithdraw tokenAddresses.mintAddress = false) :
    (∃ token,
      (processWithdrawEvent cfg o tokenAddresses dateNow app).1.tokens.getTokenState
        tokenAddresses.mintAddress = some token ∧
      token.withdrawProcessing = false ∧ token.currentStage = some "post-withdraw") ∧
    (∃ steps, (processWithdrawEvent cfg o tokenAddresses dateNow app).1.calls = app.calls ++ steps ∧
      steps.Nodup ∧ steps.head? = some AppStep.insertOrUpdateToken) ∧
    (∀ (o2 : WithdrawOutcomes) (dateNow2 : Nat → Nat),
      (processWithdrawEvent cfg o tokenAddresses dateNow app).1.tokens.isProcessingWithdraw
        tokenAddresses.mintAddress = false ∧
      ∃ steps2,
        (processWithdrawEvent cfg o2 tokenAddresses dateNow2
          (processWithdrawEvent cfg o tokenAddresses dateNow app).1).1.calls =
          (processWithdrawEvent cfg o tokenAddresses dateNow app).1.calls ++ steps2 ∧
        steps2.head? = some AppStep.insertOrUpdateToken) := by
  obtain ⟨⟨token, h1, h2, h3⟩, hsteps⟩ :=
    processWithdrawEvent_passed cfg o tokenAddresses dateNow app hguard
  have hidle :
      (processWithdrawEvent cfg o tokenAddresses dateNow app).1.tokens.isProcessingWithdraw
        tokenAddresses.mintAddress = false := by
    unfold TokenStateManager.isProcessingWithdraw
    unfold TokenStateManager.getTokenState at h1
    rw [h1]
    exact h2
  refine ⟨⟨token, h1, h2, h3⟩, hsteps, ?_⟩
  intro o2 dateNow2
  obtain ⟨_, steps2, hs1, _, hs3⟩ :=
    processWithdrawEvent_passed cfg o2 tokenAddresses dateNow2 _ hidle
  exact ⟨hidle, steps2, hs1, hs3⟩

/-- C26 on freshly loaded modules with a failing `insertMetrics`: the token of `M1` ends
at `post-withdraw` with the flag cleared. -/
theorem C26_witness :
    AppState.new.tokens.isProcessingWithdraw sampleWithdrawEvent.mintAddress = false ∧
    ∃ token,
      (processWithdrawEvent sampleErrorReporting
        { sampleOutcomes with insertMetrics := .error "connection refused" }
        sampleWithdrawEvent (fun k => 1000 + k) AppState.new).1.tokens.getTokenState
        sampleWithdrawEvent.mintAddress = some token ∧
      token.withdrawProcessing = false ∧ token.currentStage = some "post-withdraw" :=
  ⟨by decide,
    (C26_unconditional_withdraw_cleanup sampleErrorReporting
      { sampleOutcomes with insertMetrics := .error "connection refused" }
      sampleWithdrawEvent (fun k => 1000 + k) AppState.new (by decide)).1⟩

/-- C28, the code at the failing input: `handleError` called with the mint `M1`, for
which the state manager has a token, raises the unhandled `error` event instead of
returning a boolean, for every error, context, clock value and configuration (on a
handler in which `M1` is not in cooldown). In `processWithdrawEvent` a failing
step therefore ends with the `catch` block raising: the promise is rejected and
`sendErrorNotification` is not called. -/
theorem C28_handleError_raises_for_tracked_mint :
    (sampleProcessed.tokens.getTokenState "M1").isSome = true ∧
    (∀ (cfg : ErrorReporting) (now : Nat) (error : JsError) (context : String),
      (ErrorHandler.handleError cfg now error (some "M1") context sampleProcessed.tokens
        ErrorHandler.new).2 = .error (unhandledErrorEvent error context)) ∧
    (processWithdrawEvent sampleErrorReporting
      { sampleOutcomes with insertMetrics := .error "connection refused" }
      sampleWithdrawEvent (fun k => 1000 + k) AppState.new).2
      = .error (unhandledErrorEvent "connection refused" "processWithdrawEvent") ∧
    (processWithdrawEvent sampleErrorReporting
      { sampleOutcomes with insertMetrics := .error "connection refused" }
      sampleWithdrawEvent (fun k => 1000 + k) AppState.new).1.calls
      = [.insertOrUpdateToken, .getHodlerAccountData, .calculateMetrics, .insertMetrics,
          .handleError] :=
  ⟨by decide, fun _ _ _ _ => rfl, rfl, by decide⟩



/-- C22 (error cooldown, amended). For a call of `handleError` that publishes no
`error` event (the global scope, or a mint for which the state manager has no
token): it returns `false` exactly when the scope is inside its cooldown window or
the current error makes the scope's error count within `ERROR_INTERVAL` reach
`MAX_ERRORS_PER_INTERVAL` (at least that maximum), and `true` otherwise; in the
second case the scope enters cooldown and one timer of `COOLDOWN_PERIOD` is set.
While a scope is in cooldown, whatever the token state, the call returns `false`
without incrementing the count, publishing an event or setting a timer. When the
timer fires, the scope leaves cooldown and its count is 0. -/
theorem C22_error_cooldown (cfg : ErrorReporting) (now : Nat) (error : JsError)
    (mintAddress : Option String) (context : String) (tokens : TokenStateManager)
    (h : ErrorHandler) (hquiet : publishesError tokens mintAddress = false) :
    ((ErrorHandler.handleError cfg now error mintAddress context tokens h).2 = .ok false ↔
      h.inCooldown (errorKeyOf mintAddress) = true ∨
      h.countInInterval cfg now (errorKeyOf mintAddress) + 1 ≥ cfg.MAX_ERRORS_PER_INTERVAL) ∧
    ((ErrorHandler.handleError cfg now error mintAddress context tokens h).2 = .ok true ↔
      ¬ (h.inCooldown (errorKeyOf mintAddress) = true ∨
        h.countInInterval cfg now (errorKeyOf mintAddress) + 1
          ≥ cfg.MAX_ERRORS_PER_INTERVAL)) ∧
    (h.inCooldown (errorKeyOf mintAddress) = false →
      h.countInInterval cfg now (errorKeyOf mintAddress) + 1 ≥ cfg.MAX_ERRORS_PER_INTERVAL →
      (ErrorHandler.handleError cfg now error mintAddress context tokens h).1.inCooldown
        (errorKeyOf mintAddress) = true ∧
      (ErrorHandler.handleError cfg now error mintAddress context tokens h).1.timers
        = h.timers ++ [(errorKeyOf mintAddress, cfg.COOLDOWN_PERIOD)]) ∧
    (h.inCooldown (errorKeyOf mintAddress) = true → ∀ tokens2 : TokenStateManager,
      (ErrorHandler.handleError cfg now error mintAddress context tokens2 h).2 = .ok false ∧
      (ErrorHandler.handleError cfg now error mintAddress context tokens2 h).1.countOf
        (errorKeyOf mintAddress) = h.countOf (errorKeyOf mintAddress) ∧
      (ErrorHandler.handleError cfg now error mintAddress context tokens2 h).1.timers
        = h.timers) ∧
    ((h.cooldownEnd (errorKeyOf mintAddress)).inCooldown (errorKeyOf mintAddress) = false ∧
      (h.cooldownEnd (errorKeyOf mintAddress)).countOf (errorKeyOf mintAddress) = 0) := by
  have hend : (h.cooldownEnd (errorKeyOf mintAddress)).inCooldown (errorKeyOf mintAddress)
        = false ∧
      (h.cooldownEnd (errorKeyOf mintAddress)).countOf (errorKeyOf mintAddress) = 0 := by
    simp [ErrorHandler.cooldownEnd, ErrorHandler.inCooldown, ErrorHandler.countOf,
      JsMap.get_set_self]
  have hcool : h.inCooldown (errorKeyOf mintAddress) = true → ∀ tokens2 : TokenStateManager,
      (ErrorHandler.handleError cfg now error mintAddress context tokens2 h).2 = .ok false ∧
      (ErrorHandler.handleError cfg now error mintAddress context tokens2 h).1.countOf
        (errorKeyOf mintAddress) = h.countOf (errorKeyOf mintAddress) ∧
      (ErrorHandler.handleError cfg now error mintAddress context tokens2 h).1.timers
        = h.timers := by
    intro hc tokens2
    obtain ⟨h1, h2, h3, _⟩ :=
      handleError_in_cooldown cfg now error mintAddress context tokens2 h hc
    exact ⟨h1, h2, h3⟩
  cases hc : h.inCooldown (errorKeyOf mintAddress) with
  | true =>
    obtain ⟨h1, _, _⟩ := hcool hc tokens
    refine ⟨?_, ?_, ?_, fun _ => hcool hc, hend⟩
    · rw [h1]
      simp
    · rw [h1]
      simp
    · intro hf
      simp [hc] at hf
  | false =>
    obtain ⟨h1, _, h3⟩ :=
      handleError_counted cfg now error mintAddress context tokens h hc hquiet
    refine ⟨?_, ?_, fun _ => h3, ?_, hend⟩
    · rw [h1]
      simp
    · rw [h1]
      simp
    · intro hf
      simp [hc] at hf

/-- C22 on the global scope with a maximum of 3 errors per interval: after two errors
the third one, still within the interval, is answered with `false`. -/
theorem C22_witness :
    publishesError TokenStateManager.new none = false ∧
    (ErrorHandler.handleError sampleErrorReporting 0 "first" none "poll" TokenStateManager.new
      ErrorHandler.new).2 = .ok true ∧
    (ErrorHandler.handleError sampleErrorReporting 2 "third" none "poll" TokenStateManager.new
      sampleTwoErrors).2 = .ok false :=
  ⟨rfl,
    (C22_error_cooldown sampleErrorReporting 0 "first" none "poll" TokenStateManager.new
      ErrorHandler.new rfl).2.1.2 (by decide),
    (C22_error_cooldown sampleErrorReporting 2 "third" none "poll" TokenStateManager.new
      sampleTwoErrors rfl).1.2 (Or.inr (by decide))⟩

/-- C22, counterexample to the claim as stated: with a maximum of 3 errors per
interval, the global scope has had two errors and is not in cooldown; the third
error, one millisecond later, brings the count to 3, which does not exceed the
maximum, and yet `handleError` returns `false`. -/
theorem C22_counterexample :
    sampleTwoErrors.inCooldown "global" = false ∧
    sampleTwoErrors.countInInterval sampleErrorReporting 2 "global" + 1 = 3 ∧
    ¬ (3 > sampleErrorReporting.MAX_ERRORS_PER_INTERVAL) ∧
    (ErrorHandler.handleError sampleErrorReporting 2 "third" none "poll" TokenStateManager.new
      sampleTwoErrors).2 = .ok false :=
  ⟨by decide, by decide, by decide, rfl⟩



/-- C24 (bounded dedup set). From a state in which `processedSignatures` holds at most
`MAX_SIGNATURE_CACHE` ids, as after the constructor, it holds at most that many at
the end of every poll cycle, whatever the fetch gave (an empty batch, a batch, an
error), and so after any number of cycles. A cycle either leaves the set as it
was or, for a completed batch, leaves the set with the ids of the batch added when
that is within the ceiling and the empty set when it is larger: the trimming step
empties a set above the ceiling entirely and leaves any other set untouched. -/
theorem C24_bounded_dedup_set {σ : Type} (cfg : Config) (env : Collaborators σ)
    (fetches : List (Except JsError (List String))) (w : World σ)
    (hbound : w.monitor.processedSignatures.length ≤ cfg.MAX_SIGNATURE_CACHE) :
    (∀ fetched, (checkRecentTransactions cfg env fetched w).monitor.processedSignatures.length
      ≤ cfg.MAX_SIGNATURE_CACHE) ∧
    (runCycles cfg env w fetches).monitor.processedSignatures.length
      ≤ cfg.MAX_SIGNATURE_CACHE ∧
    (∀ fetched,
      (checkRecentTransactions cfg env fetched w).monitor.processedSignatures
          = w.monitor.processedSignatures ∨
      ∃ newest more, fetched = .ok (newest :: more) ∧ w.monitor.isChecking = false ∧
        (checkRecentTransactions cfg env fetched w).monitor.processedSignatures =
          if (cacheAfter w.monitor.processedSignatures (newest :: more)).length
              > cfg.MAX_SIGNATURE_CACHE then []
          else cacheAfter w.monitor.processedSignatures (newest :: more)) ∧
    (∀ w1 : World σ,
      (w1.monitor.processedSignatures.length > cfg.MAX_SIGNATURE_CACHE →
        (trimCache cfg w1).monitor.processedSignatures = []) ∧
      (w1.monitor.processedSignatures.length ≤ cfg.MAX_SIGNATURE_CACHE →
        trimCache cfg w1 = w1)) := by
  refine ⟨fun fetched => checkRecentTransactions_bounded cfg env fetched w hbound, ?_,
    fun fetched => checkRecentTransactions_cache cfg env fetched w, ?_⟩
  · induction fetches generalizing w with
    | nil => exact hbound
    | cons fetched rest ih =>
      exact ih _ (checkRecentTransactions_bounded cfg env fetched w hbound)
  · intro w1
    unfold trimCache
    constructor
    · intro hgt
      rw [if_pos hgt]
      rfl
    · intro hle
      rw [if_neg (Nat.not_lt.2 hle)]

/-- C24 with a ceiling of 2 ids: a batch of three new ids empties the set, a failed
poll and an empty batch leave it, a batch of two new ids stays. -/
theorem C24_witness :
    sampleWorld.monitor.processedSignatures.length ≤ smallCacheConfig.MAX_SIGNATURE_CACHE ∧
    (runCycles smallCacheConfig sampleEnv sampleWorld
      [.ok ["t1", "bad", "w1"]]).monitor.processedSignatures = [] ∧
    (runCycles smallCacheConfig sampleEnv sampleWorld
      [.ok ["t1", "bad", "w1"], .error "poll failed", .ok [], .ok ["t1", "w1"]]
      ).monitor.processedSignatures = ["w1", "t1"] ∧
    (runCycles smallCacheConfig sampleEnv sampleWorld
      [.ok ["t1", "bad", "w1"], .error "poll failed", .ok [], .ok ["t1", "w1"]]
      ).monitor.processedSignatures.length ≤ smallCacheConfig.MAX_SIGNATURE_CACHE :=
  ⟨by decide, by decide, by decide,
    (C24_bounded_dedup_set smallCacheConfig sampleEnv
      [.ok ["t1", "bad", "w1"], .error "poll failed", .ok [], .ok ["t1", "w1"]]
      sampleWorld (by decide)).2.1⟩

/-- C25 (re-entrant ticks are skipped). A tick of the polling timer that comes while
`isChecking` is true changes nothing at all: the transport is not called, no
callback is dispatched, and the checkpoint, the signature set and `isChecking`
stay as they are. A tick that comes while `isChecking` is false leaves it false
at its end, whatever the fetch gave (an empty batch, a batch, an error), so that
the next tick is not skipped: it calls the transport and runs its cycle. -/
theorem C25_reentrant_ticks_skipped {σ : Type} (cfg : Config) (env : Collaborators σ)
    (getSignaturesForAddress : Option String → σ → σ × Except JsError (List String))
    (w : World σ) :
    (w.monitor.isChecking = true →
      monitoringTick cfg env getSignaturesForAddress w = w ∧
      ∀ fetched, checkRecentTransactions cfg env fetched w = w) ∧
    (w.monitor.isChecking = false →
      (∀ fetched, (checkRecentTransactions cfg env fetched w).monitor.isChecking = false) ∧
      (monitoringTick cfg env getSignaturesForAddress w).monitor.isChecking = false ∧
      ∀ next : Option String → σ → σ × Except JsError (List String),
        monitoringTick cfg env next (monitoringTick cfg env getSignaturesForAddress w) =
          checkRecentTransactions cfg env
            (next (monitoringTick cfg env getSignaturesForAddress w).monitor.lastCheckedSignature
              (monitoringTick cfg env getSignaturesForAddress w).ext).2
            { monitoringTick cfg env getSignaturesForAddress w with
              ext := (next
                (monitoringTick cfg env getSignaturesForAddress w).monitor.lastCheckedSignature
                (monitoringTick cfg env getSignaturesForAddress w).ext).1 }) := by
  constructor
  · intro hc
    refine ⟨?_, fun fetched => checkRecentTransactions_busy cfg env fetched w hc⟩
    unfold monitoringTick
    rw [if_pos hc]
  · intro hc
    have hidle : (monitoringTick cfg env getSignaturesForAddress w).monitor.isChecking
        = false := by
      unfold monitoringTick
      simp only [hc, Bool.false_eq_true, if_false]
      exact checkRecentTransactions_idle cfg env _ _ hc
    refine ⟨fun fetched => checkRecentTransactions_idle cfg env fetched w hc, hidle, ?_⟩
    intro next
    generalize monitoringTick cfg env getSignaturesForAddress w = w1 at hidle ⊢
    unfold monitoringTick
    simp only [hidle, Bool.false_eq_true, if_false]

/-- C25 on a transport that counts its calls: a tick during a cycle in progress leaves
the counter at 0, and two ticks from the idle state call the transport twice. -/
theorem C25_witness :
    (sampleCheckingWorld.monitor.isChecking = true ∧
      sampleIdleWorld.monitor.isChecking = false) ∧
    (monitoringTick sampleConfig sampleCountingEnv sampleGetSignatures sampleCheckingWorld).ext
      = 0 ∧
    (monitoringTick sampleConfig sampleCountingEnv sampleGetSignatures sampleIdleWorld
      ).monitor.isChecking = false ∧
    (monitoringTick sampleConfig sampleCountingEnv sampleGetSignatures
      (monitoringTick sampleConfig sampleCountingEnv sampleGetSignatures sampleIdleWorld)).ext
      = 2 :=
  ⟨⟨rfl, rfl⟩,
    congrArg World.ext
      ((C25_reentrant_ticks_skipped sampleConfig sampleCountingEnv sampleGetSignatures
        sampleCheckingWorld).1 rfl).1,
    ((C25_reentrant_ticks_skipped sampleConfig sampleCountingEnv sampleGetSignatures
        sampleIdleWorld).2 rfl).2.1,
    by decide⟩

/-- C27, the code at the failing input: a pool of two endpoints, the original endpoint
down, endpoint 1 answering the first retry and down afterwards, endpoint 0 up. The
first call fails on the original endpoint, is rotated to endpoint 1 and succeeds.
The second call is issued on endpoint 1 directly, fails with `fetch failed`, and
this error reaches the caller: no rotation, no retry, although endpoint 0 would
answer. In general, once `this.connection` is a plain connection, a call through
it is that plain call. -/
theorem C27_no_failover_after_first_failover :
    (monitorCalls sampleFlakyTransport [sampleCall, sampleCall]
      (RpcWorld.new { size := 2, currentIndex := 0 } 0)).2
      = [.ok "getSignaturesForAddress answered by endpoint 1",
          .error "TypeError: fetch failed"] ∧
    (monitorCalls sampleFlakyTransport [sampleCall, sampleCall]
      (RpcWorld.new { size := 2, currentIndex := 0 } 0)).1.log
      = [.issued .original sampleCall, .switchToNextRPC, .issued (.pool 1) sampleCall,
          .issued (.pool 1) sampleCall] ∧
    isTransientNetworkError "TypeError: fetch failed" = true ∧
    (sampleFlakyTransport (.pool 0) sampleCall 3).2
      = .ok "getSignaturesForAddress answered by endpoint 0" ∧
    (∀ (send : Transport Nat String) (call : TransportCall) (w : RpcWorld Nat)
        (endpoint : Endpoint),
      monitorCall send call { w with connection := .direct endpoint }
        = callDirect send endpoint call { w with connection := .direct endpoint }) :=
  ⟨rfl, by decide, by decide, rfl, fun _ _ _ _ => rfl⟩

/-- C29, the code at the failing input: `M1` has started trading and every attempt
fails, with either provider. However deep the recursion is followed,
`fetchTokenSolPrice` has not completed, and the number of provider attempts made
equals the depth: it is unbounded. When only the first attempt (Jupiter) fails,
the call returns the price of the alternate provider after two attempts. -/
theorem C29_fallback_does_not_terminate :
    TokenStateManager.hasTradingStarted sampleTradingManager "M1" = true ∧
    (∀ fuel : Nat,
      (fetchTokenSolPrice sampleTradingManager
        (fun _ _ => (.error "provider down" : Except JsError Nat)) "M1" fuel 0 true).result
        = none ∧
      (fetchTokenSolPrice sampleTradingManager
        (fun _ _ => (.error "provider down" : Except JsError Nat)) "M1" fuel 0 true
        ).attempts.length = fuel) ∧
    (∀ fuel : Nat,
      (fetchTokenSolPrice sampleTradingManager
        (fun _ useJupiter => if useJupiter then .error "Jupiter down" else .ok 42)
        "M1" (fuel + 2) 0 true).result = some (.ok 42) ∧
      (fetchTokenSolPrice sampleTradingManager
        (fun _ useJupiter => if useJupiter then .error "Jupiter down" else .ok 42)
        "M1" (fuel + 2) 0 true).attempts = [true, false]) :=
  ⟨by decide,
    fun fuel => fetchTokenSolPrice_all_failing sampleTradingManager _ "M1" _ rfl rfl
      (fun _ _ => ⟨"provider down", rfl⟩) fuel 0 true,
    fun _ => ⟨rfl, rfl⟩⟩

/-- C30, the code at the failing input: the scenario offsets, a slow loop that ticks
every 10 s and samples that all succeed. The tick at 1200 s logs the last offset
and tears the run down with reason `COMPLETE`; the safety timer then fires and
calls `cleanup` again, so that the run emits two `marketcapLoggingComplete`
events. Whatever the state of a run, the safety timer adds one more such event. -/
theorem C30_completion_emitted_twice :
    marketcapLoggingComplete (runTicks scenarioOffsets SlowLoop.new (regularTicks 10 120))
      = ["COMPLETE"] ∧
    marketcapLoggingComplete (runLogMarketcap scenarioOffsets (regularTicks 10 120))
      = ["COMPLETE", "TIMEOUT"] ∧
    (∀ s : SlowLoop,
      marketcapLoggingComplete (safetyTimeout s) = marketcapLoggingComplete s ++ ["TIMEOUT"]) :=
  ⟨by decide, by decide, fun _ => rfl⟩


end SplScan
